import Mathlib

/-!
# SimChem simulation engine: shallow embedding and verification

This file embeds the core of the SimChem particle-simulation engine in Lean 4
and proves (or refutes) the testable properties stated in the project
specification.

Embedding conventions:
* JavaScript numbers are modelled as real numbers (`ℝ`); all arithmetic in the
  engine is real arithmetic.
* Atoms live in a `List Atom`; object identity/aliasing of the JS engine is
  modelled by updating the list entry with the matching `id` (atom ids are
  unique for an atom's lifetime, per the data model).
* `Math.random()` draws are modelled by an explicit stream `ℕ → ℝ` together
  with a cursor that is threaded through the state, so stochastic operations
  are deterministic functions of the oracle.
* The element reference table (`ELEMENTS`, a static lookup file that is not
  part of the simulation core) is passed as an explicit `List ElementData`
  parameter.

The repository keeps two drafts of the chemistry module.  Both are embedded
where they differ (the decay routine): `processDecayV1` is the draft that
clears bonds and removes atoms on a failed product lookup, `processDecayV2`
is the draft in the final `simulation/chemistry.ts` layout.  The annealing and
interaction resolvers are embedded from the final draft (the one with
drag-group support), whose bond-graph behaviour coincides with the earlier
draft.
-/

set_option autoImplicit false

namespace SimChem

/-! ## Data model (src/types.ts) -/

/-- Decay mode of an isotope (`"alpha" | "beta"`). -/
inductive DecayMode where
  | alpha
  | beta
deriving DecidableEq

/-- Decay product reference (`p?: { z: number; m: number }`). -/
structure ProductRef where
  z : Int
  m : ℝ

/-- `Isotope`: mass, half-life (`none` models `"stable"`), decay mode and
optional decay product. -/
structure Isotope where
  m : ℝ
  hl : Option ℝ
  mode : Option DecayMode
  p : Option ProductRef

/-- `ElementData`: atomic number `z`, symbol `s`, name `n`, valence capacity
`v`, display color `c`, isotope list `iso`. -/
structure ElementData where
  z : Int
  s : String
  n : String
  v : Int
  c : String
  iso : List Isotope

/-- `Atom` state record. -/
@[ext]
structure Atom where
  id : String
  x : ℝ
  y : ℝ
  vx : ℝ
  vy : ℝ
  element : ElementData
  isotopeIndex : ℕ
  bonds : List String
  mass : ℝ
  radius : ℝ

/-- `Particle` (visual only; the engine just emits them).  The JS particle id
is `Math.random().toString(36)`; we keep the raw draw. -/
structure Particle where
  id : ℝ
  x : ℝ
  y : ℝ
  vx : ℝ
  vy : ℝ
  life : ℝ
  maxLife : ℝ
  color : String
  size : ℝ

/-- Random oracle: the stream of values produced by `Math.random()` together
with a cursor into the stream. -/
structure Rng where
  seq : ℕ → ℝ
  k : ℕ

/-- One `Math.random()` draw. -/
def Rng.next (r : Rng) : ℝ × Rng := (r.seq r.k, { r with k := r.k + 1 })

/-! ## Configuration constants (simulation/constants.ts) -/

def SUBSTEPS : ℕ := 8

def MAX_SPEED : ℝ := 20

def DRAG_COEFF : ℝ := 0.95

def BOND_STIFFNESS : ℝ := 0.6

def BOND_DAMPING : ℝ := 0.2

def REACTION_THRESHOLD_SQ : ℝ := 20

def ANGULAR_STIFFNESS : ℝ := 1.0

/-- Atomic numbers acting as covalent non-metals. -/
def COVALENT_Z : List Int :=
  [1, 2, 5, 6, 7, 8, 9, 10, 14, 15, 16, 17, 18, 33, 34, 35, 36, 52, 53, 54, 85, 86]

/-! ## Bond graph utilities (simulation/utils.ts) -/

/-- `getBondOrder(a, bId)`: number of occurrences of `bId` in `a`'s bond
list. -/
def getBondOrder (a : Atom) (bId : String) : ℕ :=
  a.bonds.count bId

/-- Update every atom whose id is `id` (there is at most one: ids are
unique). Models direct mutation of the JS object with that id. -/
def mapById (atoms : List Atom) (id : String) (f : Atom → Atom) : List Atom :=
  atoms.map fun x => if x.id = id then f x else x

/-- Update the first atom with the given id, as `allAtoms.find(...)` does;
no-op when the id names no live atom. -/
def updateFirstById (atoms : List Atom) (id : String) (f : Atom → Atom) : List Atom :=
  match atoms with
  | [] => []
  | x :: xs => if x.id = id then f x :: xs else x :: updateFirstById xs id f

/-- Remove the first occurrence of `v` (models `indexOf` + `splice(i, 1)`). -/
def removeFirst (l : List String) (v : String) : List String :=
  match l with
  | [] => []
  | x :: xs => if x = v then xs else x :: removeFirst xs v

/-- `addBond(a, b)`: push each partner's id onto the other's bond list. -/
def addBond (atoms : List Atom) (aId bId : String) : List Atom :=
  let atoms1 := mapById atoms aId (fun a => { a with bonds := a.bonds ++ [bId] })
  mapById atoms1 bId (fun b => { b with bonds := b.bonds ++ [aId] })

/-- `breakBond(allAtoms, a, bId)`: remove all occurrences of `bId` from `a`'s
list, then all occurrences of `a.id` from the bond list of the first atom
whose id is `bId` (if any). -/
def breakBond (atoms : List Atom) (aId bId : String) : List Atom :=
  let atoms1 := mapById atoms aId (fun a => { a with bonds := a.bonds.filter (fun i => i ≠ bId) })
  updateFirstById atoms1 bId (fun b => { b with bonds := b.bonds.filter (fun i => i ≠ aId) })

/-- `decrementBond(allAtoms, a, bId)`: remove exactly one occurrence from each
side; returns whether a removal occurred. -/
def decrementBond (atoms : List Atom) (aId bId : String) : List Atom × Bool :=
  match atoms.find? (fun x => x.id = aId) with
  | none => (atoms, false)
  | some a =>
    if bId ∈ a.bonds then
      let atoms1 := mapById atoms aId (fun x => { x with bonds := removeFirst x.bonds bId })
      let atoms2 := updateFirstById atoms1 bId (fun b => { b with bonds := removeFirst b.bonds aId })
      (atoms2, true)
    else (atoms, false)

/-! ### BFS over the bond graph (`getMoleculeGroup`) -/

/-- All ids occurring in any bond list of the atom list: a finite universe for
the BFS termination measure. -/
def bondIdUniverse (allAtoms : List Atom) : Finset String :=
  allAtoms.foldr (fun a acc => a.bonds.toFinset ∪ acc) ∅

/-- The `for (neighborId of bonds)` body: ids not yet in the group are added
to the group and pushed on the queue. -/
def enqueueNew (gq : Finset String × List String) (nbrs : List String) :
    Finset String × List String :=
  nbrs.foldl
    (fun gq n => if n ∈ gq.1 then gq else (insert n gq.1, gq.2 ++ [n])) gq

theorem enqueueNew_subset (gq : Finset String × List String) (nbrs : List String) :
    gq.1 ⊆ (enqueueNew gq nbrs).1 := by
  induction nbrs generalizing gq with
  | nil => exact fun _ h => h
  | cons n ns ih =>
    simp only [enqueueNew, List.foldl_cons]
    by_cases h : n ∈ gq.1
    · simpa [h] using ih gq
    · refine fun x hx => ?_
      have := ih (insert n gq.1, gq.2 ++ [n])
      simp only [enqueueNew] at this
      simp only [h, if_neg, if_false]
      exact this (Finset.mem_insert_of_mem hx)

theorem enqueueNew_cases (gq : Finset String × List String) (nbrs : List String) :
    (enqueueNew gq nbrs = gq) ∨
      (∃ x, x ∈ (enqueueNew gq nbrs).1 ∧ x ∉ gq.1 ∧ x ∈ nbrs) := by
  induction nbrs generalizing gq with
  | nil => exact Or.inl rfl
  | cons n ns ih =>
    simp only [enqueueNew, List.foldl_cons]
    by_cases h : n ∈ gq.1
    · simp only [h, if_pos]
      rcases ih gq with h1 | ⟨x, hx1, hx2, hx3⟩
      · exact Or.inl h1
      · exact Or.inr ⟨x, hx1, hx2, List.mem_cons_of_mem _ hx3⟩
    · simp only [h, if_neg, if_false]
      refine Or.inr ⟨n, ?_, h, List.mem_cons_self _ _⟩
      have := enqueueNew_subset (insert n gq.1, gq.2 ++ [n]) ns
      exact this (Finset.mem_insert_self _ _)

theorem mem_bondIdUniverse {allAtoms : List Atom} {a : Atom}
    (hmem : a ∈ allAtoms) : ∀ n ∈ a.bonds, n ∈ bondIdUniverse allAtoms := by
  intro n hn
  induction allAtoms with
  | nil => cases hmem
  | cons y ys ih =>
    simp only [bondIdUniverse, List.foldr_cons, Finset.mem_union]
    rcases List.mem_cons.mp hmem with rfl | hmem'
    · exact Or.inl (List.mem_toFinset.mpr hn)
    · exact Or.inr (ih hmem')

theorem enqueueNew_cons_mem {gq : Finset String × List String} {n : String}
    {ns : List String} (h : n ∈ gq.1) :
    enqueueNew gq (n :: ns) = enqueueNew gq ns := by
  simp [enqueueNew, h]

theorem enqueueNew_cons_notMem {gq : Finset String × List String} {n : String}
    {ns : List String} (h : n ∉ gq.1) :
    enqueueNew gq (n :: ns) = enqueueNew (insert n gq.1, gq.2 ++ [n]) ns := by
  simp [enqueueNew, h]

theorem find?_mem_bondIdUniverse {allAtoms : List Atom} {id : String} {a : Atom}
    (h : allAtoms.find? (fun x => x.id = id) = some a) :
    ∀ n ∈ a.bonds, n ∈ bondIdUniverse allAtoms :=
  mem_bondIdUniverse (List.mem_of_find?_eq_some h)

/-- BFS worker for `getMoleculeGroup`.  Terminates because every id it can add
to the group lives in the finite universe of ids occurring in bond lists. -/
def bfsAux (allAtoms : List Atom) (group : Finset String) (queue : List String) :
    Finset String :=
  match queue with
  | [] => group
  | currentId :: rest =>
    match hfind : allAtoms.find? (fun a => a.id = currentId) with
    | none => bfsAux allAtoms group rest
    | some currentAtom =>
      let gq := enqueueNew (group, rest) currentAtom.bonds
      bfsAux allAtoms gq.1 gq.2
termination_by ((bondIdUniverse allAtoms \ group).card, queue.length)
decreasing_by
  · exact Prod.Lex.right _ (Nat.lt_succ_self _)
  · rcases enqueueNew_cases (group, xs) currentAtom.bonds with heq | ⟨y, hy1, hy2, hy3⟩
    · rw [heq]
      exact Prod.Lex.right _ (Nat.lt_succ_self _)
    · apply Prod.Lex.left
      apply Finset.card_lt_card
      rw [Finset.ssubset_def]
      refine ⟨fun z hz => ?_, fun hsub => ?_⟩
      · rcases Finset.mem_sdiff.mp hz with ⟨hzU, hzG⟩
        exact Finset.mem_sdiff.mpr
          ⟨hzU, fun hzG' => hzG (enqueueNew_subset (group, xs) currentAtom.bonds hzG')⟩
      · have hyU : y ∈ bondIdUniverse allAtoms := find?_mem_bondIdUniverse hfind y hy3
        have hmem := hsub (Finset.mem_sdiff.mpr ⟨hyU, hy2⟩)
        exact (Finset.mem_sdiff.mp hmem).2 hy1

/-- `getMoleculeGroup(allAtoms, startId)`: BFS over the bond graph starting at
`startId`. -/
def getMoleculeGroup (allAtoms : List Atom) (startId : String) : Finset String :=
  bfsAux allAtoms {startId} [startId]

/-! ## VSEPR target geometry (simulation/vsepr.ts) -/

/-- Result of `getTargetGeometry`: ideal angle (radians) and whether the bonds
wrap around the full circle. -/
structure Geometry where
  angle : ℝ
  loop : Bool

/-- `getValenceElectrons(z)`: valence electrons for the s/p blocks, `null`
elsewhere. -/
def getValenceElectrons (z : Int) : Option Int :=
  if z = 1 then some 1
  else if z = 2 then some 2
  else if 3 ≤ z ∧ z ≤ 10 then some (z - 2)
  else if 11 ≤ z ∧ z ≤ 18 then some (z - 10)
  else if 19 ≤ z ∧ z ≤ 20 then some (z - 18)
  else if 31 ≤ z ∧ z ≤ 36 then some (z - 28)
  else if 37 ≤ z ∧ z ≤ 38 then some (z - 36)
  else if 49 ≤ z ∧ z ≤ 54 then some (z - 46)
  else if 55 ≤ z ∧ z ≤ 56 then some (z - 54)
  else none

/-- `getTargetGeometry(bondCount, lp)`: ideal angle and loop flag from the
electron-domain count. -/
noncomputable def getTargetGeometry (bondCount lp : ℕ) : Geometry :=
  let domains := bondCount + lp
  if domains = 2 then ⟨Real.pi, true⟩
  else if domains = 3 then
    if lp = 0 then ⟨2 * Real.pi / 3, true⟩
    else ⟨118 * Real.pi / 180, false⟩
  else if domains = 4 then
    if lp = 0 then ⟨Real.pi / 2, true⟩
    else if lp = 1 then ⟨107 * Real.pi / 180, false⟩
    else ⟨104.5 * Real.pi / 180, false⟩
  else if domains = 5 then ⟨72 * Real.pi / 180, true⟩
  else if domains = 6 then ⟨Real.pi / 3, true⟩
  else ⟨2 * Real.pi / (if bondCount = 0 then 1 else (bondCount : ℝ)), true⟩

/-! ## Decay probability formulas -/

/-- Per-tick decay probability of the first decay draft
(`prob = 1 - Math.pow(2, -frameDt / iso.hl)`). -/
noncomputable def decayProbPow (frameDt hl : ℝ) : ℝ :=
  1 - (2 : ℝ) ^ (-frameDt / hl)

/-- Per-tick decay probability of the final chemistry draft
(`lambda = 0.693 / iso.hl; p = 1 - Math.exp(-lambda * dt)`). -/
noncomputable def decayProbExp (dt hl : ℝ) : ℝ :=
  1 - Real.exp (-(0.693 / hl) * dt)

/-! ## Engine state -/

/-- Default values standing in for JS `undefined` when a lookup that the
engine guarantees to succeed is expressed with `getD`. -/
def defaultIsotope : Isotope := ⟨0, none, none, none⟩

def defaultElement : ElementData := ⟨0, "", "", 0, "", []⟩

def defaultAtom : Atom := ⟨"", 0, 0, 0, 0, defaultElement, 0, [], 0, 0⟩

/-- The mutable collections owned by the engine, plus the random oracle. -/
structure SimState where
  atoms : List Atom
  particles : List Particle
  rng : Rng

/-- `createExplosion(particles, x, y, color, count)`: appends `count`
particles, consuming four `Math.random()` draws per particle (angle, speed,
id, size). -/
noncomputable def createExplosion (s : SimState) (x y : ℝ) (color : String) (count : ℕ) :
    SimState :=
  (List.range count).foldl
    (fun s _ =>
      let (r1, g1) := s.rng.next
      let (r2, g2) := g1.next
      let (r3, g3) := g2.next
      let (r4, g4) := g3.next
      let angle := r1 * (Real.pi * 2)
      let speed := r2 * 5 + 2
      { s with
        particles := s.particles ++
          [{ id := r3, x := x, y := y,
             vx := Real.cos angle * speed, vy := Real.sin angle * speed,
             life := 1.0, maxLife := 1.0, color := color, size := r4 * 3 + 1 }],
        rng := g4 })
    s

/-! ## Annealing pass (chemistry.ts, `annealAtoms`) -/

/-- `dragGroup && dragGroup.has(id)`. -/
def dragGroupHas (dg : Option (List String)) (id : String) : Bool :=
  match dg with
  | none => false
  | some g => g.contains id

/-- The `a.bonds.find` locating a partner of the same element. -/
def homonuclearBondIdOf (atoms : List Atom) (a : Atom) : Option String :=
  a.bonds.find? (fun bid =>
    match atoms.find? (fun x => x.id = bid) with
    | some b => b.element.z = a.element.z
    | none => false)

/-- The `atoms.find` locating a better bonding hub for rule 1. -/
noncomputable def betterHubOf (atoms : List Atom) (a : Atom) (homonuclearBondId : String)
    (myValency : Int) : Option Atom :=
  atoms.find? (fun c => decide (
    ¬(c.id = a.id ∨ c.id = homonuclearBondId ∨ c.id ∈ a.bonds) ∧
    (let cMax := if c.element.z ∈ COVALENT_Z then c.element.v else 6
     myValency < cMax ∧ (c.bonds.length : Int) < cMax) ∧
    (c.x - a.x) * (c.x - a.x) + (c.y - a.y) * (c.y - a.y) < (a.radius * 4.5) ^ 2))

/-- Rule 2 of the annealing pass (acidic hydrogen correction). -/
noncomputable def annealRule2 (atoms : List Atom) (a : Atom) : List Atom :=
  if a.element.z = 1 then
    let partnerId := a.bonds.getD 0 ""
    match atoms.find? (fun p => p.id = partnerId) with
    | some partner =>
      if 5 ≤ partner.element.v then
        let bestO1 := atoms.find? (fun o => decide (
          o.element.z = 8 ∧ ¬(o.id = partnerId) ∧
          (o.bonds.length : Int) < o.element.v ∧ partnerId ∈ o.bonds))
        let bestOxygen :=
          match bestO1 with
          | some o => some o
          | none =>
            atoms.find? (fun o => decide (
              o.element.z = 8 ∧ ¬(o.id = partnerId) ∧
              (o.bonds.length : Int) < o.element.v ∧
              (let searchRadius := max (a.radius * 10) 120
               (o.x - a.x) * (o.x - a.x) + (o.y - a.y) * (o.y - a.y) <
                 searchRadius * searchRadius)))
        match bestOxygen with
        | some bestO =>
          let atoms1 := breakBond atoms a.id partnerId
          let dx := bestO.x - a.x
          let dy := bestO.y - a.y
          let dist0 := Real.sqrt (dx * dx + dy * dy)
          let dist := if dist0 = 0 then 1 else dist0
          mapById atoms1 a.id (fun p =>
            { p with vx := dx / dist * MAX_SPEED, vy := dy / dist * MAX_SPEED })
        | none => atoms
      else atoms
    | none => atoms
  else atoms

/-- Body of the `annealAtoms` loop for index `i`. -/
noncomputable def annealStep (dragGroup : Option (List String)) (atoms : List Atom) (i : ℕ) :
    List Atom :=
  let a := atoms.getD i defaultAtom
  if a.bonds.length = 0 then atoms
  else if dragGroupHas dragGroup a.id then atoms
  else
    match homonuclearBondIdOf atoms a with
    | some hbId =>
      let myValency := if a.element.z ∈ COVALENT_Z then a.element.v else 6
      if myValency ≤ 2 then
        match betterHubOf atoms a hbId myValency with
        | some betterHub =>
          let atoms1 := breakBond atoms a.id hbId
          let dx := betterHub.x - a.x
          let dy := betterHub.y - a.y
          let dist0 := Real.sqrt (dx * dx + dy * dy)
          let dist := if dist0 = 0 then 1 else dist0
          let atoms2 := mapById atoms1 a.id (fun p =>
            { p with vx := p.vx + dx / dist * 10.0, vy := p.vy + dy / dist * 10.0 })
          match atoms2.find? (fun x => x.id = hbId) with
          | some old =>
            let odx := a.x - old.x
            let ody := a.y - old.y
            let odist0 := Real.sqrt (odx * odx + ody * ody)
            let odist := if odist0 = 0 then 1 else odist0
            mapById atoms2 a.id (fun p =>
              { p with vx := p.vx + odx / odist * 5.0, vy := p.vy + ody / odist * 5.0 })
          | none => atoms2
        | none => annealRule2 atoms a
      else annealRule2 atoms a
    | none => annealRule2 atoms a

/-- `annealAtoms(atoms, dragGroup)`: one pass of both annealing rules over the
atom list (the list length is fixed during the pass). -/
noncomputable def annealAtoms (atoms : List Atom) (dragGroup : Option (List String)) :
    List Atom :=
  (List.range atoms.length).foldl (annealStep dragGroup) atoms

/-! ## Interaction resolver (chemistry.ts, `resolveInteractions`) -/

/-- The priority-heuristic scan: is there a reachable better partner with a
free slot and capacity at least `minValency`? -/
noncomputable def hasBetterOption (atoms : List Atom) (subject : Atom) (ignoreId : String)
    (minValency : Int) : Bool :=
  let searchRadius := max (subject.radius * 8.0) 100
  let searchDistSq := searchRadius * searchRadius
  atoms.any (fun c => decide (
    ¬(c.id = subject.id ∨ c.id = ignoreId) ∧
    c.id ∉ subject.bonds ∧
    (let cMax := if c.element.z ∈ COVALENT_Z then c.element.v else 6
     (c.bonds.length : Int) < cMax ∧ minValency ≤ cMax) ∧
    (c.x - subject.x) * (c.x - subject.x) + (c.y - subject.y) * (c.y - subject.y)
      < searchDistSq))

/-- Scale both velocity components of the atom with the given id. -/
def scaleVelById (atoms : List Atom) (id : String) (f : ℝ) : List Atom :=
  mapById atoms id (fun p => { p with vx := p.vx * f, vy := p.vy * f })

/-- Apply the pair impulse `(fx, fy)`: `a.v += f*invMassA`, `b.v -= f*invMassB`. -/
def applyPairImpulse (atoms : List Atom) (aId bId : String) (fx fy invMassA invMassB : ℝ) :
    List Atom :=
  let atoms1 := mapById atoms aId (fun p =>
    { p with vx := p.vx + fx * invMassA, vy := p.vy + fy * invMassA })
  mapById atoms1 bId (fun p =>
    { p with vx := p.vx - fx * invMassB, vy := p.vy - fy * invMassB })

/-- The `tryDissociate` closure of the impact-dissociation rule: an atom at or
above capacity loses one order of a random existing bond. -/
noncomputable def tryDissociate (atoms : List Atom) (rng : Rng) (atomId : String) :
    (List Atom × Rng) × Bool :=
  match atoms.find? (fun x => x.id = atomId) with
  | none => ((atoms, rng), false)
  | some atom =>
    let maxV := if atom.element.z ∈ COVALENT_Z then atom.element.v else 6
    if maxV ≤ (atom.bonds.length : Int) ∧ 0 < atom.bonds.length then
      let (r, rng1) := rng.next
      let idx := (Int.floor (r * (atom.bonds.length : ℝ))).toNat
      let partnerId := atom.bonds.getD idx ""
      let (atoms1, broke) := decrementBond atoms atom.id partnerId
      ((atoms1, rng1), broke)
    else ((atoms, rng), false)

/-- The chemistry block of one pair iteration (section 3 of the source):
bond formation, kinetic insertion, impact dissociation.  `a`/`b` are the live
objects re-read after the force phase. -/
noncomputable def pairChemistry (s : SimState) (i j : ℕ) : SimState :=
  let a := s.atoms.getD i defaultAtom
  let b := s.atoms.getD j defaultAtom
  let bondOrder := getBondOrder a b.id
  let isBonded := 0 < bondOrder
  let rvx := b.vx - a.vx
  let rvy := b.vy - a.vy
  let vRelSq := rvx * rvx + rvy * rvy
  let aMax := if a.element.z ∈ COVALENT_Z then a.element.v else 6
  let bMax := if b.element.z ∈ COVALENT_Z then b.element.v else 6
  let aFree := aMax - (a.bonds.length : Int)
  let bFree := bMax - (b.bonds.length : Int)
  if bondOrder < 3 ∧ 0 < aFree ∧ 0 < bFree then
    -- 3A. simple bonding
    let isBlocked : Bool :=
      if bondOrder = 0 then
        let blockedHub :=
          if a.element.z = b.element.z then
            hasBetterOption s.atoms a b.id (bMax + 1) ||
              hasBetterOption s.atoms b a.id (aMax + 1)
          else false
        if blockedHub then true
        else
          let aIsH := a.element.z = 1
          let bIsH := b.element.z = 1
          if aIsH ∧ 5 ≤ b.element.v then hasBetterOption s.atoms a b.id 2
          else if bIsH ∧ 5 ≤ a.element.v then hasBetterOption s.atoms b a.id 2
          else false
      else
        hasBetterOption s.atoms a b.id 1 || hasBetterOption s.atoms b a.id 1
    if isBlocked then s
    else
      let commonNeighborId := a.bonds.find? (fun id => b.bonds.contains id)
      let isStrained : Bool :=
        match commonNeighborId with
        | none => false
        | some cid =>
          match s.atoms.find? (fun at2 => at2.id = cid) with
          | none => false
          | some c =>
            let Ve := if c.element.z ∈ COVALENT_Z then c.element.v else 0
            let electronsFree := Ve - (c.bonds.length : Int)
            let lp := (max 0 (Int.fdiv electronsFree 2)).toNat
            decide (1.48 < (getTargetGeometry c.bonds.length lp).angle)
      if isStrained then s
      else { s with atoms := addBond s.atoms a.id b.id }
  else if ¬isBonded ∧ REACTION_THRESHOLD_SQ < vRelSq ∧ 2 ≤ aFree then
    -- 3B. kinetic insertion
    if b.bonds.length = 1 then
      let partnerId := b.bonds.getD 0 ""
      match s.atoms.find? (fun at2 => at2.id = partnerId) with
      | none => s
      | some partner =>
        if (partner.x - a.x) * (partner.x - a.x) + (partner.y - a.y) * (partner.y - a.y)
            < (a.radius + partner.radius * 3) ^ 2 then
          let atoms1 := breakBond s.atoms b.id partner.id
          let atoms2 := addBond atoms1 a.id b.id
          let atoms3 := addBond atoms2 a.id partner.id
          let s1 := createExplosion { s with atoms := atoms3 } a.x a.y "#ffffff" 5
          let atoms4 := scaleVelById s1.atoms a.id 0.1
          let atoms5 := scaleVelById atoms4 b.id 0.1
          let atoms6 := scaleVelById atoms5 partner.id 0.1
          { s1 with atoms := atoms6 }
        else s
    else s
  else if ¬isBonded ∧ REACTION_THRESHOLD_SQ < vRelSq then
    -- 3C. impact dissociation
    let ((atomsA, rngA), aBroken) := tryDissociate s.atoms s.rng a.id
    let ((atomsB, rngB), bBroken) := tryDissociate atomsA rngA b.id
    if aBroken || bBroken then
      let s1 := createExplosion { s with atoms := atomsB, rng := rngB }
        ((a.x + b.x) / 2) ((a.y + b.y) / 2) "#FFA500" 6
      let atoms1 := scaleVelById s1.atoms a.id 0.3
      let atoms2 := scaleVelById atoms1 b.id 0.3
      { s1 with atoms := atoms2 }
    else { s with atoms := atomsB, rng := rngB }
  else s

/-- Section 1 of a pair iteration: spring + normal damping + tangential
damping forces along an existing bond, applied as a pair impulse. -/
noncomputable def bondForces (atoms : List Atom) (a b : Atom)
    (nx ny dist combinedRadius : ℝ) (bondOrder : ℕ) (invMassA invMassB : ℝ) :
    List Atom :=
  let restLengthScale := 0.9 - ((bondOrder : ℝ) - 1) * 0.12
  let restLength := combinedRadius * restLengthScale
  let displacement := dist - restLength
  let rvx := b.vx - a.vx
  let rvy := b.vy - a.vy
  let vRelNormal := rvx * nx + rvy * ny
  let tx := -ny
  let ty := nx
  let vRelTangent := rvx * tx + rvy * ty
  let rotDamp := (0.05 : ℝ)
  let springForce := displacement * BOND_STIFFNESS * (bondOrder : ℝ)
  let dampForce := vRelNormal * 0.1
  let normalTotal := springForce + dampForce
  let tangentTotal := vRelTangent * rotDamp
  let fx := nx * normalTotal + tx * tangentTotal
  let fy := ny * normalTotal + ty * tangentTotal
  applyPairImpulse atoms a.id b.id fx fy invMassA invMassB

/-- Section 2 of a pair iteration: soft collision repulsion between unbonded
overlapping atoms, applied as a pair impulse. -/
noncomputable def collisionForces (atoms : List Atom) (a b : Atom)
    (nx ny dist combinedRadius invMassA invMassB : ℝ) : List Atom :=
  let overlap := combinedRadius - dist
  let springForce := overlap * 0.15
  let rvx := b.vx - a.vx
  let rvy := b.vy - a.vy
  let vNormal := rvx * nx + rvy * ny
  let dampForce := if vNormal < 0 then vNormal * 0.1 else 0
  let totalF := springForce + dampForce
  let fx := -nx * totalF
  let fy := -ny * totalF
  applyPairImpulse atoms a.id b.id fx fy invMassA invMassB

/-- One iteration of the inner pair loop of `resolveInteractions` for the pair
of list positions `(i, j)`. -/
noncomputable def pairStep (dragId : Option String) (dragGroup : Option (List String))
    (s : SimState) (i j : ℕ) : SimState :=
  let a := s.atoms.getD i defaultAtom
  let b := s.atoms.getD j defaultAtom
  let dx := b.x - a.x
  let dy := b.y - a.y
  let distSq := dx * dx + dy * dy
  let combinedRadius := a.radius + b.radius
  let bondOrder := getBondOrder a b.id
  let isBonded := 0 < bondOrder
  if ¬isBonded ∧ (combinedRadius * 3) ^ 2 < distSq then s
  else
    let dist0 := Real.sqrt distSq
    let dist := if dist0 = 0 then 0.001 else dist0
    let isBondProtected := dragGroupHas dragGroup a.id && dragGroupHas dragGroup b.id
    let isReactionBlocked := dragGroupHas dragGroup a.id || dragGroupHas dragGroup b.id
    if ¬isBondProtected ∧ isBonded ∧ combinedRadius * 12 < dist then
      { s with atoms := breakBond s.atoms a.id b.id }
    else
      let aMax := if a.element.z ∈ COVALENT_Z then a.element.v else 6
      if aMax < (a.bonds.length : Int) then
        { s with atoms := breakBond s.atoms a.id b.id }
      else
        let nx := dx / dist
        let ny := dy / dist
        let invMassA := if dragId = some a.id then 0 else 1 / a.mass
        let invMassB := if dragId = some b.id then 0 else 1 / b.mass
        if invMassA + invMassB = 0 then s
        else
          let atomsF :=
            if isBonded then
              bondForces s.atoms a b nx ny dist combinedRadius bondOrder invMassA invMassB
            else if dist < combinedRadius then
              collisionForces s.atoms a b nx ny dist combinedRadius invMassA invMassB
            else s.atoms
          let s1 := { s with atoms := atomsF }
          -- 3. chemistry
          if ¬isReactionBlocked ∧ dist < combinedRadius * 1.5 then
            pairChemistry s1 i j
          else s1

/-- The inner `j` loop of `resolveInteractions` (`j` from `i+1` to `n-1`). -/
noncomputable def innerPairs (dragId : Option String) (dragGroup : Option (List String))
    (n i : ℕ) (s : SimState) : SimState :=
  (List.range' (i + 1) (n - (i + 1))).foldl (fun s j => pairStep dragId dragGroup s i j) s

/-- `resolveInteractions(atoms, particles, dragId, dragGroup)`: all unordered
pairs, in index order, with `atomCount` fixed at entry. -/
noncomputable def resolveInteractions (atoms : List Atom) (particles : List Particle)
    (rng : Rng) (dragId : Option String) (dragGroup : Option (List String)) : SimState :=
  let atomCount := atoms.length
  (List.range atomCount).foldl (fun s i => innerPairs dragId dragGroup atomCount i s)
    { atoms := atoms, particles := particles, rng := rng }

/-! ## Decay model -/

/-- Per-atom body of the first decay draft (the one that clears bonds and
removes the atom when the product element lookup fails); processes the atom at
list position `i`. -/
noncomputable def decayStepV1 (elements : List ElementData) (frameDt : ℝ) (s : SimState)
    (i : ℕ) : SimState :=
  let atom := s.atoms.getD i defaultAtom
  let iso := atom.element.iso.getD atom.isotopeIndex defaultIsotope
  match iso.hl with
  | none => s
  | some hl =>
    let prob := 1 - (2 : ℝ) ^ (-frameDt / hl)
    let (r, rng1) := s.rng.next
    if r < prob then
      match iso.p with
      | none => { s with rng := rng1 }
      | some productData =>
        let s1 := createExplosion { s with rng := rng1 } atom.x atom.y
          (if iso.mode = some DecayMode.alpha then "#FFD700" else "#00BFFF") 20
        match elements.find? (fun e => e.z = productData.z) with
        | some productElement =>
          let productIsoIdx :=
            (productElement.iso.findIdx? (fun i2 => decide (|i2.m - productData.m| < 0.1))).getD 0
          let newMass := (productElement.iso.getD productIsoIdx defaultIsotope).m
          let (rA, rng2) := s1.rng.next
          let angle := rA * (Real.pi * 2)
          let kick := (3 : ℝ)
          let atoms1 := mapById s1.atoms atom.id (fun x =>
            { x with
              element := productElement, isotopeIndex := productIsoIdx,
              mass := newMass,
              radius := 10 + newMass ^ (0.33 : ℝ) * 3,
              vx := x.vx + Real.cos angle * kick,
              vy := x.vy + Real.sin angle * kick })
          let atoms2 := atom.bonds.foldl (fun acc bondedId =>
            updateFirstById acc bondedId (fun partner =>
              { partner with bonds := partner.bonds.filter (fun bid => bid ≠ atom.id) })) atoms1
          let atoms3 := mapById atoms2 atom.id (fun x => { x with bonds := [] })
          { s1 with atoms := atoms3, rng := rng2 }
        | none =>
          { s1 with atoms := s1.atoms.eraseIdx i }
    else { s with rng := rng1 }

/-- Downward loop of the first decay draft (`for i = atoms.length-1; i >= 0`).
`decayLoopV1 elements frameDt k s` processes positions `k-1, k-2, ..., 0`. -/
noncomputable def decayLoopV1 (elements : List ElementData) (frameDt : ℝ) :
    ℕ → SimState → SimState
  | 0, s => s
  | k + 1, s => decayLoopV1 elements frameDt k (decayStepV1 elements frameDt s k)

/-- `processDecay` of the first draft (part of `src/unnamed/part_002`). -/
noncomputable def processDecayV1 (elements : List ElementData) (atoms : List Atom)
    (particles : List Particle) (rng : Rng) (frameDt : ℝ) : SimState :=
  decayLoopV1 elements frameDt atoms.length
    { atoms := atoms, particles := particles, rng := rng }

/-- Per-atom body of the decay routine in the final chemistry draft: mutates
the atom in place on a successful lookup but leaves its bonds untouched, and
keeps the atom when the lookup fails. -/
noncomputable def decayStepV2 (elements : List ElementData) (dt : ℝ) (s : SimState)
    (i : ℕ) : SimState :=
  let a := s.atoms.getD i defaultAtom
  let iso := a.element.iso.getD a.isotopeIndex defaultIsotope
  match iso.hl with
  | none => s
  | some hl =>
    let p := 1 - Real.exp (-(0.693 / hl) * dt)
    let (r, rng1) := s.rng.next
    if r < p then
      let color := if iso.mode = some DecayMode.alpha then "#FFE066" else "#66E0FF"
      let s1 := createExplosion { s with rng := rng1 } a.x a.y color 12
      match iso.p with
      | none => s1
      | some pr =>
        match elements.find? (fun e => e.z = pr.z) with
        | none => s1
        | some newElem =>
          let newIsoIndex :=
            (newElem.iso.findIdx? (fun i2 => decide (|i2.m - pr.m| < 0.1))).getD 0
          let newMass := (newElem.iso.getD newIsoIndex defaultIsotope).m
          let (rA, rng2) := s1.rng.next
          let angle := rA * (Real.pi * 2)
          let recoil := 20 / newMass
          let atoms1 := mapById s1.atoms a.id (fun x =>
            { x with
              element := newElem, isotopeIndex := newIsoIndex, mass := newMass,
              radius := 10 + newMass ^ (0.33 : ℝ) * 3,
              vx := x.vx + Real.cos angle * recoil * 10,
              vy := x.vy + Real.sin angle * recoil * 10 })
          { s1 with atoms := atoms1, rng := rng2 }
    else { s with rng := rng1 }

/-- `processDecay` of the final chemistry draft (upward loop, fixed count). -/
noncomputable def processDecayV2 (elements : List ElementData) (atoms : List Atom)
    (particles : List Particle) (rng : Rng) (dt : ℝ) : SimState :=
  (List.range atoms.length).foldl (decayStepV2 elements dt)
    { atoms := atoms, particles := particles, rng := rng }

/-! ## Geometry solver (simulation/vsepr.ts, `applyVSEPR`) -/

/-- First-occurrence deduplication, the order `[...new Set(xs)]` produces. -/
def jsDedup : List String → List String
  | [] => []
  | x :: xs => x :: jsDedup (xs.filter (fun y => y ≠ x))
termination_by l => l.length
decreasing_by
  exact Nat.lt_succ_of_le (List.length_filter_le _ _)

/-- JS `Math.atan2(y, x)`. -/
noncomputable def atan2 (y x : ℝ) : ℝ :=
  if 0 < x then Real.arctan (y / x)
  else if x < 0 then
    (if 0 ≤ y then Real.arctan (y / x) + Real.pi else Real.arctan (y / x) - Real.pi)
  else if 0 < y then Real.pi / 2
  else if y < 0 then -(Real.pi / 2)
  else 0

/-- Insertion into an angle-sorted neighbor list. -/
noncomputable def insertByAngle (p : Atom × ℝ) : List (Atom × ℝ) → List (Atom × ℝ)
  | [] => [p]
  | q :: qs => if p.2 ≤ q.2 then p :: q :: qs else q :: insertByAngle p qs

/-- Ascending sort by angle (the `.sort((p, q) => p.angle - q.angle)`). -/
noncomputable def sortByAngle : List (Atom × ℝ) → List (Atom × ℝ)
  | [] => []
  | p :: ps => insertByAngle p (sortByAngle ps)

theorem mem_insertByAngle {p x : Atom × ℝ} {l : List (Atom × ℝ)} :
    x ∈ insertByAngle p l ↔ x = p ∨ x ∈ l := by
  induction l with
  | nil => simp [insertByAngle]
  | cons q qs ih =>
    by_cases h : p.2 ≤ q.2
    · simp [insertByAngle, h]
    · simp [insertByAngle, h, ih]
      tauto

theorem mem_sortByAngle {x : Atom × ℝ} {l : List (Atom × ℝ)} :
    x ∈ sortByAngle l ↔ x ∈ l := by
  induction l with
  | nil => simp [sortByAngle]
  | cons p ps ih => simp [sortByAngle, mem_insertByAngle, ih]

theorem ceil_sub_one_lt {x : ℝ} (hx : 0 < x) : ⌈x - 1⌉₊ < ⌈x⌉₊ := by
  have h1 : 1 ≤ ⌈x⌉₊ := Nat.one_le_ceil_iff.mpr hx
  have h2 : ⌈x - 1⌉₊ ≤ ⌈x⌉₊ - 1 := by
    rw [Nat.ceil_le]
    push_cast [Nat.cast_sub h1]
    linarith [Nat.le_ceil x]
  omega

/-- The `while (diff > PI) diff -= 2*PI` loop. -/
noncomputable def normalizeHi (diff : ℝ) : ℝ :=
  if h : Real.pi < diff then normalizeHi (diff - 2 * Real.pi) else diff
termination_by ⌈(diff - Real.pi) / (2 * Real.pi)⌉₊
decreasing_by
  have hpi := Real.pi_pos
  have h2 : (diff - 2 * Real.pi - Real.pi) / (2 * Real.pi)
      = (diff - Real.pi) / (2 * Real.pi) - 1 := by
    field_simp
    ring
  rw [h2]
  exact ceil_sub_one_lt (div_pos (by linarith) (by linarith))

/-- The `while (diff < -PI) diff += 2*PI` loop. -/
noncomputable def normalizeLo (diff : ℝ) : ℝ :=
  if h : diff < -Real.pi then normalizeLo (diff + 2 * Real.pi) else diff
termination_by ⌈(-diff - Real.pi) / (2 * Real.pi)⌉₊
decreasing_by
  have hpi := Real.pi_pos
  have h2 : (-(diff + 2 * Real.pi) - Real.pi) / (2 * Real.pi)
      = (-diff - Real.pi) / (2 * Real.pi) - 1 := by
    field_simp
    ring
  rw [h2]
  exact ceil_sub_one_lt (div_pos (by linarith) (by linarith))

/-- Normalization of the angular deviation to `(-π, π]` (two `while`s). -/
noncomputable def normalizeDiff (diff : ℝ) : ℝ :=
  normalizeLo (normalizeHi diff)

/-- The VSEPR accumulation buffer: velocity deltas keyed by atom id. -/
def addDelta (deltas : String → ℝ × ℝ) (id : String) (dx dy : ℝ) : String → ℝ × ℝ :=
  fun x => if x = id then ((deltas id).1 + dx, (deltas id).2 + dy) else deltas x

/-- The body of the sorted-neighbor pair loop for center atom `a`:
adds the two tangential deltas and the center reaction delta. -/
noncomputable def vseprPairStep (a : Atom) (targetRad : ℝ) (isClosed : Bool)
    (sortedNeighbors : List (Atom × ℝ)) (deltas : String → ℝ × ℝ) (jj : ℕ) :
    String → ℝ × ℝ :=
  if isClosed = false ∧ jj = sortedNeighbors.length - 1 then deltas
  else
    let curr := sortedNeighbors.getD jj (defaultAtom, 0)
    let next := sortedNeighbors.getD ((jj + 1) % sortedNeighbors.length) (defaultAtom, 0)
    let predXa := a.x + a.vx
    let predYa := a.y + a.vy
    let currentAngleDiff0 := next.2 - curr.2
    let currentAngleDiff :=
      if currentAngleDiff0 < 0 then currentAngleDiff0 + Real.pi * 2 else currentAngleDiff0
    let diff := normalizeDiff (currentAngleDiff - targetRad)
    let torque := diff * ANGULAR_STIFFNESS
    let dx_curr := (curr.1.x + curr.1.vx) - predXa
    let dy_curr := (curr.1.y + curr.1.vy) - predYa
    let dist_curr0 := Real.sqrt (dx_curr * dx_curr + dy_curr * dy_curr)
    let dist_curr := if dist_curr0 = 0 then 1 else dist_curr0
    let dx_next := (next.1.x + next.1.vx) - predXa
    let dy_next := (next.1.y + next.1.vy) - predYa
    let dist_next0 := Real.sqrt (dx_next * dx_next + dy_next * dy_next)
    let dist_next := if dist_next0 = 0 then 1 else dist_next0
    let tx_curr := -dy_curr / dist_curr
    let ty_curr := dx_curr / dist_curr
    let tx_next := -dy_next / dist_next
    let ty_next := dx_next / dist_next
    let forceMagCurr := torque / dist_curr
    let forceMagNext := torque / dist_next
    let fx_curr := tx_curr * forceMagCurr
    let fy_curr := ty_curr * forceMagCurr
    let fx_next := -tx_next * forceMagNext
    let fy_next := -ty_next * forceMagNext
    let invMassCurr := 1.0 / curr.1.mass
    let invMassNext := 1.0 / next.1.mass
    let invMassCenter := 1.0 / a.mass
    let d1 := addDelta deltas curr.1.id (fx_curr * invMassCurr) (fy_curr * invMassCurr)
    let d2 := addDelta d1 next.1.id (fx_next * invMassNext) (fy_next * invMassNext)
    addDelta d2 a.id (-(fx_curr + fx_next) * invMassCenter)
      (-(fy_curr + fy_next) * invMassCenter)

/-- Processing of one center atom `a` in `applyVSEPR`. -/
noncomputable def vseprCenter (atoms : List Atom) (deltas : String → ℝ × ℝ) (a : Atom) :
    String → ℝ × ℝ :=
  let uniqueBondIds := jsDedup a.bonds
  let neighborCount := uniqueBondIds.length
  if a.element.z ∈ COVALENT_Z ∧ 2 ≤ neighborCount then
    match getValenceElectrons a.element.z with
    | none => deltas
    | some Ve =>
      let bondOrderSum := (a.bonds.length : Int)
      let electronsFree := Ve - bondOrderSum
      let lp0 := Int.fdiv electronsFree 2
      let lp : ℕ := (if lp0 < 0 then 0 else lp0).toNat
      let geom := getTargetGeometry neighborCount lp
      let neighbors := uniqueBondIds.filterMap (fun id => atoms.find? (fun x => x.id = id))
      let predXa := a.x + a.vx
      let predYa := a.y + a.vy
      let sortedNeighbors := sortByAngle (neighbors.map (fun n =>
        (n, atan2 ((n.y + n.vy) - predYa) ((n.x + n.vx) - predXa))))
      (List.range sortedNeighbors.length).foldl
        (vseprPairStep a geom.angle geom.loop sortedNeighbors) deltas
  else deltas

/-- The full VSEPR accumulation buffer for one frame. -/
noncomputable def vseprDeltas (atoms : List Atom) : String → ℝ × ℝ :=
  atoms.foldl (vseprCenter atoms) (fun _ => (0, 0))

/-- `applyVSEPR(atoms, dragGroup)`: accumulate all angular corrections, then
apply them in one pass.  (The `dragGroup` parameter is unused in the source as
well: VSEPR stays active for dragged molecules.) -/
noncomputable def applyVSEPR (atoms : List Atom) (dragGroup : Option (List String)) :
    List Atom :=
  let _ := dragGroup
  let deltas := vseprDeltas atoms
  atoms.map (fun a => { a with vx := a.vx + (deltas a.id).1, vy := a.vy + (deltas a.id).2 })

/-! ## Integration and tick driver (components/Canvas.tsx, `update`) -/

/-- Speed clamp of the integration loop (`if (speedSq > MAX_SPEED*MAX_SPEED)`). -/
noncomputable def clampSpeed (vx1 vy1 : ℝ) : ℝ × ℝ :=
  let speedSq := vx1 * vx1 + vy1 * vy1
  if MAX_SPEED * MAX_SPEED < speedSq then
    let scale := MAX_SPEED / Real.sqrt speedSq
    (vx1 * scale, vy1 * scale)
  else (vx1, vy1)

/-- One axis of the wall-bouncing block: clamp the position into `[lo, hi]`
and reflect the velocity scaled by the restitution factor 0.5. -/
noncomputable def wallAxis (lo hi pos v : ℝ) : ℝ × ℝ :=
  let restitution := (0.5 : ℝ)
  if pos < lo then (lo, |v| * restitution)
  else if hi < pos then (hi, -|v| * restitution)
  else (pos, v)

/-- Section F of the update loop for one atom: drag, speed clamp, position
update, wall containment. -/
noncomputable def integrateAtom (width height : ℝ) (a : Atom) : Atom :=
  let vx1 := a.vx * DRAG_COEFF
  let vy1 := a.vy * DRAG_COEFF
  let v2 := clampSpeed vx1 vy1
  let x1 := a.x + v2.1
  let y1 := a.y + v2.2
  let xv := wallAxis a.radius (width - a.radius) x1 v2.1
  let yv := wallAxis a.radius (height - a.radius) y1 v2.2
  { a with x := xv.1, y := yv.1, vx := xv.2, vy := yv.2 }

/-- Particle aging (section 1 of the update loop): every particle moves, loses
0.02 life, and is removed at life ≤ 0. -/
noncomputable def updateParticles (ps : List Particle) : List Particle :=
  (ps.map (fun p => { p with x := p.x + p.vx, y := p.y + p.vy, life := p.life - 0.02 })).filter
    (fun p => decide (0 < p.life))

/-- One physics substep (sections A–F) in a state with no active pointer drag
and no active gravity well, so sections B and C are no-ops. -/
noncomputable def substep (width height : ℝ) (s : SimState) : SimState :=
  let s1 := { s with atoms := annealAtoms s.atoms (some []) }
  let s2 := { s1 with atoms := applyVSEPR s1.atoms (some []) }
  let s3 := resolveInteractions s2.atoms s2.particles s2.rng none (some [])
  { s3 with atoms := s3.atoms.map (integrateAtom width height) }

/-- One full simulation tick of the final update-loop draft, in a state with
no drag and no well: particle aging, decay (final draft), then `SUBSTEPS`
physics substeps. -/
noncomputable def tick (elements : List ElementData) (width height timeScale : ℝ)
    (s : SimState) : SimState :=
  let s0 := { s with particles := updateParticles s.particles }
  let s1 := processDecayV2 elements s0.atoms s0.particles s0.rng (0.016 * timeScale)
  (substep width height)^[SUBSTEPS] s1

/-- The delete command (`handleContextMenu`): remove the clicked atom and
purge its id from every remaining bond list. -/
noncomputable def deleteAtom (s : SimState) (x y : ℝ) : SimState :=
  match s.atoms.findIdx? (fun a => decide (
      (a.x - x) * (a.x - x) + (a.y - y) * (a.y - y) < a.radius ^ 2)) with
  | none => s
  | some clickedIndex =>
    let atom := s.atoms.getD clickedIndex defaultAtom
    let s1 := createExplosion s atom.x atom.y "#ffffff" 10
    let atoms1 := s1.atoms.eraseIdx clickedIndex
    { s1 with atoms := atoms1.map (fun a =>
        { a with bonds := a.bonds.filter (fun id => id ≠ atom.id) }) }

/-! ## Generic lemmas about the by-id update operations -/

theorem mem_mapById {atoms : List Atom} {id : String} {f : Atom → Atom} {x : Atom}
    (hx : x ∈ mapById atoms id f) :
    (∃ y ∈ atoms, y.id = id ∧ x = f y) ∨ (∃ y ∈ atoms, ¬y.id = id ∧ x = y) := by
  rcases List.mem_map.mp hx with ⟨y, hy, hxy⟩
  by_cases h : y.id = id
  · exact Or.inl ⟨y, hy, h, by simp [h] at hxy; exact hxy.symm⟩
  · exact Or.inr ⟨y, hy, h, by simp [h] at hxy; exact hxy.symm⟩

theorem mem_updateFirstById {atoms : List Atom} {id : String} {f : Atom → Atom} {x : Atom}
    (hx : x ∈ updateFirstById atoms id f) :
    x ∈ atoms ∨ (∃ y ∈ atoms, y.id = id ∧ x = f y) := by
  induction atoms with
  | nil => simp [updateFirstById] at hx
  | cons y ys ih =>
    by_cases h : y.id = id
    · simp only [updateFirstById, h, if_pos] at hx
      rcases List.mem_cons.mp hx with h1 | h1
      · exact Or.inr ⟨y, List.mem_cons_self _ _, h, h1⟩
      · exact Or.inl (List.mem_cons_of_mem _ h1)
    · simp only [updateFirstById, h, if_neg, if_false] at hx
      rcases List.mem_cons.mp hx with h1 | h1
      · exact Or.inl (h1 ▸ List.mem_cons_self _ _)
      · rcases ih h1 with h2 | ⟨z, hz, hz2, hz3⟩
        · exact Or.inl (List.mem_cons_of_mem _ h2)
        · exact Or.inr ⟨z, List.mem_cons_of_mem _ hz, hz2, hz3⟩

theorem mapById_congr {atoms : List Atom} {id : String} {f : Atom → Atom}
    (h : ∀ x ∈ atoms, x.id = id → f x = x) : mapById atoms id f = atoms := by
  induction atoms with
  | nil => rfl
  | cons y ys ih =>
    simp only [mapById, List.map_cons]
    rw [show (if y.id = id then f y else y) = y by
      by_cases hy : y.id = id
      · simp [hy, h y (List.mem_cons_self _ _) hy]
      · simp [hy]]
    have := ih (fun x hx hid => h x (List.mem_cons_of_mem _ hx) hid)
    simpa [mapById] using this

theorem updateFirstById_congr {atoms : List Atom} {id : String} {f : Atom → Atom}
    (h : ∀ x, atoms.find? (fun y => y.id = id) = some x → f x = x) :
    updateFirstById atoms id f = atoms := by
  induction atoms with
  | nil => rfl
  | cons y ys ih =>
    by_cases hy : y.id = id
    · have := h y (by simp [List.find?, hy])
      simp [updateFirstById, hy, this]
    · simp only [updateFirstById, hy, if_neg, if_false]
      rw [ih]
      intro x hx
      exact h x (by simp [List.find?, hy]; exact hx)

theorem find?_updateFirstById {atoms : List Atom} {id : String} {f : Atom → Atom}
    (hid : ∀ a, (f a).id = a.id) :
    (updateFirstById atoms id f).find? (fun y => y.id = id) =
      (atoms.find? (fun y => y.id = id)).map f := by
  induction atoms with
  | nil => rfl
  | cons y ys ih =>
    by_cases hy : y.id = id
    · simp [updateFirstById, hy, List.find?, hid]
    · simp only [updateFirstById, hy, if_neg, if_false]
      simp [List.find?, hy, ih]

/-! ## Claim C7: breakBond severs every order, and is idempotent -/

theorem not_mem_filter_ne {l : List String} {v : String} :
    v ∉ l.filter (fun i => i ≠ v) := by
  intro h
  rcases List.mem_filter.mp h with ⟨_, hdec⟩
  simp at hdec

theorem filter_ne_of_not_mem {l : List String} {v : String} (h : v ∉ l) :
    l.filter (fun i => i ≠ v) = l := by
  apply List.filter_eq_self.mpr
  intro a ha
  simpa using fun heq : a = v => h (heq ▸ ha)

theorem breakBond_aId_clean {atoms : List Atom} {aId bId : String} :
    ∀ x ∈ breakBond atoms aId bId, x.id = aId → bId ∉ x.bonds := by
  intro x hx hxid
  rcases mem_updateFirstById hx with h1 | ⟨y, hy, hyid, hxy⟩
  · rcases mem_mapById h1 with ⟨y, _, _, hxy⟩ | ⟨y, _, hyid, hxy⟩
    · subst hxy
      exact not_mem_filter_ne
    · subst hxy
      exact absurd hxid hyid
  · subst hxy
    have hxid' : y.id = aId := hxid
    rcases mem_mapById hy with ⟨z, _, hzid, hyz⟩ | ⟨z, _, hzid, hyz⟩
    · subst hyz
      intro hmem
      rcases List.mem_filter.mp hmem with ⟨hmem2, _⟩
      exact not_mem_filter_ne hmem2
    · subst hyz
      exact absurd hxid' hzid

theorem breakBond_bId_clean {atoms : List Atom} {aId bId : String} {x : Atom} :
    (breakBond atoms aId bId).find? (fun y => y.id = bId) = some x → aId ∉ x.bonds := by
  intro hfind
  unfold breakBond at hfind
  rw [find?_updateFirstById (by intro a; rfl)] at hfind
  rcases Option.map_eq_some'.mp hfind with ⟨y, _, hxy⟩
  subst hxy
  exact not_mem_filter_ne

theorem breakBond_idempotent (atoms : List Atom) (aId bId : String) :
    breakBond (breakBond atoms aId bId) aId bId = breakBond atoms aId bId := by
  have h1 : mapById (breakBond atoms aId bId) aId
      (fun a => { a with bonds := a.bonds.filter (fun i => i ≠ bId) }) =
      breakBond atoms aId bId := by
    apply mapById_congr
    intro x hx hxid
    have hni : bId ∉ x.bonds := breakBond_aId_clean x hx hxid
    rw [filter_ne_of_not_mem hni]
  show updateFirstById (mapById (breakBond atoms aId bId) aId
      (fun a => { a with bonds := a.bonds.filter (fun i => i ≠ bId) })) bId
      (fun b => { b with bonds := b.bonds.filter (fun i => i ≠ aId) }) =
    breakBond atoms aId bId
  rw [h1]
  apply updateFirstById_congr
  intro x hx
  have hni : aId ∉ x.bonds := breakBond_bId_clean hx
  rw [filter_ne_of_not_mem hni]

/-- C7: `breakBond(A,B)` removes all occurrences of B's id from A's bond list
and all occurrences of A's id from B's bond list, and calling it twice in a
row leaves the bond graph identical to calling it once. -/
theorem breakBond_severs_all_orders_and_idempotent (atoms : List Atom) (aId bId : String) :
    (∀ x ∈ breakBond atoms aId bId, x.id = aId → bId ∉ x.bonds) ∧
    (∀ x, (breakBond atoms aId bId).find? (fun y => y.id = bId) = some x →
      aId ∉ x.bonds) ∧
    breakBond (breakBond atoms aId bId) aId bId = breakBond atoms aId bId :=
  ⟨breakBond_aId_clean, fun _ => breakBond_bId_clean, breakBond_idempotent atoms aId bId⟩

/-! ## Claim C8: the target geometry table -/

/-- C8 counterexample: at zero bonded neighbors (0 domains) the code returns
the fallback angle `2π/(bondCount || 1) = 360°`, while the claimed formula
`360°/neighborCount` divides by zero (division by zero is `0` in the real
model, and no real number is `360°/0` in the informal reading). -/
theorem getTargetGeometry_zero_neighbor_fallback :
    (getTargetGeometry 0 0).angle = 2 * Real.pi ∧
    (getTargetGeometry 0 0).loop = true ∧
    (getTargetGeometry 0 0).angle ≠ 2 * Real.pi / ((0 : ℕ) : ℝ) := by
  refine ⟨?_, ?_, ?_⟩
  · simp [getTargetGeometry]
  · simp [getTargetGeometry]
  · simp [getTargetGeometry]
    exact Real.pi_ne_zero

/-- C8 (amended): the target geometry table, stated in the spec's degree
form, with the fallback divisor `neighborCount` replaced by
`max neighborCount 1` (the code's `bondCount || 1`). -/
theorem getTargetGeometry_table (bondCount lp : ℕ) :
    (bondCount + lp = 2 →
      getTargetGeometry bondCount lp = ⟨180 * (Real.pi / 180), true⟩) ∧
    (bondCount + lp = 3 ∧ lp = 0 →
      getTargetGeometry bondCount lp = ⟨120 * (Real.pi / 180), true⟩) ∧
    (bondCount + lp = 3 ∧ lp ≠ 0 →
      getTargetGeometry bondCount lp = ⟨118 * (Real.pi / 180), false⟩) ∧
    (bondCount + lp = 4 ∧ lp = 0 →
      getTargetGeometry bondCount lp = ⟨90 * (Real.pi / 180), true⟩) ∧
    (bondCount + lp = 4 ∧ lp = 1 →
      getTargetGeometry bondCount lp = ⟨107 * (Real.pi / 180), false⟩) ∧
    (bondCount + lp = 4 ∧ 2 ≤ lp →
      getTargetGeometry bondCount lp = ⟨104.5 * (Real.pi / 180), false⟩) ∧
    (bondCount + lp = 5 →
      getTargetGeometry bondCount lp = ⟨72 * (Real.pi / 180), true⟩) ∧
    (bondCount + lp = 6 →
      getTargetGeometry bondCount lp = ⟨60 * (Real.pi / 180), true⟩) ∧
    (bondCount + lp < 2 ∨ 6 < bondCount + lp →
      getTargetGeometry bondCount lp =
        ⟨360 * (Real.pi / 180) / ((max bondCount 1 : ℕ) : ℝ), true⟩) := by
  refine ⟨?_, ?_, ?_, ?_, ?_, ?_, ?_, ?_, ?_⟩
  · intro h
    simp only [getTargetGeometry]
    rw [h]
    norm_num [Geometry.mk.injEq]
    ring
  · rintro ⟨h, hlp⟩
    simp only [getTargetGeometry]
    rw [h]
    norm_num [hlp, Geometry.mk.injEq]
    ring
  · rintro ⟨h, hlp⟩
    simp only [getTargetGeometry]
    rw [h]
    norm_num [hlp, Geometry.mk.injEq]
    ring
  · rintro ⟨h, hlp⟩
    simp only [getTargetGeometry]
    rw [h]
    norm_num [hlp, Geometry.mk.injEq]
    ring
  · rintro ⟨h, hlp⟩
    simp only [getTargetGeometry]
    rw [h]
    norm_num [hlp, Geometry.mk.injEq]
    ring
  · rintro ⟨h, hlp⟩
    have h0 : lp ≠ 0 := by omega
    have h1 : lp ≠ 1 := by omega
    simp only [getTargetGeometry]
    rw [h]
    norm_num [h0, h1, Geometry.mk.injEq]
    ring
  · intro h
    simp only [getTargetGeometry]
    rw [h]
    norm_num [Geometry.mk.injEq]
    ring
  · intro h
    simp only [getTargetGeometry]
    rw [h]
    norm_num [Geometry.mk.injEq]
    ring
  · intro h
    have h2 : bondCount + lp ≠ 2 := by omega
    have h3 : bondCount + lp ≠ 3 := by omega
    have h4 : bondCount + lp ≠ 4 := by omega
    have h5 : bondCount + lp ≠ 5 := by omega
    have h6 : bondCount + lp ≠ 6 := by omega
    simp only [getTargetGeometry, h2, h3, h4, h5, h6, if_false]
    by_cases hb : bondCount = 0
    · simp only [hb]
      norm_num [Geometry.mk.injEq]
      ring
    · have hmax : max bondCount 1 = bondCount := by omega
      simp only [hb, hmax, if_false]
      norm_num [Geometry.mk.injEq]
      ring

/-- Witness for the amended C8 table at a concrete input. -/
theorem getTargetGeometry_table_witness :
    (2 + 0 = 2) ∧ getTargetGeometry 2 0 = ⟨180 * (Real.pi / 180), true⟩ :=
  ⟨by norm_num, (getTargetGeometry_table 2 0).1 (by norm_num)⟩

/-! ## Claim C2: decay probability boundary values -/

/-- C2 counterexample: the decay routine of the final chemistry draft uses
`1 - exp(-0.693·Δt/halfLife)`; at `Δt = halfLife = 1` this is strictly below
`1/2`, so the probability is not exactly 0.5 there (`0.693 < ln 2`). -/
theorem decayProbExp_at_halfLife_ne_half :
    decayProbExp 1 1 < 1 / 2 ∧ decayProbExp 1 1 ≠ 1 / 2 := by
  have hlog : (0.693 : ℝ) < Real.log 2 := by
    have := Real.log_two_gt_d9
    norm_num at this ⊢
    linarith
  have hexp : (1 : ℝ) / 2 < Real.exp (-(0.693 / 1) * 1) := by
    have h1 : Real.exp (-Real.log 2) = 1 / 2 := by
      rw [Real.exp_neg, Real.exp_log (by norm_num : (0 : ℝ) < 2)]
      norm_num
    have h2 : (-Real.log 2 : ℝ) < -(0.693 / 1) * 1 := by
      norm_num
      linarith
    calc (1 : ℝ) / 2 = Real.exp (-Real.log 2) := h1.symm
      _ < Real.exp (-(0.693 / 1) * 1) := Real.exp_lt_exp.mpr h2
  constructor
  · unfold decayProbExp
    linarith
  · unfold decayProbExp
    intro h
    have : Real.exp (-(0.693 / 1) * 1) = 1 / 2 := by linarith
    linarith

/-- C2 (amended): the first draft's probability `1 - 2^(-Δt/hl)` is exactly
`1/2` at `Δt = hl` and exactly `0` at `Δt = 0`; the final draft's probability
`1 - exp(-0.693·Δt/hl)` is exactly `0` at `Δt = 0` but strictly below `1/2`
at `Δt = hl`. -/
theorem decay_probability_boundary (hl : ℝ) (hpos : 0 < hl) :
    decayProbPow hl hl = 1 / 2 ∧ decayProbPow 0 hl = 0 ∧
    decayProbExp 0 hl = 0 ∧ decayProbExp hl hl < 1 / 2 := by
  have hne : hl ≠ 0 := ne_of_gt hpos
  refine ⟨?_, ?_, ?_, ?_⟩
  · unfold decayProbPow
    rw [neg_div, div_self hne]
    rw [show ((-1 : ℝ)) = ((-1 : ℤ) : ℝ) by norm_num, Real.rpow_intCast]
    norm_num
  · unfold decayProbPow
    rw [neg_zero, zero_div, Real.rpow_zero]
    norm_num
  · unfold decayProbExp
    rw [mul_zero, Real.exp_zero]
    norm_num
  · unfold decayProbExp
    have harg : -(0.693 / hl) * hl = -0.693 := by
      field_simp
    rw [harg]
    have hlog : (0.693 : ℝ) < Real.log 2 := by
      have := Real.log_two_gt_d9
      norm_num at this ⊢
      linarith
    have h1 : Real.exp (-Real.log 2) = 1 / 2 := by
      rw [Real.exp_neg, Real.exp_log (by norm_num : (0 : ℝ) < 2)]
      norm_num
    have h2 : Real.exp (-Real.log 2) < Real.exp (-0.693 : ℝ) :=
      Real.exp_lt_exp.mpr (by linarith)
    linarith [h1 ▸ h2]

/-- Witness for the amended C2 at `halfLife = 1`. -/
theorem decay_probability_boundary_witness :
    (0 : ℝ) < 1 ∧ (decayProbPow 1 1 = 1 / 2 ∧ decayProbPow 0 1 = 0 ∧
      decayProbExp 0 1 = 0 ∧ decayProbExp 1 1 < 1 / 2) :=
  ⟨by norm_num, decay_probability_boundary 1 (by norm_num)⟩

/-! ## Claim C10: speed clamp and boundary containment -/

theorem clampSpeed_sq_le (vx1 vy1 : ℝ) :
    (clampSpeed vx1 vy1).1 ^ 2 + (clampSpeed vx1 vy1).2 ^ 2 ≤ MAX_SPEED ^ 2 := by
  unfold clampSpeed
  simp only []
  by_cases hbig : MAX_SPEED * MAX_SPEED < vx1 * vx1 + vy1 * vy1
  · rw [if_pos hbig]
    have hpos : 0 < vx1 * vx1 + vy1 * vy1 := by
      have : (0 : ℝ) ≤ MAX_SPEED * MAX_SPEED := by norm_num [MAX_SPEED]
      linarith
    have hsq : Real.sqrt (vx1 * vx1 + vy1 * vy1) ^ 2 = vx1 * vx1 + vy1 * vy1 :=
      Real.sq_sqrt (le_of_lt hpos)
    have hsqrtpos : 0 < Real.sqrt (vx1 * vx1 + vy1 * vy1) := Real.sqrt_pos.mpr hpos
    simp only []
    have heq : (vx1 * (MAX_SPEED / Real.sqrt (vx1 * vx1 + vy1 * vy1))) ^ 2 +
        (vy1 * (MAX_SPEED / Real.sqrt (vx1 * vx1 + vy1 * vy1))) ^ 2 =
        (vx1 * vx1 + vy1 * vy1) * MAX_SPEED ^ 2 /
          Real.sqrt (vx1 * vx1 + vy1 * vy1) ^ 2 := by
      field_simp
      ring
    rw [heq, hsq, div_eq_mul_inv, mul_comm (vx1 * vx1 + vy1 * vy1) _, mul_assoc,
      mul_inv_cancel₀ (ne_of_gt hpos), mul_one]
  · rw [if_neg hbig]
    push_neg at hbig
    simp only []
    nlinarith [sq_nonneg vx1, sq_nonneg vy1]

theorem wallAxis_bounds (lo hi pos v : ℝ) (hlh : lo ≤ hi) :
    lo ≤ (wallAxis lo hi pos v).1 ∧ (wallAxis lo hi pos v).1 ≤ hi ∧
    (wallAxis lo hi pos v).2 ^ 2 ≤ v ^ 2 := by
  unfold wallAxis
  simp only []
  split_ifs with h1 h2
  · refine ⟨le_refl _, hlh, ?_⟩
    simp only []
    nlinarith [sq_abs v, abs_nonneg v]
  · refine ⟨hlh, le_refl _, ?_⟩
    simp only []
    nlinarith [sq_abs v, abs_nonneg v]
  · exact ⟨by linarith, by linarith, by nlinarith⟩



/-- C10: after the integration phase of a substep, every atom's speed is at
most `MAX_SPEED`, and (when its radius fits in the half-canvas) its position
lies in `[radius, width - radius] × [radius, height - radius]`. -/
theorem integration_speed_and_containment (width height : ℝ) (atoms : List Atom)
    (hfit : ∀ a ∈ atoms, a.radius ≤ width / 2 ∧ a.radius ≤ height / 2) :
    ∀ b ∈ atoms.map (integrateAtom width height),
      b.vx ^ 2 + b.vy ^ 2 ≤ MAX_SPEED ^ 2 ∧
      (b.radius ≤ b.x ∧ b.x ≤ width - b.radius) ∧
      (b.radius ≤ b.y ∧ b.y ≤ height - b.radius) := by
  intro b hb
  rcases List.mem_map.mp hb with ⟨a, ha, rfl⟩
  rcases hfit a ha with ⟨hw, hh⟩
  unfold integrateAtom
  simp only []
  set v2 := clampSpeed (a.vx * DRAG_COEFF) (a.vy * DRAG_COEFF) with hv2
  have hspeed : v2.1 ^ 2 + v2.2 ^ 2 ≤ MAX_SPEED ^ 2 := clampSpeed_sq_le _ _
  have hx := wallAxis_bounds a.radius (width - a.radius) (a.x + v2.1) v2.1
    (by linarith)
  have hy := wallAxis_bounds a.radius (height - a.radius) (a.y + v2.2) v2.2
    (by linarith)
  refine ⟨?_, ⟨hx.1, by linarith [hx.2.1]⟩, ⟨hy.1, by linarith [hy.2.1]⟩⟩
  nlinarith [hx.2.2, hy.2.2, hspeed, sq_nonneg v2.1, sq_nonneg v2.2]

/-- Witness for C10 at a concrete one-atom state. -/
theorem integration_speed_and_containment_witness :
    (∀ a ∈ [{ defaultAtom with x := 50, y := 50, vx := 100, vy := 0, radius := 10 }],
      a.radius ≤ (200 : ℝ) / 2 ∧ a.radius ≤ (200 : ℝ) / 2) ∧
    (∀ b ∈ [{ defaultAtom with x := 50, y := 50, vx := 100, vy := 0, radius := 10 }].map
        (integrateAtom 200 200),
      b.vx ^ 2 + b.vy ^ 2 ≤ MAX_SPEED ^ 2 ∧
      (b.radius ≤ b.x ∧ b.x ≤ 200 - b.radius) ∧
      (b.radius ≤ b.y ∧ b.y ≤ 200 - b.radius)) := by
  constructor
  · intro a ha
    simp only [List.mem_singleton] at ha
    subst ha
    norm_num
  · exact integration_speed_and_containment 200 200 _ (by
      intro a ha
      simp only [List.mem_singleton] at ha
      subst ha
      norm_num)

/-! ## Claim C9: getMoleculeGroup termination and membership -/

/-- Ids are unique (the data-model invariant: identity is unique and stable
for an atom's lifetime). -/
def IdsNodup (atoms : List Atom) : Prop := (atoms.map Atom.id).Nodup

theorem find?_id_of_nodup {atoms : List Atom} {a : Atom} (hnd : IdsNodup atoms)
    (ha : a ∈ atoms) : atoms.find? (fun x => x.id = a.id) = some a := by
  induction atoms with
  | nil => cases ha
  | cons y ys ih =>
    rcases List.mem_cons.mp ha with rfl | ha'
    · simp [List.find?]
    · have hnd' : IdsNodup ys := (List.nodup_cons.mp hnd).2
      have hne : ¬y.id = a.id := by
        intro heq
        have : a.id ∈ ys.map Atom.id := List.mem_map.mpr ⟨a, ha', rfl⟩
        exact (List.nodup_cons.mp hnd).1 (heq ▸ this)
      simp [List.find?, hne, ih hnd' ha']

theorem enqueueNew_fst_subset_union (gq : Finset String × List String) (nbrs : List String) :
    (enqueueNew gq nbrs).1 ⊆ gq.1 ∪ nbrs.toFinset := by
  induction nbrs generalizing gq with
  | nil => simp [enqueueNew]
  | cons n ns ih =>
    by_cases h : n ∈ gq.1
    · rw [enqueueNew_cons_mem h]
      intro x hx
      rcases Finset.mem_union.mp (ih gq hx) with h1 | h1
      · exact Finset.mem_union_left _ h1
      · exact Finset.mem_union_right _ (by simp [List.mem_toFinset] at h1 ⊢; exact Or.inr h1)
    · rw [enqueueNew_cons_notMem h]
      intro x hx
      rcases Finset.mem_union.mp (ih (insert n gq.1, gq.2 ++ [n]) hx) with h1 | h1
      · rcases Finset.mem_insert.mp h1 with rfl | h2
        · exact Finset.mem_union_right _ (by simp [List.mem_toFinset])
        · exact Finset.mem_union_left _ h2
      · exact Finset.mem_union_right _ (by simp [List.mem_toFinset] at h1 ⊢; exact Or.inr h1)

theorem enqueueNew_nbrs_subset (gq : Finset String × List String) (nbrs : List String) :
    ∀ n ∈ nbrs, n ∈ (enqueueNew gq nbrs).1 := by
  induction nbrs generalizing gq with
  | nil => intro n hn; cases hn
  | cons m ms ih =>
    intro n hn
    by_cases h : m ∈ gq.1
    · rw [enqueueNew_cons_mem h]
      rcases List.mem_cons.mp hn with rfl | hn2
      · exact enqueueNew_subset gq ms h
      · exact ih gq n hn2
    · rw [enqueueNew_cons_notMem h]
      rcases List.mem_cons.mp hn with rfl | hn2
      · exact enqueueNew_subset (insert n gq.1, gq.2 ++ [n]) ms (Finset.mem_insert_self _ _)
      · exact ih (insert m gq.1, gq.2 ++ [m]) n hn2

theorem enqueueNew_snd_mono (gq : Finset String × List String) (nbrs : List String)
    {x : String} (hx : x ∈ gq.2) : x ∈ (enqueueNew gq nbrs).2 := by
  induction nbrs generalizing gq with
  | nil => exact hx
  | cons m ms ih =>
    by_cases h : m ∈ gq.1
    · rw [enqueueNew_cons_mem h]
      exact ih gq hx
    · rw [enqueueNew_cons_notMem h]
      exact ih (insert m gq.1, gq.2 ++ [m]) (List.mem_append_left _ hx)

theorem enqueueNew_mem_fst_cases (gq : Finset String × List String) (nbrs : List String)
    {x : String} (hx : x ∈ (enqueueNew gq nbrs).1) :
    x ∈ gq.1 ∨ x ∈ (enqueueNew gq nbrs).2 := by
  induction nbrs generalizing gq with
  | nil => exact Or.inl hx
  | cons m ms ih =>
    by_cases h : m ∈ gq.1
    · rw [enqueueNew_cons_mem h] at hx ⊢
      exact ih gq hx
    · rw [enqueueNew_cons_notMem h] at hx ⊢
      rcases ih (insert m gq.1, gq.2 ++ [m]) hx with h1 | h1
      · rcases Finset.mem_insert.mp h1 with rfl | h2
        · exact Or.inr (enqueueNew_snd_mono (insert x gq.1, gq.2 ++ [x]) ms
            (List.mem_append_right _ (List.mem_singleton_self _)))
        · exact Or.inl h2
      · exact Or.inr h1

theorem enqueueNew_mem_snd_cases (gq : Finset String × List String) (nbrs : List String)
    {x : String} (hx : x ∈ (enqueueNew gq nbrs).2) :
    x ∈ gq.2 ∨ x ∈ (enqueueNew gq nbrs).1 := by
  induction nbrs generalizing gq with
  | nil => exact Or.inl hx
  | cons m ms ih =>
    by_cases h : m ∈ gq.1
    · rw [enqueueNew_cons_mem h] at hx ⊢
      exact ih gq hx
    · rw [enqueueNew_cons_notMem h] at hx ⊢
      rcases ih (insert m gq.1, gq.2 ++ [m]) hx with h1 | h1
      · rcases List.mem_append.mp h1 with h2 | h2
        · exact Or.inl h2
        · have hxm : x = m := List.mem_singleton.mp h2
          subst hxm
          exact Or.inr (enqueueNew_subset (insert x gq.1, gq.2 ++ [x]) ms
            (Finset.mem_insert_self _ _))
      · exact Or.inr h1

theorem bfsAux_nil (allAtoms : List Atom) (group : Finset String) :
    bfsAux allAtoms group [] = group := by
  rw [bfsAux]

theorem bfsAux_cons_none (allAtoms : List Atom) (group : Finset String) (c : String)
    (rest : List String) (h : allAtoms.find? (fun a => a.id = c) = none) :
    bfsAux allAtoms group (c :: rest) = bfsAux allAtoms group rest := by
  rw [bfsAux]
  split
  · rfl
  · rename_i heq
    rw [h] at heq
    cases heq

theorem bfsAux_cons_some (allAtoms : List Atom) (group : Finset String) (c : String)
    (rest : List String) (currentAtom : Atom)
    (h : allAtoms.find? (fun a => a.id = c) = some currentAtom) :
    bfsAux allAtoms group (c :: rest) =
      bfsAux allAtoms (enqueueNew (group, rest) currentAtom.bonds).1
        (enqueueNew (group, rest) currentAtom.bonds).2 := by
  rw [bfsAux]
  split
  · rename_i heq
    rw [h] at heq
    cases heq
  · rename_i a heq
    rw [h] at heq
    cases heq
    rfl

theorem bfsAux_mono (allAtoms : List Atom) (group : Finset String) (queue : List String) :
    group ⊆ bfsAux allAtoms group queue := by
  refine bfsAux.induct allAtoms (fun g q => g ⊆ bfsAux allAtoms g q) ?_ ?_ ?_ group queue
  · intro g
    rw [bfsAux_nil]
  · intro g c rest hfind ih
    rw [bfsAux_cons_none _ _ _ _ hfind]
    exact ih
  · intro g c rest currentAtom hfind gq ih
    rw [bfsAux_cons_some _ _ _ _ _ hfind]
    exact fun x hx => ih (enqueueNew_subset (g, rest) currentAtom.bonds hx)

theorem bfsAux_origin (allAtoms : List Atom) (group : Finset String) (queue : List String) :
    ∀ x ∈ bfsAux allAtoms group queue,
      x ∈ group ∨ ∃ a ∈ allAtoms, x ∈ a.bonds := by
  refine bfsAux.induct allAtoms
    (fun g q => ∀ x ∈ bfsAux allAtoms g q, x ∈ g ∨ ∃ a ∈ allAtoms, x ∈ a.bonds)
    ?_ ?_ ?_ group queue
  · intro g x hx
    rw [bfsAux_nil] at hx
    exact Or.inl hx
  · intro g c rest hfind ih x hx
    rw [bfsAux_cons_none _ _ _ _ hfind] at hx
    exact ih x hx
  · intro g c rest currentAtom hfind gq ih x hx
    rw [bfsAux_cons_some _ _ _ _ _ hfind] at hx
    rcases ih x hx with h1 | h1
    · rcases Finset.mem_union.mp
        (enqueueNew_fst_subset_union (g, rest) currentAtom.bonds h1) with h2 | h2
      · exact Or.inl h2
      · exact Or.inr ⟨currentAtom, List.mem_of_find?_eq_some hfind,
          List.mem_toFinset.mp h2⟩
    · exact Or.inr h1

theorem bfsAux_closed (allAtoms : List Atom) (group : Finset String) (queue : List String) :
    (∀ c ∈ group, c ∉ queue → ∀ atom,
        allAtoms.find? (fun x => x.id = c) = some atom →
        ∀ n ∈ atom.bonds, n ∈ group) →
    (∀ q ∈ queue, q ∈ group) →
    ∀ c ∈ bfsAux allAtoms group queue, ∀ atom,
      allAtoms.find? (fun x => x.id = c) = some atom →
      ∀ n ∈ atom.bonds, n ∈ bfsAux allAtoms group queue := by
  refine bfsAux.induct allAtoms
    (fun g q =>
      (∀ c ∈ g, c ∉ q → ∀ atom,
        allAtoms.find? (fun x => x.id = c) = some atom →
        ∀ n ∈ atom.bonds, n ∈ g) →
      (∀ p ∈ q, p ∈ g) →
      ∀ c ∈ bfsAux allAtoms g q, ∀ atom,
        allAtoms.find? (fun x => x.id = c) = some atom →
        ∀ n ∈ atom.bonds, n ∈ bfsAux allAtoms g q)
    ?_ ?_ ?_ group queue
  · intro g H1 _H2
    rw [bfsAux_nil]
    intro c hc atom hatom n hn
    exact H1 c hc (by simp) atom hatom n hn
  · intro g cq rest hfind ih H1 H2
    rw [bfsAux_cons_none _ _ _ _ hfind]
    apply ih
    · intro c hc hcq atom hatom n hn
      by_cases hcc : c = cq
      · subst hcc
        rw [hfind] at hatom
        cases hatom
      · exact H1 c hc (by
          intro hmem
          rcases List.mem_cons.mp hmem with h | h
          · exact hcc h
          · exact hcq h) atom hatom n hn
    · exact fun q hq => H2 q (List.mem_cons_of_mem _ hq)
  · intro g cq rest currentAtom hfind gq ih H1 H2
    rw [bfsAux_cons_some _ _ _ _ _ hfind]
    apply ih
    · intro c hc hcq atom hatom n hn
      rcases enqueueNew_mem_fst_cases (g, rest) currentAtom.bonds hc with hcg | hcs
      · by_cases hcc : c = cq
        · subst hcc
          rw [hfind] at hatom
          cases hatom
          exact enqueueNew_nbrs_subset (g, rest) currentAtom.bonds n hn
        · have hcrest : c ∉ rest := by
            intro hmem
            exact hcq (enqueueNew_snd_mono (g, rest) currentAtom.bonds hmem)
          have := H1 c hcg (by
            intro hmem
            rcases List.mem_cons.mp hmem with h | h
            · exact hcc h
            · exact hcrest h) atom hatom n hn
          exact enqueueNew_subset (g, rest) currentAtom.bonds this
      · exact absurd hcs hcq
    · intro q hq
      rcases enqueueNew_mem_snd_cases (g, rest) currentAtom.bonds hq with h1 | h1
      · exact enqueueNew_subset (g, rest) currentAtom.bonds (H2 q (List.mem_cons_of_mem _ h1))
      · exact h1

/-- C9: `getMoleculeGroup` (a terminating total function of this embedding)
returns a set containing the start id; every other member occurs in the bond
list of some atom of the input list; and the group is closed under the bond
lists of its live members — in particular ids that name no live atom but
occur in a member's bond list are included. -/
theorem getMoleculeGroup_terminates_and_members (allAtoms : List Atom) (startId : String)
    (hnd : IdsNodup allAtoms) :
    startId ∈ getMoleculeGroup allAtoms startId ∧
    (∀ x ∈ getMoleculeGroup allAtoms startId, x ≠ startId →
      ∃ a ∈ allAtoms, x ∈ a.bonds) ∧
    (∀ a ∈ allAtoms, a.id ∈ getMoleculeGroup allAtoms startId →
      ∀ n ∈ a.bonds, n ∈ getMoleculeGroup allAtoms startId) := by
  refine ⟨?_, ?_, ?_⟩
  · exact bfsAux_mono allAtoms {startId} [startId] (Finset.mem_singleton_self _)
  · intro x hx hne
    rcases bfsAux_origin allAtoms {startId} [startId] x hx with h1 | h1
    · exact absurd (Finset.mem_singleton.mp h1) hne
    · exact h1
  · intro a ha hmem n hn
    have hfind := find?_id_of_nodup hnd ha
    exact bfsAux_closed allAtoms {startId} [startId]
      (by
        intro c hc hcq
        exact absurd (Finset.mem_singleton.mp hc ▸ List.mem_singleton_self _) hcq)
      (by
        intro q hq
        rw [List.mem_singleton.mp hq]
        exact Finset.mem_singleton_self _)
      a.id hmem a hfind n hn

/-- Witness for C9: a one-atom list whose bond list names a dead id. -/
theorem getMoleculeGroup_witness :
    IdsNodup [{ defaultAtom with id := "a", bonds := ["ghost"] }] ∧
    ("a" ∈ getMoleculeGroup [{ defaultAtom with id := "a", bonds := ["ghost"] }] "a" ∧
      (∀ x ∈ getMoleculeGroup [{ defaultAtom with id := "a", bonds := ["ghost"] }] "a",
        x ≠ "a" → ∃ a ∈ [{ defaultAtom with id := "a", bonds := ["ghost"] }], x ∈ a.bonds) ∧
      (∀ a ∈ [{ defaultAtom with id := "a", bonds := ["ghost"] }],
        a.id ∈ getMoleculeGroup [{ defaultAtom with id := "a", bonds := ["ghost"] }] "a" →
        ∀ n ∈ a.bonds, n ∈ getMoleculeGroup [{ defaultAtom with id := "a", bonds := ["ghost"] }] "a")) :=
  ⟨by simp [IdsNodup], getMoleculeGroup_terminates_and_members _ _ (by simp [IdsNodup])⟩

/-! ## Claim C1: bond-graph symmetry machinery -/

/-- The symmetry invariant: bond order is symmetric for every pair of live
atoms. -/
def Sym (atoms : List Atom) : Prop :=
  ∀ a ∈ atoms, ∀ b ∈ atoms, a.bonds.count b.id = b.bonds.count a.id

theorem sym_of_view {l1 l2 : List Atom}
    (h : ∀ x ∈ l1, ∃ y ∈ l2, y.id = x.id ∧ y.bonds = x.bonds)
    (hS : Sym l2) : Sym l1 := by
  intro a ha b hb
  rcases h a ha with ⟨ya, hya, hya1, hya2⟩
  rcases h b hb with ⟨yb, hyb, hyb1, hyb2⟩
  rw [← hya1, ← hya2, ← hyb1, ← hyb2]
  exact hS ya hya yb hyb

/-- Velocity-style updates (id and bonds preserved) preserve symmetry. -/
theorem sym_mapById_keepBonds {atoms : List Atom} {id : String} {f : Atom → Atom}
    (hf : ∀ a, (f a).id = a.id ∧ (f a).bonds = a.bonds) (hS : Sym atoms) :
    Sym (mapById atoms id f) := by
  apply sym_of_view _ hS
  intro x hx
  rcases mem_mapById hx with ⟨y, hy, _, hxy⟩ | ⟨y, hy, _, hxy⟩
  · exact ⟨y, hy, by rw [hxy, (hf y).1], by rw [hxy, (hf y).2]⟩
  · exact ⟨y, hy, by rw [hxy], by rw [hxy]⟩

theorem sym_updateFirstById_keepBonds {atoms : List Atom} {id : String} {f : Atom → Atom}
    (hf : ∀ a, (f a).id = a.id ∧ (f a).bonds = a.bonds) (hS : Sym atoms) :
    Sym (updateFirstById atoms id f) := by
  apply sym_of_view _ hS
  intro x hx
  rcases mem_updateFirstById hx with hx1 | ⟨y, hy, _, hxy⟩
  · exact ⟨x, hx1, rfl, rfl⟩
  · exact ⟨y, hy, by rw [hxy, (hf y).1], by rw [hxy, (hf y).2]⟩

theorem sym_sublist {l1 l2 : List Atom} (h : l1.Sublist l2) (hS : Sym l2) : Sym l1 :=
  fun a ha b hb => hS a (h.mem ha) b (h.mem hb)

theorem sym_eraseIdx {atoms : List Atom} (i : ℕ) (hS : Sym atoms) :
    Sym (atoms.eraseIdx i) :=
  sym_sublist (List.eraseIdx_sublist atoms i) hS

/-! ### Ids are stable under the update operations -/

theorem map_id_mapById {atoms : List Atom} {id : String} {f : Atom → Atom}
    (hf : ∀ a, (f a).id = a.id) :
    (mapById atoms id f).map Atom.id = atoms.map Atom.id := by
  unfold mapById
  rw [List.map_map]
  apply List.map_congr_left
  intro a _
  by_cases h : a.id = id <;> simp [h, hf]

theorem map_id_updateFirstById {atoms : List Atom} {id : String} {f : Atom → Atom}
    (hf : ∀ a, (f a).id = a.id) :
    (updateFirstById atoms id f).map Atom.id = atoms.map Atom.id := by
  induction atoms with
  | nil => rfl
  | cons y ys ih =>
    by_cases h : y.id = id
    · simp [updateFirstById, h, hf]
    · simp [updateFirstById, h, ih]

theorem idsNodup_mapById {atoms : List Atom} {id : String} {f : Atom → Atom}
    (hf : ∀ a, (f a).id = a.id) (hnd : IdsNodup atoms) : IdsNodup (mapById atoms id f) := by
  unfold IdsNodup
  rw [map_id_mapById hf]
  exact hnd

theorem idsNodup_updateFirstById {atoms : List Atom} {id : String} {f : Atom → Atom}
    (hf : ∀ a, (f a).id = a.id) (hnd : IdsNodup atoms) :
    IdsNodup (updateFirstById atoms id f) := by
  unfold IdsNodup
  rw [map_id_updateFirstById hf]
  exact hnd

theorem idsNodup_eraseIdx {atoms : List Atom} (i : ℕ) (hnd : IdsNodup atoms) :
    IdsNodup (atoms.eraseIdx i) :=
  ((List.eraseIdx_sublist atoms i).map Atom.id).nodup hnd

theorem idsNodup_addBond {atoms : List Atom} {aId bId : String} (hnd : IdsNodup atoms) :
    IdsNodup (addBond atoms aId bId) :=
  idsNodup_mapById (fun _ => rfl) (idsNodup_mapById (fun _ => rfl) hnd)

theorem idsNodup_breakBond {atoms : List Atom} {aId bId : String} (hnd : IdsNodup atoms) :
    IdsNodup (breakBond atoms aId bId) :=
  idsNodup_updateFirstById (fun _ => rfl) (idsNodup_mapById (fun _ => rfl) hnd)

theorem idsNodup_decrementBond {atoms : List Atom} {aId bId : String} (hnd : IdsNodup atoms) :
    IdsNodup (decrementBond atoms aId bId).1 := by
  unfold decrementBond
  rcases hfind : atoms.find? (fun x => x.id = aId) with _ | a
  · simp only [hfind]
    exact hnd
  · simp only [hfind]
    by_cases hmem : bId ∈ a.bonds
    · rw [if_pos hmem]
      exact idsNodup_updateFirstById (fun _ => rfl) (idsNodup_mapById (fun _ => rfl) hnd)
    · rw [if_neg hmem]
      exact hnd

/-! ### Count bookkeeping for bond list edits -/

theorem count_append_single (l : List String) (v c : String) :
    (l ++ [v]).count c = l.count c + if c = v then 1 else 0 := by
  rw [List.count_append]
  by_cases h : c = v <;> simp [List.count_singleton', h, beq_iff_eq]

theorem count_filter_ne (l : List String) (v c : String) :
    (l.filter (fun i => i ≠ v)).count c = if c = v then 0 else l.count c := by
  by_cases h : c = v
  · subst h
    simp only [if_pos rfl]
    exact List.count_eq_zero.mpr not_mem_filter_ne
  · rw [if_neg h]
    rw [List.count_filter]
    simp [h]

theorem count_removeFirst (l : List String) (v c : String) :
    (removeFirst l v).count c = l.count c - (if c = v ∧ v ∈ l then 1 else 0) := by
  induction l with
  | nil => simp [removeFirst]
  | cons x xs ih =>
    by_cases hx : x = v
    · subst hx
      simp only [removeFirst, if_pos rfl]
      by_cases hc : c = x
      · subst hc
        simp [List.count_cons_self]
      · simp [List.count_cons_of_ne hc, hc]
    · simp only [removeFirst, if_neg hx]
      by_cases hc : c = x
      · subst hc
        have hcv : ¬c = v := hx
        simp [List.count_cons_self, ih, hcv]
      · rw [List.count_cons_of_ne hc, List.count_cons_of_ne hc, ih]
        by_cases h1 : c = v ∧ v ∈ xs
        · have h1' : c = v ∧ v ∈ x :: xs := ⟨h1.1, List.mem_cons_of_mem _ h1.2⟩
          rw [if_pos h1, if_pos h1']
        · by_cases h2 : c = v
          · have hnv : v ∉ xs := fun hm => h1 ⟨h2, hm⟩
            have hvcons : ¬(c = v ∧ v ∈ x :: xs) := by
              rintro ⟨_, hmem⟩
              rcases List.mem_cons.mp hmem with h | h
              · exact hx h.symm
              · exact hnv h
            rw [if_neg h1, if_neg hvcons]
          · have hvcons : ¬(c = v ∧ v ∈ x :: xs) := fun h => h2 h.1
            rw [if_neg h1, if_neg hvcons]

theorem count_pos_mem {l : List String} {c : String} (h : 0 < l.count c) : c ∈ l :=
  List.count_pos_iff.mp h

theorem count_removeFirst_ne {l : List String} {v c : String} (h : ¬c = v) :
    (removeFirst l v).count c = l.count c := by
  rw [count_removeFirst]
  simp [h]

theorem eq_of_id_eq {atoms : List Atom} {x y : Atom} (hnd : IdsNodup atoms)
    (hx : x ∈ atoms) (hy : y ∈ atoms) (h : x.id = y.id) : x = y :=
  List.inj_on_of_nodup_map hnd hx hy h

theorem updateFirstById_eq_mapById {atoms : List Atom} {id : String} {f : Atom → Atom}
    (hnd : IdsNodup atoms) : updateFirstById atoms id f = mapById atoms id f := by
  induction atoms with
  | nil => rfl
  | cons y ys ih =>
    rcases List.nodup_cons.mp hnd with ⟨hy, hys⟩
    by_cases h : y.id = id
    · have hmap : mapById ys id f = ys := by
        apply mapById_congr
        intro x hx hxid
        exfalso
        apply hy
        rw [h, ← hxid]
        exact List.mem_map.mpr ⟨x, hx, rfl⟩
      simp only [updateFirstById, mapById, List.map_cons, h, if_pos]
      change _ = f y :: mapById ys id f
      rw [hmap]
    · simp only [updateFirstById, mapById, List.map_cons, h, if_neg, if_false]
      rw [ih hys]
      rfl

theorem count_ite_single (P : Prop) [Decidable P] (v c : String) :
    (if P then [v] else []).count c = if P ∧ c = v then 1 else 0 := by
  by_cases hP : P
  · by_cases hc : c = v <;> simp [hP, hc, List.count_singleton', beq_iff_eq, eq_comm]
  · simp [hP]

/-! ### addBond preserves symmetry -/

/-- The pointwise effect of `addBond` on one list entry (proof device). -/
def addBondFun (aId bId : String) (x : Atom) : Atom :=
  let x1 := if x.id = aId then { x with bonds := x.bonds ++ [bId] } else x
  if x1.id = bId then { x1 with bonds := x1.bonds ++ [aId] } else x1

theorem addBond_eq_map (atoms : List Atom) (aId bId : String) :
    addBond atoms aId bId = atoms.map (addBondFun aId bId) := by
  unfold addBond mapById addBondFun
  rw [List.map_map]
  rfl

theorem addBondFun_id (aId bId : String) (x : Atom) : (addBondFun aId bId x).id = x.id := by
  unfold addBondFun
  simp only []
  by_cases hxa : x.id = aId
  · rw [if_pos hxa]
    by_cases hxb : x.id = bId
    · rw [if_pos (show ({ x with bonds := x.bonds ++ [bId] } : Atom).id = bId from hxb)]
    · rw [if_neg (show ¬({ x with bonds := x.bonds ++ [bId] } : Atom).id = bId from hxb)]
  · rw [if_neg hxa]
    by_cases hxb : x.id = bId
    · rw [if_pos hxb]
    · rw [if_neg hxb]

theorem addBondFun_bonds (aId bId : String) (x : Atom) :
    (addBondFun aId bId x).bonds =
      (x.bonds ++ (if x.id = aId then [bId] else [])) ++
        (if x.id = bId then [aId] else []) := by
  unfold addBondFun
  simp only []
  by_cases hxa : x.id = aId
  · rw [if_pos hxa]
    by_cases hxb : x.id = bId
    · rw [if_pos (show ({ x with bonds := x.bonds ++ [bId] } : Atom).id = bId from hxb),
        if_pos hxa, if_pos hxb]
    · rw [if_neg (show ¬({ x with bonds := x.bonds ++ [bId] } : Atom).id = bId from hxb),
        if_pos hxa, if_neg hxb]
      simp
  · rw [if_neg hxa]
    by_cases hxb : x.id = bId
    · rw [if_pos hxb, if_neg hxa, if_pos hxb]
      simp
    · rw [if_neg hxb, if_neg hxa, if_neg hxb]
      simp

theorem addBondFun_count (aId bId c : String) (x : Atom) :
    (addBondFun aId bId x).bonds.count c =
      x.bonds.count c + (if x.id = aId ∧ c = bId then 1 else 0) +
        (if x.id = bId ∧ c = aId then 1 else 0) := by
  rw [addBondFun_bonds, List.count_append, List.count_append,
    count_ite_single, count_ite_single]

theorem sym_addBond {atoms : List Atom} (aId bId : String) (hS : Sym atoms) :
    Sym (addBond atoms aId bId) := by
  rw [addBond_eq_map]
  intro a' ha' b' hb'
  rcases List.mem_map.mp ha' with ⟨x, hx, rfl⟩
  rcases List.mem_map.mp hb' with ⟨y, hy, rfl⟩
  have base := hS x hx y hy
  rw [addBondFun_id, addBondFun_id, addBondFun_count, addBondFun_count, base]
  by_cases h1 : x.id = aId <;> by_cases h2 : x.id = bId <;>
    by_cases h3 : y.id = aId <;> by_cases h4 : y.id = bId <;>
    simp [h1, h2, h3, h4] <;>
    first
    | rfl
    | (by_cases hab : aId = bId <;> simp [hab])

/-! ### breakBond preserves symmetry -/

/-- The pointwise effect of `breakBond` on one list entry, valid when ids are
unique (proof device). -/
def breakBondFun (aId bId : String) (x : Atom) : Atom :=
  let x1 := if x.id = aId then { x with bonds := x.bonds.filter (fun i => i ≠ bId) } else x
  if x1.id = bId then { x1 with bonds := x1.bonds.filter (fun i => i ≠ aId) } else x1

theorem breakBond_eq_map {atoms : List Atom} (aId bId : String) (hnd : IdsNodup atoms) :
    breakBond atoms aId bId = atoms.map (breakBondFun aId bId) := by
  unfold breakBond
  simp only []
  have hnd1 : IdsNodup (mapById atoms aId
      (fun a => { a with bonds := a.bonds.filter (fun i => i ≠ bId) })) :=
    idsNodup_mapById (fun _ => rfl) hnd
  rw [updateFirstById_eq_mapById hnd1]
  unfold mapById breakBondFun
  rw [List.map_map]
  rfl

theorem breakBondFun_id (aId bId : String) (x : Atom) :
    (breakBondFun aId bId x).id = x.id := by
  unfold breakBondFun
  simp only []
  by_cases hxa : x.id = aId
  · rw [if_pos hxa]
    by_cases hxb : x.id = bId
    · rw [if_pos (show ({ x with bonds := x.bonds.filter (fun i => i ≠ bId) } : Atom).id = bId
        from hxb)]
    · rw [if_neg (show ¬({ x with bonds := x.bonds.filter (fun i => i ≠ bId) } : Atom).id = bId
        from hxb)]
  · rw [if_neg hxa]
    by_cases hxb : x.id = bId
    · rw [if_pos hxb]
    · rw [if_neg hxb]

theorem count_double_filter (l : List String) (aId bId c : String) :
    ((l.filter (fun i => i ≠ bId)).filter (fun i => i ≠ aId)).count c =
      if c = bId ∨ c = aId then 0 else l.count c := by
  rw [count_filter_ne, count_filter_ne]
  by_cases h1 : c = aId <;> by_cases h2 : c = bId <;> simp [h1, h2]

theorem breakBondFun_count (aId bId c : String) (x : Atom) :
    (breakBondFun aId bId x).bonds.count c =
      if (x.id = aId ∧ c = bId) ∨ (x.id = bId ∧ c = aId) then 0
      else x.bonds.count c := by
  unfold breakBondFun
  simp only []
  by_cases hxa : x.id = aId
  · rw [if_pos hxa]
    by_cases hxb : x.id = bId
    · rw [if_pos (show ({ x with bonds := x.bonds.filter (fun i => i ≠ bId) } : Atom).id = bId
        from hxb)]
      have hab : aId = bId := hxa.symm.trans hxb
      show ((x.bonds.filter (fun i => i ≠ bId)).filter (fun i => i ≠ aId)).count c = _
      rw [count_double_filter]
      by_cases h1 : c = aId <;> by_cases h2 : c = bId <;>
        simp [h1, h2, hxa, hxb, hab]
    · rw [if_neg (show ¬({ x with bonds := x.bonds.filter (fun i => i ≠ bId) } : Atom).id = bId
        from hxb)]
      have hab : ¬aId = bId := fun h => hxb (hxa.trans h)
      show (x.bonds.filter (fun i => i ≠ bId)).count c = _
      rw [count_filter_ne]
      by_cases h2 : c = bId <;> simp [h2, hxa, hxb, hab]
  · rw [if_neg hxa]
    by_cases hxb : x.id = bId
    · rw [if_pos hxb]
      have hab : ¬bId = aId := fun h => hxa (hxb.trans h)
      show (x.bonds.filter (fun i => i ≠ aId)).count c = _
      rw [count_filter_ne]
      by_cases h1 : c = aId <;> simp [h1, hxa, hxb, hab]
    · rw [if_neg hxb]
      simp [hxa, hxb]

theorem sym_breakBond {atoms : List Atom} (aId bId : String) (hnd : IdsNodup atoms)
    (hS : Sym atoms) : Sym (breakBond atoms aId bId) := by
  rw [breakBond_eq_map aId bId hnd]
  intro a' ha' b' hb'
  rcases List.mem_map.mp ha' with ⟨x, hx, rfl⟩
  rcases List.mem_map.mp hb' with ⟨y, hy, rfl⟩
  have base := hS x hx y hy
  rw [breakBondFun_id, breakBondFun_id, breakBondFun_count, breakBondFun_count, base]
  by_cases h1 : x.id = aId <;> by_cases h2 : x.id = bId <;>
    by_cases h3 : y.id = aId <;> by_cases h4 : y.id = bId <;>
    simp [h1, h2, h3, h4] <;>
    first
    | rfl
    | (by_cases hab : aId = bId <;> simp [hab])

/-! ### decrementBond preserves symmetry -/

/-- The pointwise effect of `decrementBond` (in the branch where a removal
happens), valid when ids are unique (proof device). -/
def decBondFun (aId bId : String) (x : Atom) : Atom :=
  let x1 := if x.id = aId then { x with bonds := removeFirst x.bonds bId } else x
  if x1.id = bId then { x1 with bonds := removeFirst x1.bonds aId } else x1

theorem decBondFun_id (aId bId : String) (x : Atom) : (decBondFun aId bId x).id = x.id := by
  unfold decBondFun
  simp only []
  by_cases hxa : x.id = aId
  · rw [if_pos hxa]
    by_cases hxb : x.id = bId
    · rw [if_pos (show ({ x with bonds := removeFirst x.bonds bId } : Atom).id = bId from hxb)]
    · rw [if_neg (show ¬({ x with bonds := removeFirst x.bonds bId } : Atom).id = bId from hxb)]
  · rw [if_neg hxa]
    by_cases hxb : x.id = bId
    · rw [if_pos hxb]
    · rw [if_neg hxb]

theorem decBondFun_bonds_a {aId bId : String} {x : Atom} (hxa : x.id = aId)
    (hxb : ¬x.id = bId) : (decBondFun aId bId x).bonds = removeFirst x.bonds bId := by
  unfold decBondFun
  simp only []
  rw [if_pos hxa,
    if_neg (show ¬({ x with bonds := removeFirst x.bonds bId } : Atom).id = bId from hxb)]

theorem decBondFun_bonds_b {aId bId : String} {x : Atom} (hxa : ¬x.id = aId)
    (hxb : x.id = bId) : (decBondFun aId bId x).bonds = removeFirst x.bonds aId := by
  unfold decBondFun
  simp only []
  rw [if_neg hxa, if_pos hxb]

theorem decBondFun_bonds_other {aId bId : String} {x : Atom} (hxa : ¬x.id = aId)
    (hxb : ¬x.id = bId) : (decBondFun aId bId x).bonds = x.bonds := by
  unfold decBondFun
  simp only []
  rw [if_neg hxa, if_neg hxb]

theorem decBondFun_bonds_ab {aId bId : String} {x : Atom} (hxa : x.id = aId)
    (hxb : x.id = bId) :
    (decBondFun aId bId x).bonds = removeFirst (removeFirst x.bonds bId) aId := by
  unfold decBondFun
  simp only []
  rw [if_pos hxa,
    if_pos (show ({ x with bonds := removeFirst x.bonds bId } : Atom).id = bId from hxb)]

theorem decrementBond_eq_map {atoms : List Atom} {aId bId : String} {a : Atom}
    (hnd : IdsNodup atoms) (hfind : atoms.find? (fun x => x.id = aId) = some a)
    (hmem : bId ∈ a.bonds) :
    (decrementBond atoms aId bId).1 = atoms.map (decBondFun aId bId) := by
  unfold decrementBond
  simp only [hfind]
  rw [if_pos hmem]
  have hnd1 : IdsNodup (mapById atoms aId
      (fun x => { x with bonds := removeFirst x.bonds bId })) :=
    idsNodup_mapById (fun _ => rfl) hnd
  show (updateFirstById (mapById atoms aId
      (fun x => { x with bonds := removeFirst x.bonds bId })) bId
      (fun b => { b with bonds := removeFirst b.bonds aId })) = _
  rw [updateFirstById_eq_mapById hnd1]
  unfold mapById decBondFun
  rw [List.map_map]
  rfl

theorem sym_decrementBond {atoms : List Atom} (aId bId : String) (hnd : IdsNodup atoms)
    (hS : Sym atoms) : Sym (decrementBond atoms aId bId).1 := by
  rcases hfind : atoms.find? (fun x => x.id = aId) with _ | a
  · unfold decrementBond
    simp only [hfind]
    exact hS
  · by_cases hmem : bId ∈ a.bonds
    swap
    · unfold decrementBond
      simp only [hfind]
      rw [if_neg hmem]
      exact hS
    · rw [decrementBond_eq_map hnd hfind hmem]
      have hamem : a ∈ atoms := List.mem_of_find?_eq_some hfind
      have haid : a.id = aId := by
        have := List.find?_some hfind
        exact of_decide_eq_true this
      intro a' ha' b' hb'
      rcases List.mem_map.mp ha' with ⟨x, hx, rfl⟩
      rcases List.mem_map.mp hb' with ⟨y, hy, rfl⟩
      by_cases hxy : x = y
      · subst hxy
        rfl
      have hne : ¬x.id = y.id := fun h => hxy (eq_of_id_eq hnd hx hy h)
      have base := hS x hx y hy
      rw [decBondFun_id, decBondFun_id]
      by_cases hab : aId = bId
      · -- self-decrement: only the atom with id aId is touched, twice
        subst hab
        by_cases hxa : x.id = aId
        · have hya : ¬y.id = aId := fun h => hne (hxa.trans h.symm)
          rw [decBondFun_bonds_ab hxa hxa, decBondFun_bonds_other hya hya]
          rw [count_removeFirst_ne hya, count_removeFirst_ne hya]
          exact base
        · by_cases hya : y.id = aId
          · rw [decBondFun_bonds_other hxa hxa, decBondFun_bonds_ab hya hya]
            rw [count_removeFirst_ne hxa, count_removeFirst_ne hxa]
            exact base
          · rw [decBondFun_bonds_other hxa hxa, decBondFun_bonds_other hya hya]
            exact base
      · -- distinct endpoint ids
        by_cases hxa : x.id = aId
        · have hxb : ¬x.id = bId := fun h => hab (hxa.symm.trans h)
          have hxeq : x = a := eq_of_id_eq hnd hx hamem (hxa.trans haid.symm)
          by_cases hyb : y.id = bId
          · -- the (A, B) pair: both sides lose one occurrence
            have hya : ¬y.id = aId := fun h => hab (h.symm.trans hyb)
            rw [decBondFun_bonds_a hxa hxb, decBondFun_bonds_b hya hyb]
            have hbx : bId ∈ x.bonds := hxeq ▸ hmem
            have hk : 0 < x.bonds.count bId := List.count_pos_iff.mpr hbx
            have hk2 : 0 < y.bonds.count aId := by
              rw [← hxa, ← base, hyb]
              exact hk
            have hay : aId ∈ y.bonds := count_pos_mem hk2
            rw [count_removeFirst, count_removeFirst]
            rw [if_pos ⟨hyb, hbx⟩, if_pos ⟨hxa, hay⟩]
            rw [hyb, hxa] at base ⊢
            rw [base]
          · have hya : ¬y.id = aId := fun h => hne (hxa.trans h.symm)
            rw [decBondFun_bonds_a hxa hxb, decBondFun_bonds_other hya hyb]
            rw [count_removeFirst_ne hyb]
            exact base
        · by_cases hxb : x.id = bId
          · by_cases hya : y.id = aId
            · -- the (B, A) pair
              have hyb : ¬y.id = bId := fun h => hab (hya.symm.trans h)
              have hyeq : y = a := eq_of_id_eq hnd hy hamem (hya.trans haid.symm)
              rw [decBondFun_bonds_b hxa hxb, decBondFun_bonds_a hya hyb]
              have hby : bId ∈ y.bonds := hyeq ▸ hmem
              have hk : 0 < y.bonds.count bId := List.count_pos_iff.mpr hby
              have hk2 : 0 < x.bonds.count aId := by
                rw [← hya, base, hxb]
                exact hk
              have hax : aId ∈ x.bonds := count_pos_mem hk2
              rw [count_removeFirst, count_removeFirst]
              rw [if_pos ⟨hya, hax⟩, if_pos ⟨hxb, hby⟩]
              rw [hya, hxb] at base ⊢
              rw [base]
            · have hyb : ¬y.id = bId := fun h => hne (hxb.trans h.symm)
              rw [decBondFun_bonds_b hxa hxb, decBondFun_bonds_other hya hyb]
              rw [count_removeFirst_ne hya]
              exact base
          · rw [decBondFun_bonds_other hxa hxb]
            by_cases hya : y.id = aId
            · have hyb : ¬y.id = bId := fun h => hab (hya.symm.trans h)
              rw [decBondFun_bonds_a hya hyb]
              rw [count_removeFirst_ne hxb]
              exact base
            · by_cases hyb : y.id = bId
              · rw [decBondFun_bonds_b hya hyb]
                rw [count_removeFirst_ne hxa]
                exact base
              · rw [decBondFun_bonds_other hya hyb]
                exact base

/-! ### The decay mutation block preserves symmetry -/

theorem createExplosion_atoms (s : SimState) (x y : ℝ) (color : String) (count : ℕ) :
    (createExplosion s x y color count).atoms = s.atoms := by
  unfold createExplosion
  induction count with
  | zero => rfl
  | succ n ih =>
    rw [List.range_succ, List.foldl_append, List.foldl_cons, List.foldl_nil]
    exact ih

theorem filter_ne_idem (l : List String) (v : String) :
    ((l.filter (fun i => i ≠ v)).filter (fun i => i ≠ v)) = l.filter (fun i => i ≠ v) := by
  rw [List.filter_filter]
  apply List.filter_congr
  intro a _
  simp

/-- The pointwise effect of the partner-side clearing fold (proof device). -/
def clearPartnerFun (atomId : String) (B : List String) (x : Atom) : Atom :=
  if x.id ∈ B then { x with bonds := x.bonds.filter (fun bid => bid ≠ atomId) } else x

theorem clearFold_eq_map (atomId : String) (B : List String) (acc : List Atom)
    (hnd : IdsNodup acc) :
    B.foldl (fun acc2 bondedId => updateFirstById acc2 bondedId
        (fun partner => { partner with
          bonds := partner.bonds.filter (fun bid => bid ≠ atomId) })) acc =
      acc.map (clearPartnerFun atomId B) := by
  induction B generalizing acc with
  | nil =>
    simp only [List.foldl_nil]
    have : ∀ x ∈ acc, clearPartnerFun atomId [] x = x := by
      intro x _
      unfold clearPartnerFun
      rw [if_neg (List.not_mem_nil x.id)]
    rw [List.map_congr_left this]
    simp
  | cons b B2 ih =>
    rw [List.foldl_cons]
    have hnd1 : IdsNodup (mapById acc b
        (fun partner => { partner with
          bonds := partner.bonds.filter (fun bid => bid ≠ atomId) })) :=
      idsNodup_mapById (fun _ => rfl) hnd
    rw [updateFirstById_eq_mapById hnd]
    rw [ih _ hnd1]
    unfold mapById
    rw [List.map_map]
    apply List.map_congr_left
    intro x _
    show clearPartnerFun atomId B2 (if x.id = b then _ else x) = clearPartnerFun atomId (b :: B2) x
    by_cases hxb : x.id = b
    · rw [if_pos hxb]
      unfold clearPartnerFun
      by_cases hx2 : x.id ∈ B2
      · rw [if_pos (show ({ x with bonds := x.bonds.filter (fun bid => bid ≠ atomId) } : Atom).id ∈ B2 from hx2),
          if_pos (show x.id ∈ b :: B2 from List.mem_cons_of_mem _ hx2)]
        rw [filter_ne_idem]
      · rw [if_neg (show ¬({ x with bonds := x.bonds.filter (fun bid => bid ≠ atomId) } : Atom).id ∈ B2 from hx2),
          if_pos (show x.id ∈ b :: B2 from hxb ▸ List.mem_cons_self _ _)]
    · rw [if_neg hxb]
      unfold clearPartnerFun
      by_cases hx2 : x.id ∈ B2
      · rw [if_pos hx2, if_pos (List.mem_cons_of_mem _ hx2)]
      · rw [if_neg hx2, if_neg (by
          intro hmem
          rcases List.mem_cons.mp hmem with h | h
          · exact hxb h
          · exact hx2 h)]

/-- Count of the full decay clearing (partner-side severing followed by
emptying the decayed atom's own list), pointwise. -/
def decayClearFun (atomId : String) (B : List String) (x : Atom) : Atom :=
  let x1 := clearPartnerFun atomId B x
  if x1.id = atomId then { x1 with bonds := [] } else x1

theorem decayClear_eq_map (atomId : String) (B : List String) (acc : List Atom) :
    mapById (acc.map (clearPartnerFun atomId B)) atomId (fun x => { x with bonds := [] }) =
      acc.map (decayClearFun atomId B) := by
  unfold mapById decayClearFun
  rw [List.map_map]
  rfl

theorem decayClearFun_id (atomId : String) (B : List String) (x : Atom) :
    (decayClearFun atomId B x).id = x.id := by
  unfold decayClearFun
  simp only []
  have hid : (clearPartnerFun atomId B x).id = x.id := by
    unfold clearPartnerFun
    by_cases h : x.id ∈ B
    · rw [if_pos h]
    · rw [if_neg h]
  by_cases hxa : x.id = atomId
  · rw [if_pos (hid.trans hxa)]
    exact hid
  · rw [if_neg (fun h => hxa (hid.symm.trans h))]
    exact hid

theorem decayClearFun_count (atomId : String) (B : List String) (c : String) (x : Atom) :
    (decayClearFun atomId B x).bonds.count c =
      if x.id = atomId then 0
      else if x.id ∈ B then (if c = atomId then 0 else x.bonds.count c)
      else x.bonds.count c := by
  unfold decayClearFun clearPartnerFun
  simp only []
  by_cases hxa : x.id = atomId
  · by_cases hxB : x.id ∈ B
    · rw [if_pos hxB,
        if_pos (show ({ x with bonds := x.bonds.filter (fun bid => bid ≠ atomId) } : Atom).id
          = atomId from hxa), if_pos hxa]
      simp
    · rw [if_neg hxB, if_pos hxa, if_pos hxa]
      simp
  · by_cases hxB : x.id ∈ B
    · rw [if_pos hxB,
        if_neg (show ¬({ x with bonds := x.bonds.filter (fun bid => bid ≠ atomId) } : Atom).id
          = atomId from hxa), if_neg hxa, if_pos hxB]
      show (x.bonds.filter (fun i => i ≠ atomId)).count c = _
      rw [count_filter_ne]
    · rw [if_neg hxB, if_neg hxa, if_neg hxa, if_neg hxB]

theorem sym_decayClear {atoms : List Atom} {atomId : String} {B : List String}
    (hnd : IdsNodup atoms) (hS : Sym atoms)
    (hB : ∀ x ∈ atoms, x.id = atomId → x.bonds = B) :
    Sym (atoms.map (decayClearFun atomId B)) := by
  intro a' ha' b' hb'
  rcases List.mem_map.mp ha' with ⟨x, hx, rfl⟩
  rcases List.mem_map.mp hb' with ⟨y, hy, rfl⟩
  by_cases hxy : x = y
  · subst hxy
    rfl
  have hne : ¬x.id = y.id := fun h => hxy (eq_of_id_eq hnd hx hy h)
  have base := hS x hx y hy
  rw [decayClearFun_id, decayClearFun_id, decayClearFun_count, decayClearFun_count]
  by_cases hxa : x.id = atomId
  · have hya : ¬y.id = atomId := fun h => hne (hxa.trans h.symm)
    have hxbonds : x.bonds = B := hB x hx hxa
    rw [if_pos hxa, if_neg hya]
    by_cases hyB : y.id ∈ B
    · rw [if_pos hyB, if_pos hxa]
    · rw [if_neg hyB, ← base, hxbonds]
      exact (List.count_eq_zero.mpr hyB).symm
  · rw [if_neg hxa]
    by_cases hya : y.id = atomId
    · have hybonds : y.bonds = B := hB y hy hya
      by_cases hxB : x.id ∈ B
      · rw [if_pos hxB, if_pos hya, if_pos hya]
      · rw [if_neg hxB, if_pos hya, base, hybonds]
        exact List.count_eq_zero.mpr hxB
    · have hL : (if x.id ∈ B then (if y.id = atomId then 0 else x.bonds.count y.id)
          else x.bonds.count y.id) = x.bonds.count y.id := by
        by_cases hxB : x.id ∈ B
        · rw [if_pos hxB, if_neg hya]
        · rw [if_neg hxB]
      have hR : (if y.id = atomId then 0
          else if y.id ∈ B then (if x.id = atomId then 0 else y.bonds.count x.id)
          else y.bonds.count x.id) = y.bonds.count x.id := by
        rw [if_neg hya]
        by_cases hyB : y.id ∈ B
        · rw [if_pos hyB, if_neg hxa]
        · rw [if_neg hyB]
      rw [hL, hR]
      exact base

/-! ### The invariant, composed through the engine operations -/

/-- Combined bond-graph invariant: unique ids and symmetric bond lists. -/
def GraphInv (atoms : List Atom) : Prop := IdsNodup atoms ∧ Sym atoms

theorem idsNodup_map_keepId {atoms : List Atom} {g : Atom → Atom}
    (hg : ∀ a, (g a).id = a.id) (hnd : IdsNodup atoms) : IdsNodup (atoms.map g) := by
  unfold IdsNodup
  rw [List.map_map, show (Atom.id ∘ g) = Atom.id from funext hg]
  exact hnd

theorem graphInv_mapById_keep {atoms : List Atom} {id : String} {f : Atom → Atom}
    (hf : ∀ a, (f a).id = a.id ∧ (f a).bonds = a.bonds) (h : GraphInv atoms) :
    GraphInv (mapById atoms id f) :=
  ⟨idsNodup_mapById (fun a => (hf a).1) h.1, sym_mapById_keepBonds hf h.2⟩

theorem graphInv_addBond {atoms : List Atom} (aId bId : String) (h : GraphInv atoms) :
    GraphInv (addBond atoms aId bId) :=
  ⟨idsNodup_addBond h.1, sym_addBond aId bId h.2⟩

theorem graphInv_breakBond {atoms : List Atom} (aId bId : String) (h : GraphInv atoms) :
    GraphInv (breakBond atoms aId bId) :=
  ⟨idsNodup_breakBond h.1, sym_breakBond aId bId h.1 h.2⟩

theorem graphInv_decrementBond {atoms : List Atom} (aId bId : String) (h : GraphInv atoms) :
    GraphInv (decrementBond atoms aId bId).1 :=
  ⟨idsNodup_decrementBond h.1, sym_decrementBond aId bId h.1 h.2⟩

theorem graphInv_scaleVelById {atoms : List Atom} (id : String) (f : ℝ) (h : GraphInv atoms) :
    GraphInv (scaleVelById atoms id f) :=
  graphInv_mapById_keep (fun _ => ⟨rfl, rfl⟩) h

theorem graphInv_applyPairImpulse {atoms : List Atom} (aId bId : String)
    (fx fy iA iB : ℝ) (h : GraphInv atoms) :
    GraphInv (applyPairImpulse atoms aId bId fx fy iA iB) :=
  graphInv_mapById_keep (fun _ => ⟨rfl, rfl⟩)
    (graphInv_mapById_keep (fun _ => ⟨rfl, rfl⟩) h)

theorem graphInv_tryDissociate {atoms : List Atom} (rng : Rng) (atomId : String)
    (h : GraphInv atoms) : GraphInv (tryDissociate atoms rng atomId).1.1 := by
  unfold tryDissociate
  rcases hfind : atoms.find? (fun x => x.id = atomId) with _ | atom
  · simp only [hfind]
    exact h
  · simp only [hfind, Rng.next]
    by_cases hcond : ((if atom.element.z ∈ COVALENT_Z then atom.element.v else 6) ≤
        (atom.bonds.length : Int) ∧ 0 < atom.bonds.length)
    · rw [if_pos hcond]
      exact graphInv_decrementBond _ _ h
    · rw [if_neg hcond]
      exact h

set_option maxHeartbeats 1600000 in
theorem graphInv_pairChemistry {s : SimState} (i j : ℕ) (h : GraphInv s.atoms) :
    GraphInv (pairChemistry s i j).atoms := by
  unfold pairChemistry
  simp only []
  repeat' split
  all_goals
    first
    | exact h
    | exact graphInv_addBond _ _ h
    | (rw [createExplosion_atoms]
       exact graphInv_scaleVelById _ _ (graphInv_scaleVelById _ _
         (graphInv_scaleVelById _ _ (graphInv_addBond _ _
           (graphInv_addBond _ _ (graphInv_breakBond _ _ h))))))
    | exact graphInv_tryDissociate _ _ (graphInv_tryDissociate _ _ h)
    | (rw [createExplosion_atoms]
       exact graphInv_scaleVelById _ _ (graphInv_scaleVelById _ _
         (graphInv_tryDissociate _ _ (graphInv_tryDissociate _ _ h))))

theorem graphInv_bondForces {atoms : List Atom} (a b : Atom)
    (nx ny dist cr : ℝ) (bo : ℕ) (iA iB : ℝ) (h : GraphInv atoms) :
    GraphInv (bondForces atoms a b nx ny dist cr bo iA iB) :=
  graphInv_applyPairImpulse _ _ _ _ _ _ h

theorem graphInv_collisionForces {atoms : List Atom} (a b : Atom)
    (nx ny dist cr iA iB : ℝ) (h : GraphInv atoms) :
    GraphInv (collisionForces atoms a b nx ny dist cr iA iB) :=
  graphInv_applyPairImpulse _ _ _ _ _ _ h

set_option maxHeartbeats 3200000 in
theorem graphInv_pairStep (dragId : Option String) (dragGroup : Option (List String))
    {s : SimState} (i j : ℕ) (h : GraphInv s.atoms) :
    GraphInv (pairStep dragId dragGroup s i j).atoms := by
  unfold pairStep
  simp only []
  repeat' split
  all_goals
    first
    | exact h
    | exact graphInv_breakBond _ _ h
    | exact graphInv_bondForces _ _ _ _ _ _ _ _ _ h
    | exact graphInv_collisionForces _ _ _ _ _ _ _ _ h
    | exact graphInv_pairChemistry _ _ h
    | exact graphInv_pairChemistry _ _ (graphInv_bondForces _ _ _ _ _ _ _ _ _ h)
    | exact graphInv_pairChemistry _ _ (graphInv_collisionForces _ _ _ _ _ _ _ _ h)

theorem graphInv_foldl_state {α : Type} (f : SimState → α → SimState)
    (hf : ∀ s x, GraphInv s.atoms → GraphInv (f s x).atoms) :
    ∀ (l : List α) (s : SimState), GraphInv s.atoms → GraphInv (l.foldl f s).atoms := by
  intro l
  induction l with
  | nil => exact fun s h => h
  | cons x xs ih =>
    intro s h
    rw [List.foldl_cons]
    exact ih _ (hf s x h)

theorem graphInv_foldl_atoms {α : Type} (f : List Atom → α → List Atom)
    (hf : ∀ l x, GraphInv l → GraphInv (f l x)) :
    ∀ (l : List α) (atoms : List Atom), GraphInv atoms → GraphInv (l.foldl f atoms) := by
  intro l
  induction l with
  | nil => exact fun atoms h => h
  | cons x xs ih =>
    intro atoms h
    rw [List.foldl_cons]
    exact ih _ (hf atoms x h)

theorem graphInv_resolveInteractions (atoms : List Atom) (particles : List Particle)
    (rng : Rng) (dragId : Option String) (dragGroup : Option (List String))
    (h : GraphInv atoms) :
    GraphInv (resolveInteractions atoms particles rng dragId dragGroup).atoms := by
  unfold resolveInteractions innerPairs
  exact graphInv_foldl_state _
    (fun s i hs => graphInv_foldl_state _
      (fun s2 j hs2 => graphInv_pairStep dragId dragGroup i j hs2) _ s hs) _ _ h

theorem graphInv_annealRule2 {atoms : List Atom} (a : Atom) (h : GraphInv atoms) :
    GraphInv (annealRule2 atoms a) := by
  unfold annealRule2
  simp only []
  repeat' split
  all_goals
    first
    | exact h
    | exact graphInv_mapById_keep (fun _ => ⟨rfl, rfl⟩) (graphInv_breakBond _ _ h)

theorem graphInv_annealStep (dragGroup : Option (List String)) {atoms : List Atom}
    (i : ℕ) (h : GraphInv atoms) : GraphInv (annealStep dragGroup atoms i) := by
  unfold annealStep
  simp only []
  repeat' split
  all_goals
    first
    | exact h
    | exact graphInv_annealRule2 _ h
    | exact graphInv_mapById_keep (fun _ => ⟨rfl, rfl⟩)
        (graphInv_mapById_keep (fun _ => ⟨rfl, rfl⟩) (graphInv_breakBond _ _ h))
    | exact graphInv_mapById_keep (fun _ => ⟨rfl, rfl⟩) (graphInv_breakBond _ _ h)

theorem graphInv_annealAtoms (atoms : List Atom) (dragGroup : Option (List String))
    (h : GraphInv atoms) : GraphInv (annealAtoms atoms dragGroup) := by
  unfold annealAtoms
  exact graphInv_foldl_atoms _ (fun l i hl => graphInv_annealStep dragGroup i hl) _ _ h

/-- The whole mutation phase of a successful decay in the first draft: update
the decaying atom (keeping its bonds), sever the back-edges of its partners,
then clear its own bond list.  The invariant survives. -/
theorem graphInv_decayMutation {atoms : List Atom} (aId : String) (B : List String)
    (g : Atom → Atom) (hg : ∀ x, (g x).id = x.id ∧ (g x).bonds = x.bonds)
    (h : GraphInv atoms) (hB : ∀ x ∈ atoms, x.id = aId → x.bonds = B) :
    GraphInv (mapById (B.foldl (fun acc bondedId => updateFirstById acc bondedId
        (fun partner => { partner with
          bonds := partner.bonds.filter (fun bid => bid ≠ aId) }))
      (mapById atoms aId g)) aId (fun x => { x with bonds := [] })) := by
  have h1 : GraphInv (mapById atoms aId g) := graphInv_mapById_keep hg h
  rw [clearFold_eq_map _ _ _ h1.1, decayClear_eq_map]
  refine ⟨idsNodup_map_keepId (decayClearFun_id _ _) h1.1,
    sym_decayClear h1.1 h1.2 ?_⟩
  intro x hx hxid
  rcases mem_mapById hx with ⟨y, hy, hyid, rfl⟩ | ⟨y, hy, hyid, rfl⟩
  · rw [(hg y).2]
    exact hB y hy hyid
  · exact absurd hxid hyid

theorem graphInv_decayStepV1 (elements : List ElementData) (frameDt : ℝ) {s : SimState}
    (i : ℕ) (h : GraphInv s.atoms) :
    GraphInv (decayStepV1 elements frameDt s i).atoms := by
  unfold decayStepV1
  simp only [Rng.next]
  split
  · exact h
  · rename_i hl hhl
    split
    · split
      · exact h
      · rename_i pd hpd
        split
        · rename_i pe hpe
          by_cases hi : i < s.atoms.length
          · have hmem : s.atoms.getD i defaultAtom ∈ s.atoms := by
              rw [List.getD_eq_getElem s.atoms defaultAtom hi]
              exact s.atoms.getElem_mem hi
            rw [createExplosion_atoms]
            exact graphInv_decayMutation _ _ _ (fun _ => ⟨rfl, rfl⟩) h
              (fun x hx hxid => by rw [eq_of_id_eq h.1 hx hmem hxid])
          · exfalso
            rw [List.getD_eq_default _ _ (le_of_not_lt hi)] at hhl
            cases hhl
        · rw [createExplosion_atoms]
          exact ⟨idsNodup_eraseIdx _ h.1, sym_eraseIdx _ h.2⟩
    · exact h

theorem graphInv_decayLoopV1 (elements : List ElementData) (frameDt : ℝ) :
    ∀ (k : ℕ) (s : SimState), GraphInv s.atoms →
      GraphInv (decayLoopV1 elements frameDt k s).atoms := by
  intro k
  induction k with
  | zero => exact fun s h => h
  | succ k ih =>
    intro s h
    simp only [decayLoopV1]
    exact ih _ (graphInv_decayStepV1 elements frameDt k h)

theorem graphInv_processDecayV1 (elements : List ElementData) (atoms : List Atom)
    (particles : List Particle) (rng : Rng) (frameDt : ℝ) (h : GraphInv atoms) :
    GraphInv (processDecayV1 elements atoms particles rng frameDt).atoms :=
  graphInv_decayLoopV1 elements frameDt atoms.length _ h

theorem graphInv_decayStepV2 (elements : List ElementData) (dt : ℝ) {s : SimState}
    (i : ℕ) (h : GraphInv s.atoms) : GraphInv (decayStepV2 elements dt s i).atoms := by
  unfold decayStepV2
  simp only [Rng.next]
  split
  · exact h
  · split
    · split
      · rw [createExplosion_atoms]
        exact h
      · split
        · rw [createExplosion_atoms]
          exact h
        · simp only []
          rw [createExplosion_atoms]
          exact graphInv_mapById_keep (fun _ => ⟨rfl, rfl⟩) h
    · exact h

theorem graphInv_processDecayV2 (elements : List ElementData) (atoms : List Atom)
    (particles : List Particle) (rng : Rng) (dt : ℝ) (h : GraphInv atoms) :
    GraphInv (processDecayV2 elements atoms particles rng dt).atoms := by
  unfold processDecayV2
  exact graphInv_foldl_state _ (fun s i hs => graphInv_decayStepV2 elements dt i hs) _ _ h

/-! ### Deletion (`handleContextMenu`) -/

theorem not_mem_eraseIdx_self {α : Type _} {l : List α} {i : ℕ} (hnd : l.Nodup)
    (hi : i < l.length) : l[i] ∉ l.eraseIdx i := by
  have hform : l.take i ++ l[i] :: l.drop (i + 1) = l := by
    rw [← List.drop_eq_getElem_cons hi, List.take_append_drop]
  have h2 : (l.take i ++ l[i] :: l.drop (i + 1)).Nodup := by
    rw [hform]
    exact hnd
  rw [List.nodup_append] at h2
  rw [List.eraseIdx_eq_take_drop_succ]
  intro hmem
  rcases List.mem_append.mp hmem with hmem | hmem
  · exact h2.2.2 hmem (List.mem_cons_self _ _)
  · exact (List.nodup_cons.mp h2.2.1).1 hmem

theorem map_eraseIdx_comm {α β : Type _} (f : α → β) (l : List α) (i : ℕ) :
    (l.eraseIdx i).map f = (l.map f).eraseIdx i := by
  rw [List.eraseIdx_eq_take_drop_succ, List.eraseIdx_eq_take_drop_succ, List.map_append,
    List.map_take, List.map_drop]

theorem sym_delete_map {atoms : List Atom} {atomId : String} (hS : Sym atoms)
    (hno : ∀ z ∈ atoms, ¬z.id = atomId) :
    Sym (atoms.map (fun a => { a with bonds := a.bonds.filter (fun id => id ≠ atomId) })) := by
  intro a' ha' b' hb'
  rcases List.mem_map.mp ha' with ⟨xa, hxa, rfl⟩
  rcases List.mem_map.mp hb' with ⟨xb, hxb, rfl⟩
  show (xa.bonds.filter (fun i => i ≠ atomId)).count xb.id =
    (xb.bonds.filter (fun i => i ≠ atomId)).count xa.id
  rw [count_filter_ne, count_filter_ne, if_neg (hno xb hxb), if_neg (hno xa hxa)]
  exact hS xa hxa xb hxb

theorem graphInv_deleteAtom (s : SimState) (x y : ℝ) (h : GraphInv s.atoms) :
    GraphInv (deleteAtom s x y).atoms := by
  unfold deleteAtom
  split
  · exact h
  · rename_i clickedIndex hfind
    simp only []
    rw [createExplosion_atoms]
    have hi : clickedIndex < s.atoms.length :=
      (List.findIdx?_eq_some_iff_findIdx_eq.mp hfind).1
    have hkey : (s.atoms.getD clickedIndex defaultAtom).id ∉
        (s.atoms.eraseIdx clickedIndex).map Atom.id := by
      rw [map_eraseIdx_comm]
      have hi2 : clickedIndex < (s.atoms.map Atom.id).length := by
        rw [List.length_map]
        exact hi
      have hgd : (s.atoms.getD clickedIndex defaultAtom).id =
          (s.atoms.map Atom.id)[clickedIndex] := by
        rw [List.getD_eq_getElem s.atoms defaultAtom hi, List.getElem_map]
      rw [hgd]
      exact not_mem_eraseIdx_self h.1 hi2
    have hno : ∀ z ∈ s.atoms.eraseIdx clickedIndex,
        ¬z.id = (s.atoms.getD clickedIndex defaultAtom).id :=
      fun z hz hzid => hkey (hzid ▸ List.mem_map.mpr ⟨z, hz, rfl⟩)
    exact ⟨idsNodup_map_keepId (fun _ => rfl) (idsNodup_eraseIdx _ h.1),
      sym_delete_map (sym_eraseIdx _ h.2) hno⟩

/-- **C1.** On any atom list with unique ids whose bond lists are symmetric
(`bondOrder(A,B) = bondOrder(B,A)` for all member atoms `A`, `B`), each engine
operation — `addBond`, `breakBond`, `decrementBond`, `annealAtoms`,
`resolveInteractions`, `processDecay` (both drafts), and the delete command —
returns an atom list whose bond lists are again symmetric. -/
theorem engine_ops_preserve_bond_symmetry
    (atoms : List Atom) (particles : List Particle) (rng : Rng)
    (elements : List ElementData) (frameDt dt x y : ℝ) (aId bId : String)
    (dragId : Option String) (dragGroup : Option (List String))
    (hnd : IdsNodup atoms) (hsym : Sym atoms) :
    Sym (addBond atoms aId bId) ∧
    Sym (breakBond atoms aId bId) ∧
    Sym (decrementBond atoms aId bId).1 ∧
    Sym (annealAtoms atoms dragGroup) ∧
    Sym (resolveInteractions atoms particles rng dragId dragGroup).atoms ∧
    Sym (processDecayV1 elements atoms particles rng frameDt).atoms ∧
    Sym (processDecayV2 elements atoms particles rng dt).atoms ∧
    Sym (deleteAtom ⟨atoms, particles, rng⟩ x y).atoms :=
  ⟨(graphInv_addBond aId bId ⟨hnd, hsym⟩).2,
   (graphInv_breakBond aId bId ⟨hnd, hsym⟩).2,
   (graphInv_decrementBond aId bId ⟨hnd, hsym⟩).2,
   (graphInv_annealAtoms atoms dragGroup ⟨hnd, hsym⟩).2,
   (graphInv_resolveInteractions atoms particles rng dragId dragGroup ⟨hnd, hsym⟩).2,
   (graphInv_processDecayV1 elements atoms particles rng frameDt ⟨hnd, hsym⟩).2,
   (graphInv_processDecayV2 elements atoms particles rng dt ⟨hnd, hsym⟩).2,
   (graphInv_deleteAtom ⟨atoms, particles, rng⟩ x y ⟨hnd, hsym⟩).2⟩

/-! ### C3: decay transmutation -/

/-- The atom-list expression of the mutation phase of a successful decay in
the first draft (`decayStepV1`): mutate the atom at position `i` with `g`,
sever the back-edges of its partners, clear its own bond list. -/
noncomputable def decayMutationResult (atoms : List Atom) (i : ℕ) (g : Atom → Atom) :
    List Atom :=
  mapById (((atoms.getD i defaultAtom).bonds).foldl
      (fun acc bondedId => updateFirstById acc bondedId
        (fun partner => { partner with bonds := partner.bonds.filter (fun bid => bid ≠ (atoms.getD i defaultAtom).id) }))
      (mapById atoms (atoms.getD i defaultAtom).id g))
    (atoms.getD i defaultAtom).id (fun x => { x with bonds := [] })

theorem decayClearFun_self (aId : String) (B : List String) (x : Atom) (hx : x.id = aId) :
    decayClearFun aId B x = { x with bonds := [] } := by
  unfold decayClearFun clearPartnerFun
  simp only []
  by_cases hmem : x.id ∈ B
  · rw [if_pos hmem]
    split
    · rfl
    · rename_i hcon
      exact absurd hx hcon
  · rw [if_neg hmem]
    split
    · rfl
    · rename_i hcon
      exact absurd hx hcon

theorem decayClearFun_no_aId (aId : String) (B : List String) (x : Atom)
    (hx : ¬x.id = aId) (hout : x.id ∉ B → aId ∉ x.bonds) :
    aId ∉ (decayClearFun aId B x).bonds := by
  unfold decayClearFun clearPartnerFun
  simp only []
  by_cases hmem : x.id ∈ B
  · rw [if_pos hmem]
    split
    · rename_i hcon
      exact absurd hcon hx
    · exact not_mem_filter_ne
  · rw [if_neg hmem]
    split
    · rename_i hcon
      exact absurd hcon hx
    · exact hout hmem

/-- What the mutation phase does, observably: ids are unchanged, the decayed
atom becomes `g atom` with an empty bond list, and no surviving bond list
still mentions the decayed atom's id. -/
theorem decayMutationResult_spec {atoms : List Atom} (hnd : IdsNodup atoms)
    (hsym : Sym atoms) {i : ℕ} (hi : i < atoms.length) (g : Atom → Atom)
    (hgid : ∀ x, (g x).id = x.id) :
    (decayMutationResult atoms i g).map Atom.id = atoms.map Atom.id ∧
    (decayMutationResult atoms i g).getD i defaultAtom =
      { g (atoms.getD i defaultAtom) with bonds := [] } ∧
    ∀ x ∈ decayMutationResult atoms i g, ¬x.id = (atoms.getD i defaultAtom).id →
      (atoms.getD i defaultAtom).id ∉ x.bonds := by
  have hnd1 : IdsNodup (mapById atoms (atoms.getD i defaultAtom).id g) :=
    idsNodup_mapById (fun a => hgid a) hnd
  have hres : decayMutationResult atoms i g =
      (mapById atoms (atoms.getD i defaultAtom).id g).map
        (decayClearFun (atoms.getD i defaultAtom).id (atoms.getD i defaultAtom).bonds) := by
    unfold decayMutationResult
    rw [clearFold_eq_map _ _ _ hnd1, decayClear_eq_map]
  have hgd : atoms.getD i defaultAtom = atoms[i] :=
    List.getD_eq_getElem atoms defaultAtom hi
  have hmemA : atoms.getD i defaultAtom ∈ atoms := by
    rw [hgd]
    exact atoms.getElem_mem hi
  refine ⟨?_, ?_, ?_⟩
  · rw [hres, List.map_map,
      show (Atom.id ∘ decayClearFun (atoms.getD i defaultAtom).id
          (atoms.getD i defaultAtom).bonds) = Atom.id from funext (decayClearFun_id _ _)]
    exact map_id_mapById (fun a => hgid a)
  · have hlen2 : i < (mapById atoms (atoms.getD i defaultAtom).id g).length := by
      unfold mapById
      rw [List.length_map]
      exact hi
    have hlen : i < ((mapById atoms (atoms.getD i defaultAtom).id g).map
        (decayClearFun (atoms.getD i defaultAtom).id (atoms.getD i defaultAtom).bonds)).length := by
      rw [List.length_map]
      exact hlen2
    have hinner : (mapById atoms (atoms.getD i defaultAtom).id g)[i] =
        g (atoms.getD i defaultAtom) := by
      unfold mapById
      rw [List.getElem_map]
      have hcond : atoms[i].id = (atoms.getD i defaultAtom).id := by rw [hgd]
      rw [if_pos hcond]
      exact congrArg g hgd.symm
    rw [hres, List.getD_eq_getElem _ defaultAtom hlen, List.getElem_map, hinner,
      decayClearFun_self _ _ _ (hgid _)]
  · intro x hx hxid
    rw [hres] at hx
    rcases List.mem_map.mp hx with ⟨y, hy, rfl⟩
    have hyid : ¬y.id = (atoms.getD i defaultAtom).id := by
      intro h
      exact hxid (by rw [decayClearFun_id]; exact h)
    apply decayClearFun_no_aId _ _ _ hyid
    intro hnotB hmem
    rcases mem_mapById hy with ⟨z, hz, hzid, hyz⟩ | ⟨z, hz, hzid, hyz⟩
    · exact hyid (by rw [hyz, hgid]; exact hzid)
    · rw [hyz] at hmem hnotB
      have hcount := hsym z hz (atoms.getD i defaultAtom) hmemA
      have hpos : 0 < z.bonds.count (atoms.getD i defaultAtom).id :=
        List.count_pos_iff.mpr hmem
      rw [hcount] at hpos
      exact hnotB (List.count_pos_iff.mp hpos)

/-- `decayMutationResult_spec` specialised to the shape of update the decay
routine performs (element, isotope index, mass, radius replaced; a velocity
delta added; id, position and bonds untouched by the update itself). -/
theorem decayMutationResult_update_spec {atoms : List Atom} (hnd : IdsNodup atoms)
    (hsym : Sym atoms) {i : ℕ} (hi : i < atoms.length)
    (el : ElementData) (ii : ℕ) (m r dvx dvy : ℝ) :
    (decayMutationResult atoms i (fun x => { x with
        element := el, isotopeIndex := ii, mass := m, radius := r,
        vx := x.vx + dvx, vy := x.vy + dvy })).map Atom.id = atoms.map Atom.id ∧
    (decayMutationResult atoms i (fun x => { x with
        element := el, isotopeIndex := ii, mass := m, radius := r,
        vx := x.vx + dvx, vy := x.vy + dvy })).getD i defaultAtom =
      { atoms.getD i defaultAtom with
        element := el, isotopeIndex := ii, mass := m, radius := r,
        vx := (atoms.getD i defaultAtom).vx + dvx,
        vy := (atoms.getD i defaultAtom).vy + dvy, bonds := [] } ∧
    ∀ x ∈ decayMutationResult atoms i (fun x => { x with
        element := el, isotopeIndex := ii, mass := m, radius := r,
        vx := x.vx + dvx, vy := x.vy + dvy }),
      ¬x.id = (atoms.getD i defaultAtom).id →
        (atoms.getD i defaultAtom).id ∉ x.bonds :=
  have h := decayMutationResult_spec hnd hsym hi (fun x => { x with
    element := el, isotopeIndex := ii, mass := m, radius := r,
    vx := x.vx + dvx, vy := x.vy + dvy }) (fun _ => rfl)
  ⟨h.1, h.2.1, h.2.2⟩

/-- Squared magnitude of the fixed decay recoil kick of the first draft. -/
theorem kick_norm (u v θ : ℝ) :
    (u + Real.cos θ * 3 - u) ^ 2 + (v + Real.sin θ * 3 - v) ^ 2 = 9 := by
  have h := Real.sin_sq_add_cos_sq θ
  calc (u + Real.cos θ * 3 - u) ^ 2 + (v + Real.sin θ * 3 - v) ^ 2
      = (Real.sin θ ^ 2 + Real.cos θ ^ 2) * 9 := by ring
    _ = 9 := by rw [h]; ring

/-- **C3.** In the first decay draft (`src/unnamed/part_002`), when the atom
at position `i` has a finite half-life, a decay event is sampled, and a decay
product is declared: a successful element lookup mutates the atom in place
(new element, new isotope index, recomputed mass and radius), adds a velocity
kick of magnitude exactly 3 (in particular nonzero), empties its bond list
and removes its id from every other atom's bond list, while keeping the atom
roster (ids in order) unchanged; a failed lookup removes the atom from the
list entirely. -/
theorem decayStepV1_transmutation (elements : List ElementData) (frameDt : ℝ)
    (s : SimState) (i : ℕ) (hl : ℝ) (pd : ProductRef)
    (hi : i < s.atoms.length) (hnd : IdsNodup s.atoms) (hsym : Sym s.atoms)
    (hhl : ((s.atoms.getD i defaultAtom).element.iso.getD
      (s.atoms.getD i defaultAtom).isotopeIndex defaultIsotope).hl = some hl)
    (hr : s.rng.seq s.rng.k < 1 - (2 : ℝ) ^ (-frameDt / hl))
    (hpd : ((s.atoms.getD i defaultAtom).element.iso.getD
      (s.atoms.getD i defaultAtom).isotopeIndex defaultIsotope).p = some pd) :
    (∀ pe, elements.find? (fun e => e.z = pd.z) = some pe →
      (decayStepV1 elements frameDt s i).atoms.map Atom.id = s.atoms.map Atom.id ∧
      ((decayStepV1 elements frameDt s i).atoms.getD i defaultAtom).element = pe ∧
      ((decayStepV1 elements frameDt s i).atoms.getD i defaultAtom).isotopeIndex =
        (pe.iso.findIdx? (fun i2 => decide (|i2.m - pd.m| < 0.1))).getD 0 ∧
      ((decayStepV1 elements frameDt s i).atoms.getD i defaultAtom).mass =
        (pe.iso.getD ((pe.iso.findIdx?
          (fun i2 => decide (|i2.m - pd.m| < 0.1))).getD 0) defaultIsotope).m ∧
      ((decayStepV1 elements frameDt s i).atoms.getD i defaultAtom).radius =
        10 + (pe.iso.getD ((pe.iso.findIdx?
          (fun i2 => decide (|i2.m - pd.m| < 0.1))).getD 0) defaultIsotope).m
          ^ (0.33 : ℝ) * 3 ∧
      ((decayStepV1 elements frameDt s i).atoms.getD i defaultAtom).bonds = [] ∧
      (((decayStepV1 elements frameDt s i).atoms.getD i defaultAtom).vx -
          (s.atoms.getD i defaultAtom).vx) ^ 2 +
        (((decayStepV1 elements frameDt s i).atoms.getD i defaultAtom).vy -
          (s.atoms.getD i defaultAtom).vy) ^ 2 = 9 ∧
      (∀ x ∈ (decayStepV1 elements frameDt s i).atoms,
        ¬x.id = (s.atoms.getD i defaultAtom).id →
          (s.atoms.getD i defaultAtom).id ∉ x.bonds)) ∧
    (elements.find? (fun e => e.z = pd.z) = none →
      (decayStepV1 elements frameDt s i).atoms.map Atom.id =
        (s.atoms.map Atom.id).eraseIdx i) := by
  unfold decayStepV1
  simp only [Rng.next]
  split
  · rename_i heq
    rw [hhl] at heq
    cases heq
  · rename_i hl' heq
    rw [hhl] at heq
    injection heq with heq2
    subst heq2
    split
    · split
      · rename_i heq
        rw [hpd] at heq
        cases heq
      · rename_i pd' heq
        rw [hpd] at heq
        injection heq with heq2
        subst heq2
        split
        · rename_i pe0 hfind
          constructor
          · intro pe hpe
            rw [hfind] at hpe
            injection hpe with hpe2
            subst hpe2
            rw [createExplosion_atoms]
            refine ⟨?_, ?_, ?_, ?_, ?_, ?_, ?_, ?_⟩
            · exact (decayMutationResult_update_spec hnd hsym hi _ _ _ _ _ _).1
            · exact congrArg Atom.element
                (decayMutationResult_update_spec hnd hsym hi _ _ _ _ _ _).2.1
            · exact congrArg Atom.isotopeIndex
                (decayMutationResult_update_spec hnd hsym hi _ _ _ _ _ _).2.1
            · exact congrArg Atom.mass
                (decayMutationResult_update_spec hnd hsym hi _ _ _ _ _ _).2.1
            · exact congrArg Atom.radius
                (decayMutationResult_update_spec hnd hsym hi _ _ _ _ _ _).2.1
            · exact congrArg Atom.bonds
                (decayMutationResult_update_spec hnd hsym hi _ _ _ _ _ _).2.1
            · exact (congrArg (fun t : Atom =>
                  (t.vx - (s.atoms.getD i defaultAtom).vx) ^ 2 +
                  (t.vy - (s.atoms.getD i defaultAtom).vy) ^ 2)
                (decayMutationResult_update_spec hnd hsym hi _ _ _ _ _ _).2.1).trans
                (kick_norm _ _ _)
            · exact fun x hx =>
                (decayMutationResult_update_spec hnd hsym hi _ _ _ _ _ _).2.2 x hx
          · intro hnone
            rw [hfind] at hnone
            cases hnone
        · rename_i hfind
          constructor
          · intro pe hpe
            rw [hfind] at hpe
            cases hpe
          · intro _
            rw [createExplosion_atoms]
            exact map_eraseIdx_comm Atom.id s.atoms i
    · rename_i hcon
      exact absurd hr hcon

/-! #### Concrete decay scenario: a bonded nitrogen-like atom that decays -/

def heIso : Isotope := ⟨4, none, none, none⟩

def heElem : ElementData := ⟨2, "He", "Helium", 0, "#aaaaaa", [heIso]⟩

def nIso : Isotope := ⟨14, some 1, some DecayMode.beta, some ⟨2, 4⟩⟩

def nElem : ElementData := ⟨7, "N", "Nitrogen", 3, "#3399ff", [nIso]⟩

def atomA : Atom := ⟨"a", 0, 0, 0, 0, nElem, 0, ["b"], 14, 10⟩

def atomB : Atom := ⟨"b", 30, 0, 0, 0, heElem, 0, ["a"], 4, 10⟩

theorem map_proj_mapById {atoms : List Atom} {id : String} {g : Atom → Atom}
    (hg : ∀ a, (g a).id = a.id ∧ (g a).bonds = a.bonds) :
    (mapById atoms id g).map (fun a => (a.id, a.bonds)) =
      atoms.map (fun a => (a.id, a.bonds)) := by
  unfold mapById
  rw [List.map_map]
  apply List.map_congr_left
  intro a _
  show ((if a.id = id then g a else a).id, (if a.id = id then g a else a).bonds) = _
  by_cases h : a.id = id
  · rw [if_pos h, (hg a).1, (hg a).2]
  · rw [if_neg h]

/-- The decay routine of the final chemistry draft never changes any atom's
id or bond list (and never removes an atom): the `(id, bonds)` projection of
the atom list is invariant. -/
theorem decayStepV2_bonds_projection (elements : List ElementData) (dt : ℝ)
    (s : SimState) (i : ℕ) :
    (decayStepV2 elements dt s i).atoms.map (fun a => (a.id, a.bonds)) =
      s.atoms.map (fun a => (a.id, a.bonds)) := by
  unfold decayStepV2
  simp only [Rng.next]
  split
  · rfl
  · split
    · split
      · rw [createExplosion_atoms]
      · split
        · rw [createExplosion_atoms]
        · simp only []
          rw [createExplosion_atoms]
          exact map_proj_mapById (fun _ => ⟨rfl, rfl⟩)
    · rfl

theorem foldl_atoms_proj {α β : Type _} (proj : List Atom → β) (f : SimState → α → SimState)
    (hf : ∀ s x, proj (f s x).atoms = proj s.atoms) :
    ∀ (l : List α) (s : SimState), proj (l.foldl f s).atoms = proj s.atoms := by
  intro l
  induction l with
  | nil => exact fun _ => rfl
  | cons x xs ih =>
    intro s
    rw [List.foldl_cons, ih, hf]

theorem processDecayV2_bonds_projection (elements : List ElementData) (atoms : List Atom)
    (particles : List Particle) (rng : Rng) (dt : ℝ) :
    (processDecayV2 elements atoms particles rng dt).atoms.map (fun a => (a.id, a.bonds)) =
      atoms.map (fun a => (a.id, a.bonds)) := by
  unfold processDecayV2
  exact foldl_atoms_proj (fun l => l.map (fun a => (a.id, a.bonds))) _
    (fun s i => decayStepV2_bonds_projection elements dt s i) _ _

/-- C3 counterexample: in the final chemistry draft (`src/unnamed/part_003`),
a bonded atom whose decay is sampled (`r = 0 < 1 - exp(-0.693)`) with a
declared product whose element lookup succeeds still ends `processDecay` with
its bond list intact (`["b"]`, not empty, and the partner keeps `"a"`), and
when the lookup fails (empty element table) the atom is kept, not removed. -/
theorem processDecayV2_keeps_bonds_and_atom :
    ((atomA.element.iso.getD atomA.isotopeIndex defaultIsotope).hl = some 1 ∧
     (atomA.element.iso.getD atomA.isotopeIndex defaultIsotope).p = some ⟨2, 4⟩ ∧
     (0 : ℝ) < 1 - Real.exp (-(0.693 / 1) * 1) ∧
     [heElem].find? (fun e => e.z = (2 : Int)) = some heElem) ∧
    (processDecayV2 [heElem] [atomA, atomB] [] ⟨fun _ => 0, 0⟩ 1).atoms.map
        (fun a => (a.id, a.bonds)) = [("a", ["b"]), ("b", ["a"])] ∧
    (processDecayV2 [] [atomA, atomB] [] ⟨fun _ => 0, 0⟩ 1).atoms.map Atom.id =
      ["a", "b"] := by
  refine ⟨⟨rfl, rfl, ?_, rfl⟩, ?_, ?_⟩
  · have h1 : Real.exp (-(0.693 / 1) * 1) < 1 := Real.exp_lt_one_iff.mpr (by norm_num)
    linarith
  · rw [processDecayV2_bonds_projection]
    rfl
  · calc (processDecayV2 [] [atomA, atomB] [] ⟨fun _ => 0, 0⟩ 1).atoms.map Atom.id
        = ((processDecayV2 [] [atomA, atomB] [] ⟨fun _ => 0, 0⟩ 1).atoms.map
            (fun a => (a.id, a.bonds))).map Prod.fst := by
          rw [List.map_map]
          rfl
      _ = ([atomA, atomB].map (fun a => (a.id, a.bonds))).map Prod.fst := by
          rw [processDecayV2_bonds_projection]
      _ = ["a", "b"] := rfl

/-- Witness: the first-draft behaviour at a concrete bonded two-atom state —
the decaying atom survives with its bonds cleared and the roster unchanged. -/
theorem decayStepV1_transmutation_witness :
    ((decayStepV1 [heElem] 1 ⟨[atomA, atomB], [], ⟨fun _ => 0, 0⟩⟩ 0).atoms.getD 0
      defaultAtom).bonds = [] ∧
    (decayStepV1 [heElem] 1 ⟨[atomA, atomB], [], ⟨fun _ => 0, 0⟩⟩ 0).atoms.map Atom.id =
      ["a", "b"] := by
  have hrp : ((2 : ℝ) ^ (-(1 : ℝ) / 1 : ℝ)) = 1 / 2 := by
    rw [show (-(1 : ℝ) / 1 : ℝ) = ((-1 : ℤ) : ℝ) by norm_num, Real.rpow_intCast]
    norm_num
  have h := decayStepV1_transmutation [heElem] 1 ⟨[atomA, atomB], [], ⟨fun _ => 0, 0⟩⟩ 0 1
    ⟨2, 4⟩
    (by norm_num)
    (by unfold IdsNodup atomA atomB; decide)
    (by
      intro a ha b hb
      rcases List.mem_cons.mp ha with rfl | ha
      · rcases List.mem_cons.mp hb with rfl | hb
        · rfl
        rcases List.mem_cons.mp hb with rfl | hb
        · decide
        · exact absurd hb (List.not_mem_nil b)
      rcases List.mem_cons.mp ha with rfl | ha
      · rcases List.mem_cons.mp hb with rfl | hb
        · decide
        rcases List.mem_cons.mp hb with rfl | hb
        · rfl
        · exact absurd hb (List.not_mem_nil b)
      · exact absurd ha (List.not_mem_nil a))
    rfl
    (by
      show (0 : ℝ) < 1 - (2 : ℝ) ^ (-(1 : ℝ) / 1)
      rw [hrp]
      norm_num)
    rfl
  rcases h.1 heElem rfl with ⟨hids, _, _, _, _, hbonds, _, _⟩
  exact ⟨hbonds, hids.trans rfl⟩

/-! ### C4: valence after a full tick -/

def isoO16 : Isotope := ⟨16, none, none, none⟩

def elemO : ElementData := ⟨8, "O", "Oxygen", 2, "#ff4444", [isoO16]⟩

def isoH1 : Isotope := ⟨1, none, none, none⟩

def elemH : ElementData := ⟨1, "H", "Hydrogen", 1, "#ffffff", [isoH1]⟩

def atomO2 : Atom := ⟨"o", 100, 100, 0, 0, elemO, 0, ["h", "h"], 16, 15⟩

def atomH2 : Atom := ⟨"h", 123.4, 100, 0, 0, elemH, 0, ["o", "o"], 1, 15⟩

theorem anneal_fix : annealAtoms [atomO2, atomH2] (some []) = [atomO2, atomH2] := rfl

theorem decay_fix : processDecayV2 [] [atomO2, atomH2] [] ⟨fun _ => 0, 0⟩ (0.016 * 1) =
    ⟨[atomO2, atomH2], [], ⟨fun _ => 0, 0⟩⟩ := rfl

theorem jsDedup_hh : jsDedup ["h", "h"] = ["h"] := by
  rw [jsDedup]
  norm_num
  rw [jsDedup]

theorem jsDedup_oo : jsDedup ["o", "o"] = ["o"] := by
  rw [jsDedup]
  norm_num
  rw [jsDedup]

theorem vseprCenter_skip_O (d : String → ℝ × ℝ) :
    vseprCenter [atomO2, atomH2] d atomO2 = d := by
  unfold vseprCenter
  simp only [atomO2, jsDedup_hh]
  norm_num

theorem vseprCenter_skip_H (d : String → ℝ × ℝ) :
    vseprCenter [atomO2, atomH2] d atomH2 = d := by
  unfold vseprCenter
  simp only [atomH2, jsDedup_oo]
  norm_num

theorem vsepr_fix : applyVSEPR [atomO2, atomH2] (some []) = [atomO2, atomH2] := by
  unfold applyVSEPR vseprDeltas
  simp only [List.foldl_cons, List.foldl_nil]
  rw [vseprCenter_skip_O, vseprCenter_skip_H]
  have hfix : ∀ a ∈ [atomO2, atomH2],
      ({ a with
        vx := a.vx + (((0 : ℝ), (0 : ℝ))).1,
        vy := a.vy + (((0 : ℝ), (0 : ℝ))).2 } : Atom) = a := by
    intro a _
    cases a
    simp
  exact (List.map_congr_left hfix).trans (List.map_id _)

theorem map_cond_id (l : List Atom) (cid : String) (f : Atom → Atom) (hf : ∀ x, f x = x) :
    (l.map fun x => if x.id = cid then f x else x) = l := by
  have h : ∀ a ∈ l, (if a.id = cid then f a else a) = a := by
    intro a _
    by_cases h : a.id = cid
    · rw [if_pos h, hf]
    · rw [if_neg h]
  exact (List.map_congr_left h).trans (List.map_id _)

theorem applyPairImpulse_zero (atoms : List Atom) (aId bId : String) (iA iB : ℝ) :
    applyPairImpulse atoms aId bId 0 0 iA iB = atoms := by
  unfold applyPairImpulse mapById
  simp only []
  rw [map_cond_id _ _ _ (fun x => by cases x; simp),
    map_cond_id _ _ _ (fun x => by cases x; simp)]

theorem bondForces_still (atoms : List Atom) (a b : Atom) (nx ny dist cr : ℝ) (bo : ℕ)
    (iA iB : ℝ)
    (hdisp : dist - cr * (0.9 - ((bo : ℝ) - 1) * 0.12) = 0)
    (hrvx : b.vx - a.vx = 0) (hrvy : b.vy - a.vy = 0) :
    bondForces atoms a b nx ny dist cr bo iA iB = atoms := by
  unfold bondForces
  simp only []
  have hfx : nx * ((dist - cr * (0.9 - ((bo : ℝ) - 1) * 0.12)) * BOND_STIFFNESS * (bo : ℝ) +
        ((b.vx - a.vx) * nx + (b.vy - a.vy) * ny) * 0.1) +
      -ny * (((b.vx - a.vx) * -ny + (b.vy - a.vy) * nx) * 0.05) = 0 := by
    rw [hdisp, hrvx, hrvy]
    ring
  have hfy : ny * ((dist - cr * (0.9 - ((bo : ℝ) - 1) * 0.12)) * BOND_STIFFNESS * (bo : ℝ) +
        ((b.vx - a.vx) * nx + (b.vy - a.vy) * ny) * 0.1) +
      nx * (((b.vx - a.vx) * -ny + (b.vy - a.vy) * nx) * 0.05) = 0 := by
    rw [hdisp, hrvx, hrvy]
    ring
  rw [hfx, hfy]
  exact applyPairImpulse_zero _ _ _ _ _

theorem getD0 : [atomO2, atomH2].getD 0 defaultAtom = atomO2 := rfl

theorem getD1 : [atomO2, atomH2].getD 1 defaultAtom = atomH2 := rfl

theorem aO_id : atomO2.id = "o" := rfl

theorem aO_x : atomO2.x = 100 := rfl

theorem aO_y : atomO2.y = 100 := rfl

theorem aO_vx : atomO2.vx = 0 := rfl

theorem aO_vy : atomO2.vy = 0 := rfl

theorem aO_bonds : atomO2.bonds = ["h", "h"] := rfl

theorem aO_mass : atomO2.mass = 16 := rfl

theorem aO_radius : atomO2.radius = 15 := rfl

theorem aO_z : atomO2.element.z = 8 := rfl

theorem aO_v : atomO2.element.v = 2 := rfl

theorem aH_id : atomH2.id = "h" := rfl

theorem aH_x : atomH2.x = 123.4 := rfl

theorem aH_y : atomH2.y = 100 := rfl

theorem aH_vx : atomH2.vx = 0 := rfl

theorem aH_vy : atomH2.vy = 0 := rfl

theorem aH_bonds : atomH2.bonds = ["o", "o"] := rfl

theorem aH_mass : atomH2.mass = 1 := rfl

theorem aH_radius : atomH2.radius = 15 := rfl

theorem aH_z : atomH2.element.z = 1 := rfl

theorem aH_v : atomH2.element.v = 1 := rfl

theorem gbOH : getBondOrder atomO2 "h" = 2 := rfl

theorem gbHO : getBondOrder atomH2 "o" = 2 := rfl

theorem sqrt13689 : Real.sqrt 13689 = 117 := by
  rw [show (13689 : ℝ) = 117 ^ 2 by norm_num]
  exact Real.sqrt_sq (by norm_num)

theorem sqrt25 : Real.sqrt 25 = 5 := by
  rw [show (25 : ℝ) = 5 ^ 2 by norm_num]
  exact Real.sqrt_sq (by norm_num)

theorem dragGroupHas_empty (id : String) : dragGroupHas (some []) id = false := rfl

theorem none_eq_some_false (x : String) : ((none : Option String) = some x) = False := by
  simp

theorem pairStep_fix :
    pairStep none (some []) ⟨[atomO2, atomH2], [], ⟨fun _ => 0, 0⟩⟩ 0 1 =
      ⟨[atomO2, atomH2], [], ⟨fun _ => 0, 0⟩⟩ := by
  unfold pairStep
  simp only [getD0, getD1, aO_id, aO_x, aO_y, aO_vx, aO_vy, aO_bonds, aO_mass, aO_radius,
    aO_z, aO_v, aH_id, aH_x, aH_y, aH_vx, aH_vy, aH_bonds, aH_mass, aH_radius, aH_z, aH_v,
    gbOH, gbHO, dragGroupHas_empty, none_eq_some_false]
  norm_num [COVALENT_Z, sqrt13689, sqrt25]
  rw [bondForces_still [atomO2, atomH2] atomO2 atomH2 1 0 (117 / 5) 30 2 (1 / 16) 1
    (by norm_num) (by norm_num [aH_vx, aO_vx]) (by norm_num [aH_vy, aO_vy])]
  unfold pairChemistry
  simp only [getD0, getD1, aO_id, aO_x, aO_y, aO_vx, aO_vy, aO_bonds, aO_mass, aO_radius,
    aO_z, aO_v, aH_id, aH_x, aH_y, aH_vx, aH_vy, aH_bonds, aH_mass, aH_radius, aH_z, aH_v,
    gbOH, gbHO]
  norm_num [COVALENT_Z]

theorem resolve_fix :
    resolveInteractions [atomO2, atomH2] [] ⟨fun _ => 0, 0⟩ none (some []) =
      ⟨[atomO2, atomH2], [], ⟨fun _ => 0, 0⟩⟩ := by
  unfold resolveInteractions innerPairs
  rw [show [atomO2, atomH2].length = 2 from rfl]
  simp only []
  rw [show List.range 2 = [0, 1] from rfl]
  simp only [List.foldl_cons, List.foldl_nil]
  rw [show List.range' (0 + 1) (2 - (0 + 1)) = [1] from rfl,
    show List.range' (1 + 1) (2 - (1 + 1)) = ([] : List ℕ) from rfl]
  simp only [List.foldl_cons, List.foldl_nil]
  exact pairStep_fix

theorem integ_O : integrateAtom 1000 1000 atomO2 = atomO2 := by
  unfold integrateAtom clampSpeed wallAxis
  simp only [aO_x, aO_y, aO_vx, aO_vy, aO_radius]
  norm_num [MAX_SPEED, DRAG_COEFF, atomO2, elemO, Atom.mk.injEq]

theorem integ_H : integrateAtom 1000 1000 atomH2 = atomH2 := by
  unfold integrateAtom clampSpeed wallAxis
  simp only [aH_x, aH_y, aH_vx, aH_vy, aH_radius]
  norm_num [MAX_SPEED, DRAG_COEFF, atomH2, elemH, Atom.mk.injEq]

theorem substep_fix :
    substep 1000 1000 ⟨[atomO2, atomH2], [], ⟨fun _ => 0, 0⟩⟩ =
      ⟨[atomO2, atomH2], [], ⟨fun _ => 0, 0⟩⟩ := by
  unfold substep
  simp only [anneal_fix, vsepr_fix]
  rw [resolve_fix]
  simp only [List.map_cons, List.map_nil, integ_O, integ_H]

theorem tick_fix :
    tick [] 1000 1000 1 ⟨[atomO2, atomH2], [], ⟨fun _ => 0, 0⟩⟩ =
      ⟨[atomO2, atomH2], [], ⟨fun _ => 0, 0⟩⟩ := by
  unfold tick
  simp only []
  rw [show updateParticles [] = ([] : List Particle) from rfl]
  rw [decay_fix]
  exact Function.iterate_fixed substep_fix SUBSTEPS

/-- **C4** (amended).  A completed tick need not restore the valence
invariant: the two-atom state `[atomO2, atomH2]` — an O=H double bond at its
exact rest length with zero velocities, in which the hydrogen carries 2 bonds
against its capacity `valenceCapacity(H) = 1` — is a fixed point of the full
tick (`tick`), for any number of ticks.  The per-pair severing rule of
`resolveInteractions` tests over-valence only on the lower-index pair member,
so the over-valent hydrogen is never corrected. -/
theorem tick_overvalence_persists (n : ℕ) :
    (tick [] 1000 1000 1)^[n] ⟨[atomO2, atomH2], [], ⟨fun _ => 0, 0⟩⟩ =
      ⟨[atomO2, atomH2], [], ⟨fun _ => 0, 0⟩⟩ ∧
    (if atomH2.element.z ∈ COVALENT_Z then atomH2.element.v else 6) <
      (atomH2.bonds.length : Int) :=
  ⟨Function.iterate_fixed tick_fix n, by norm_num [aH_z, aH_v, aH_bonds, COVALENT_Z]⟩

/-- C4 counterexample: after one full tick on `[atomO2, atomH2]`, the
hydrogen (list position 1) still has 2 bonds while its valence capacity,
computed as the code does, is 1. -/
theorem tick_keeps_overvalent_hydrogen :
    ((tick [] 1000 1000 1 ⟨[atomO2, atomH2], [], ⟨fun _ => 0, 0⟩⟩).atoms.getD 1
        defaultAtom).bonds.length = 2 ∧
    (if ((tick [] 1000 1000 1 ⟨[atomO2, atomH2], [], ⟨fun _ => 0, 0⟩⟩).atoms.getD 1
          defaultAtom).element.z ∈ COVALENT_Z then
        ((tick [] 1000 1000 1 ⟨[atomO2, atomH2], [], ⟨fun _ => 0, 0⟩⟩).atoms.getD 1
          defaultAtom).element.v
      else 6) = 1 := by
  rw [tick_fix]
  norm_num [getD1, aH_bonds, aH_z, aH_v, COVALENT_Z]

/-! ### C6 scenario -/

def isoC12 : Isotope := ⟨12, none, none, none⟩

def elemC : ElementData := ⟨6, "C", "Carbon", 4, "#333333", [isoC12]⟩

def isoN14 : Isotope := ⟨14, none, none, none⟩

def elemN : ElementData := ⟨7, "N", "Nitrogen", 3, "#3050f8", [isoN14]⟩

def isoS32 : Isotope := ⟨32, none, none, none⟩

def elemS : ElementData := ⟨16, "S", "Sulfur", 6, "#ffff30", [isoS32]⟩

def cAtom : Atom := ⟨"a", 0, 0, 0, 0, elemC, 0, ["c1", "c2"], 12, 15⟩

def nAtom : Atom := ⟨"b", 40, 0, 0, 0, elemN, 0, ["c1", "c2"], 14, 15⟩

noncomputable def sAtom : Atom :=
  ⟨"c1", 20, Real.sqrt 329, 0, 0, elemS, 0, ["a", "b", "d1", "d2", "d3"], 32, 15⟩

noncomputable def oAtom : Atom := ⟨"c2", 20, -Real.sqrt 329, 0, 0, elemO, 0, ["a", "b"], 16, 15⟩

def cAtom1 : Atom := ⟨"a", 0, 0, 0, 0, elemC, 0, ["c1", "c2", "b"], 12, 15⟩

def nAtom1 : Atom := ⟨"b", 40, 0, 0, 0, elemN, 0, ["c1", "c2", "a"], 14, 15⟩

theorem c6_addBond : addBond [cAtom, nAtom, sAtom, oAtom] "a" "b" =
    [cAtom1, nAtom1, sAtom, oAtom] := rfl

theorem cA_id : cAtom.id = "a" := rfl

theorem cA_x : cAtom.x = 0 := rfl

theorem cA_y : cAtom.y = 0 := rfl

theorem cA_vx : cAtom.vx = 0 := rfl

theorem cA_vy : cAtom.vy = 0 := rfl

theorem cA_bonds : cAtom.bonds = ["c1", "c2"] := rfl

theorem cA_mass : cAtom.mass = 12 := rfl

theorem cA_radius : cAtom.radius = 15 := rfl

theorem cA_z : cAtom.element.z = 6 := rfl

theorem cA_v : cAtom.element.v = 4 := rfl

theorem nA_id : nAtom.id = "b" := rfl

theorem nA_x : nAtom.x = 40 := rfl

theorem nA_y : nAtom.y = 0 := rfl

theorem nA_vx : nAtom.vx = 0 := rfl

theorem nA_vy : nAtom.vy = 0 := rfl

theorem nA_bonds : nAtom.bonds = ["c1", "c2"] := rfl

theorem nA_mass : nAtom.mass = 14 := rfl

theorem nA_radius : nAtom.radius = 15 := rfl

theorem nA_z : nAtom.element.z = 7 := rfl

theorem nA_v : nAtom.element.v = 3 := rfl

theorem sA_id : sAtom.id = "c1" := rfl

theorem sA_x : sAtom.x = 20 := rfl

theorem sA_y : sAtom.y = Real.sqrt 329 := rfl

theorem sA_vx : sAtom.vx = 0 := rfl

theorem sA_vy : sAtom.vy = 0 := rfl

theorem sA_bonds : sAtom.bonds = ["a", "b", "d1", "d2", "d3"] := rfl

theorem sA_mass : sAtom.mass = 32 := rfl

theorem sA_radius : sAtom.radius = 15 := rfl

theorem sA_z : sAtom.element.z = 16 := rfl

theorem sA_v : sAtom.element.v = 6 := rfl

theorem oA_id : oAtom.id = "c2" := rfl

theorem oA_x : oAtom.x = 20 := rfl

theorem oA_y : oAtom.y = -Real.sqrt 329 := rfl

theorem oA_vx : oAtom.vx = 0 := rfl

theorem oA_vy : oAtom.vy = 0 := rfl

theorem oA_bonds : oAtom.bonds = ["a", "b"] := rfl

theorem oA_mass : oAtom.mass = 16 := rfl

theorem oA_radius : oAtom.radius = 15 := rfl

theorem oA_z : oAtom.element.z = 8 := rfl

theorem oA_v : oAtom.element.v = 2 := rfl

theorem cA1_id : cAtom1.id = "a" := rfl

theorem cA1_x : cAtom1.x = 0 := rfl

theorem cA1_y : cAtom1.y = 0 := rfl

theorem cA1_vx : cAtom1.vx = 0 := rfl

theorem cA1_vy : cAtom1.vy = 0 := rfl

theorem cA1_bonds : cAtom1.bonds = ["c1", "c2", "b"] := rfl

theorem cA1_mass : cAtom1.mass = 12 := rfl

theorem cA1_radius : cAtom1.radius = 15 := rfl

theorem cA1_z : cAtom1.element.z = 6 := rfl

theorem cA1_v : cAtom1.element.v = 4 := rfl

theorem nA1_id : nAtom1.id = "b" := rfl

theorem nA1_x : nAtom1.x = 40 := rfl

theorem nA1_y : nAtom1.y = 0 := rfl

theorem nA1_vx : nAtom1.vx = 0 := rfl

theorem nA1_vy : nAtom1.vy = 0 := rfl

theorem nA1_bonds : nAtom1.bonds = ["c1", "c2", "a"] := rfl

theorem nA1_mass : nAtom1.mass = 14 := rfl

theorem nA1_radius : nAtom1.radius = 15 := rfl

theorem nA1_z : nAtom1.element.z = 7 := rfl

theorem nA1_v : nAtom1.element.v = 3 := rfl

theorem c6_sqrt1600 : Real.sqrt 1600 = 40 := by
  rw [show (1600 : ℝ) = 40 ^ 2 by norm_num]
  exact Real.sqrt_sq (by norm_num)

theorem c6_sqrt729 : Real.sqrt 729 = 27 := by
  rw [show (729 : ℝ) = 27 ^ 2 by norm_num]
  exact Real.sqrt_sq (by norm_num)

theorem c6_mulself329 : Real.sqrt 329 * Real.sqrt 329 = 329 :=
  Real.mul_self_sqrt (by norm_num)

theorem c6_s1316_lt45 : Real.sqrt 1316 < 45 := by
  rw [show (45 : ℝ) = Real.sqrt 2025 by
    rw [show (2025 : ℝ) = 45 ^ 2 by norm_num]
    exact (Real.sqrt_sq (by norm_num)).symm]
  exact Real.sqrt_lt_sqrt (by norm_num) (by norm_num)

theorem c6_s1316_ge30 : ¬Real.sqrt 1316 < 30 := by
  push_neg
  rw [show (30 : ℝ) = Real.sqrt 900 by
    rw [show (900 : ℝ) = 30 ^ 2 by norm_num]
    exact (Real.sqrt_sq (by norm_num)).symm]
  exact Real.sqrt_le_sqrt (by norm_num)

theorem c6_s1316_le360 : ¬(360 : ℝ) < Real.sqrt 1316 := by
  push_neg
  rw [show (360 : ℝ) = Real.sqrt 129600 by
    rw [show (129600 : ℝ) = 360 ^ 2 by norm_num]
    exact (Real.sqrt_sq (by norm_num)).symm]
  exact Real.sqrt_le_sqrt (by norm_num)

theorem c6_s1316_ne0 : ¬Real.sqrt 1316 = 0 := by
  have : (0 : ℝ) < Real.sqrt 1316 := Real.sqrt_pos.mpr (by norm_num)
  linarith

theorem c6_strain5 : decide ((37 / 25 : ℝ) < (getTargetGeometry 5 0).angle) = false := by
  apply decide_eq_false
  push_neg
  unfold getTargetGeometry
  norm_num
  nlinarith [Real.pi_lt_d2]

theorem c6_strain3 : decide ((37 / 25 : ℝ) < (getTargetGeometry 3 0).angle) = true := by
  apply decide_eq_true
  unfold getTargetGeometry
  norm_num
  nlinarith [Real.pi_gt_three]

theorem c6_count_b : List.count "b" ["c1", "c2"] = 0 := rfl

theorem c6_find_c1 :
    List.find? (fun at2 => at2.id = "c1") [cAtom, nAtom, sAtom, oAtom] = some sAtom := rfl

theorem c6_fdiv1 : Int.fdiv 1 2 = 0 := rfl

theorem c6_pair01 :
    pairStep none (some []) ⟨[cAtom, nAtom, sAtom, oAtom], [], ⟨fun _ => 0, 0⟩⟩ 0 1 =
      ⟨[cAtom1, nAtom1, sAtom, oAtom], [], ⟨fun _ => 0, 0⟩⟩ := by
  unfold pairStep
  simp only [List.getD_cons_zero, List.getD_cons_succ, cA_id, cA_x, cA_y, cA_vx, cA_vy,
    cA_bonds, cA_mass, cA_radius, cA_z, cA_v, nA_id, nA_x, nA_y, nA_vx, nA_vy, nA_bonds,
    nA_mass, nA_radius, nA_z, nA_v, getBondOrder, dragGroupHas_empty, none_eq_some_false]
  norm_num [COVALENT_Z, c6_sqrt1600,
    (show ¬("b" = "c1" ∨ "b" = "c2") by decide)]
  unfold pairChemistry
  simp only [List.getD_cons_zero, List.getD_cons_succ, cA_id, cA_x, cA_y, cA_vx, cA_vy,
    cA_bonds, cA_mass, cA_radius, cA_z, cA_v, nA_id, nA_x, nA_y, nA_vx, nA_vy, nA_bonds,
    nA_mass, nA_radius, nA_z, nA_v, sA_id, sA_bonds, sA_z, sA_v, oA_id, oA_bonds, oA_z,
    oA_v, getBondOrder]
  norm_num [COVALENT_Z, c6_strain5, c6_addBond, c6_count_b, c6_find_c1, c6_fdiv1,
    REACTION_THRESHOLD_SQ, sA_bonds, sA_z, sA_v]

theorem c6_hbo1 : hasBetterOption [cAtom1, nAtom1, sAtom, oAtom] cAtom1 "c1" 1 = false := rfl

theorem c6_hbo2 : hasBetterOption [cAtom1, nAtom1, sAtom, oAtom] sAtom "a" 1 = false := rfl

theorem c6_count_c1a : List.count "c1" ["c1", "c2", "b"] = 1 := rfl

theorem c6_count_c1b : List.count "c1" ["c2", "b"] = 0 := rfl

theorem c6_find_b :
    List.find? (fun at2 => at2.id = "b") [cAtom1, nAtom1, sAtom, oAtom] = some nAtom1 := rfl

theorem c6_common02 :
    List.find? (fun id => decide (id = "a") || (decide (id = "b") ||
      (decide (id = "d1") || (decide (id = "d2") || decide (id = "d3")))))
      ["c1", "c2", "b"] = some "b" := rfl

theorem c6_fdiv0 : Int.fdiv 0 2 = 0 := rfl

theorem c6_pair02 :
    pairStep none (some []) ⟨[cAtom1, nAtom1, sAtom, oAtom], [], ⟨fun _ => 0, 0⟩⟩ 0 2 =
      ⟨[cAtom1, nAtom1, sAtom, oAtom], [], ⟨fun _ => 0, 0⟩⟩ := by
  unfold pairStep
  simp only [List.getD_cons_zero, List.getD_cons_succ, cA1_id, cA1_x, cA1_y, cA1_vx,
    cA1_vy, cA1_bonds, cA1_mass, cA1_radius, cA1_z, cA1_v, sA_id, sA_x, sA_y, sA_vx,
    sA_vy, sA_bonds, sA_mass, sA_radius, sA_z, sA_v, getBondOrder, dragGroupHas_empty,
    none_eq_some_false]
  norm_num [COVALENT_Z, c6_mulself329, c6_sqrt729, c6_count_c1a, c6_count_c1b]
  rw [bondForces_still [cAtom1, nAtom1, sAtom, oAtom] cAtom1 sAtom (20 / 27)
    (Real.sqrt 329 / 27) 27 30 1 (1 / 12) (1 / 32) (by norm_num)
    (by rw [sA_vx, cA1_vx]; ring) (by rw [sA_vy, cA1_vy]; ring)]
  unfold pairChemistry
  simp only [List.getD_cons_zero, List.getD_cons_succ, cA1_id, cA1_x, cA1_y, cA1_vx,
    cA1_vy, cA1_bonds, cA1_mass, cA1_radius, cA1_z, cA1_v, sA_id, sA_x, sA_y, sA_vx,
    sA_vy, sA_bonds, sA_mass, sA_radius, sA_z, sA_v, nA1_bonds, nA1_z, nA1_v,
    getBondOrder]
  norm_num [COVALENT_Z, c6_count_c1a, c6_count_c1b, c6_hbo1, c6_hbo2, c6_common02,
    c6_find_b, c6_strain3, c6_fdiv0, REACTION_THRESHOLD_SQ, nA1_bonds, nA1_z, nA1_v]

theorem c6_count_c2a : List.count "c2" ["c1", "c2", "b"] = 1 := rfl

theorem c6_count_c2a1 : List.count "c2" ["c2", "b"] = 1 := rfl

theorem c6_count_c2a2 : List.count "c2" ["b"] = 0 := rfl

theorem c6_count_c1n : List.count "c1" ["c1", "c2", "a"] = 1 := rfl

theorem c6_count_c1n1 : List.count "c1" ["c2", "a"] = 0 := rfl

theorem c6_count_c2n : List.count "c2" ["c1", "c2", "a"] = 1 := rfl

theorem c6_count_c2n1 : List.count "c2" ["c2", "a"] = 1 := rfl

theorem c6_count_c2n2 : List.count "c2" ["a"] = 0 := rfl

theorem c6_count_c2s : List.count "c2" ["a", "b", "d1", "d2", "d3"] = 0 := rfl

theorem c6_pair03 :
    pairStep none (some []) ⟨[cAtom1, nAtom1, sAtom, oAtom], [], ⟨fun _ => 0, 0⟩⟩ 0 3 =
      ⟨[cAtom1, nAtom1, sAtom, oAtom], [], ⟨fun _ => 0, 0⟩⟩ := by
  unfold pairStep
  simp only [List.getD_cons_zero, List.getD_cons_succ, cA1_id, cA1_x, cA1_y, cA1_vx,
    cA1_vy, cA1_bonds, cA1_mass, cA1_radius, cA1_z, cA1_v, oA_id, oA_x, oA_y, oA_vx,
    oA_vy, oA_bonds, oA_mass, oA_radius, oA_z, oA_v, getBondOrder, dragGroupHas_empty,
    none_eq_some_false]
  norm_num [COVALENT_Z, c6_mulself329, c6_sqrt729, c6_count_c2a, c6_count_c2a1,
    c6_count_c2a2]
  rw [bondForces_still [cAtom1, nAtom1, sAtom, oAtom] cAtom1 oAtom (20 / 27)
    (-Real.sqrt 329 / 27) 27 30 1 (1 / 12) (1 / 16) (by norm_num)
    (by rw [oA_vx, cA1_vx]; ring) (by rw [oA_vy, cA1_vy]; ring)]
  unfold pairChemistry
  simp only [List.getD_cons_zero, List.getD_cons_succ, cA1_id, cA1_bonds, cA1_z, cA1_v,
    oA_id, oA_bonds, oA_z, oA_v, cA1_vx, cA1_vy, oA_vx, oA_vy, getBondOrder]
  norm_num [COVALENT_Z, c6_count_c2a, c6_count_c2a1, c6_count_c2a2,
    REACTION_THRESHOLD_SQ]

theorem c6_pair12 :
    pairStep none (some []) ⟨[cAtom1, nAtom1, sAtom, oAtom], [], ⟨fun _ => 0, 0⟩⟩ 1 2 =
      ⟨[cAtom1, nAtom1, sAtom, oAtom], [], ⟨fun _ => 0, 0⟩⟩ := by
  unfold pairStep
  simp only [List.getD_cons_zero, List.getD_cons_succ, nA1_id, nA1_x, nA1_y, nA1_vx,
    nA1_vy, nA1_bonds, nA1_mass, nA1_radius, nA1_z, nA1_v, sA_id, sA_x, sA_y, sA_vx,
    sA_vy, sA_bonds, sA_mass, sA_radius, sA_z, sA_v, getBondOrder, dragGroupHas_empty,
    none_eq_some_false]
  norm_num [COVALENT_Z, c6_mulself329, c6_sqrt729, c6_count_c1n, c6_count_c1n1]
  rw [bondForces_still [cAtom1, nAtom1, sAtom, oAtom] nAtom1 sAtom (-(20 / 27))
    (Real.sqrt 329 / 27) 27 30 1 (1 / 14) (1 / 32) (by norm_num)
    (by rw [sA_vx, nA1_vx]; ring) (by rw [sA_vy, nA1_vy]; ring)]
  unfold pairChemistry
  simp only [List.getD_cons_zero, List.getD_cons_succ, nA1_id, nA1_bonds, nA1_z, nA1_v,
    sA_id, sA_bonds, sA_z, sA_v, nA1_vx, nA1_vy, sA_vx, sA_vy, getBondOrder]
  norm_num [COVALENT_Z, c6_count_c1n, c6_count_c1n1, REACTION_THRESHOLD_SQ]

theorem c6_pair13 :
    pairStep none (some []) ⟨[cAtom1, nAtom1, sAtom, oAtom], [], ⟨fun _ => 0, 0⟩⟩ 1 3 =
      ⟨[cAtom1, nAtom1, sAtom, oAtom], [], ⟨fun _ => 0, 0⟩⟩ := by
  unfold pairStep
  simp only [List.getD_cons_zero, List.getD_cons_succ, nA1_id, nA1_x, nA1_y, nA1_vx,
    nA1_vy, nA1_bonds, nA1_mass, nA1_radius, nA1_z, nA1_v, oA_id, oA_x, oA_y, oA_vx,
    oA_vy, oA_bonds, oA_mass, oA_radius, oA_z, oA_v, getBondOrder, dragGroupHas_empty,
    none_eq_some_false]
  norm_num [COVALENT_Z, c6_mulself329, c6_sqrt729, c6_count_c2n, c6_count_c2n1,
    c6_count_c2n2]
  rw [bondForces_still [cAtom1, nAtom1, sAtom, oAtom] nAtom1 oAtom (-(20 / 27))
    (-Real.sqrt 329 / 27) 27 30 1 (1 / 14) (1 / 16) (by norm_num)
    (by rw [oA_vx, nA1_vx]; ring) (by rw [oA_vy, nA1_vy]; ring)]
  unfold pairChemistry
  simp only [List.getD_cons_zero, List.getD_cons_succ, nA1_id, nA1_bonds, nA1_z, nA1_v,
    oA_id, oA_bonds, oA_z, oA_v, nA1_vx, nA1_vy, oA_vx, oA_vy, getBondOrder]
  norm_num [COVALENT_Z, c6_count_c2n, c6_count_c2n1, c6_count_c2n2,
    REACTION_THRESHOLD_SQ]

theorem c6_dd :
    (-Real.sqrt 329 - Real.sqrt 329) * (-Real.sqrt 329 - Real.sqrt 329) = 1316 := by
  calc (-Real.sqrt 329 - Real.sqrt 329) * (-Real.sqrt 329 - Real.sqrt 329)
      = 4 * (Real.sqrt 329 * Real.sqrt 329) := by ring
    _ = 1316 := by rw [c6_mulself329]; norm_num

theorem c6_pair23 :
    pairStep none (some []) ⟨[cAtom1, nAtom1, sAtom, oAtom], [], ⟨fun _ => 0, 0⟩⟩ 2 3 =
      ⟨[cAtom1, nAtom1, sAtom, oAtom], [], ⟨fun _ => 0, 0⟩⟩ := by
  unfold pairStep
  simp only [List.getD_cons_zero, List.getD_cons_succ, sA_id, sA_x, sA_y, sA_vx,
    sA_vy, sA_bonds, sA_mass, sA_radius, sA_z, sA_v, oA_id, oA_x, oA_y, oA_vx,
    oA_vy, oA_bonds, oA_mass, oA_radius, oA_z, oA_v, getBondOrder, dragGroupHas_empty,
    none_eq_some_false]
  norm_num [COVALENT_Z, c6_dd, c6_count_c2s, c6_s1316_ne0, c6_s1316_lt45,
    c6_s1316_ge30, c6_s1316_le360]
  unfold pairChemistry
  simp only [List.getD_cons_zero, List.getD_cons_succ, sA_id, sA_bonds, sA_z, sA_v,
    oA_id, oA_bonds, oA_z, oA_v, sA_vx, sA_vy, oA_vx, oA_vy, getBondOrder]
  norm_num [COVALENT_Z, c6_count_c2s, REACTION_THRESHOLD_SQ]

theorem c6_resolve :
    resolveInteractions [cAtom, nAtom, sAtom, oAtom] [] ⟨fun _ => 0, 0⟩ none (some []) =
      ⟨[cAtom1, nAtom1, sAtom, oAtom], [], ⟨fun _ => 0, 0⟩⟩ := by
  unfold resolveInteractions innerPairs
  rw [show [cAtom, nAtom, sAtom, oAtom].length = 4 from rfl]
  simp only []
  rw [show List.range 4 = [0, 1, 2, 3] from rfl]
  simp only [List.foldl_cons, List.foldl_nil]
  rw [show List.range' (0 + 1) (4 - (0 + 1)) = [1, 2, 3] from rfl,
    show List.range' (1 + 1) (4 - (1 + 1)) = [2, 3] from rfl,
    show List.range' (2 + 1) (4 - (2 + 1)) = [3] from rfl,
    show List.range' (3 + 1) (4 - (3 + 1)) = ([] : List ℕ) from rfl]
  simp only [List.foldl_cons, List.foldl_nil]
  rw [c6_pair01, c6_pair02, c6_pair03, c6_pair12, c6_pair13, c6_pair23]

/-- **C6** (amended).  The ring-strain veto of the bond-formation rule (3A)
consults only the *first* common neighbor in A's bond-list order
(`a.bonds.find(id => b.bonds.includes(id))`): whenever the 3A entry conditions
hold (bond order < 3 and free valence on both sides) and that first common
neighbor `c` has an ideal angle above 1.48 rad, `pairChemistry` adds no bond
and leaves the state unchanged.  Common neighbors that appear later in A's
bond list are never examined (see the counterexample). -/
theorem pairChemistry_strain_vetoes_first_common_neighbor
    (s : SimState) (i j : ℕ) (cid : String) (c : Atom)
    (h3A : getBondOrder (s.atoms.getD i defaultAtom) ((s.atoms.getD j defaultAtom).id) < 3 ∧
      0 < (if (s.atoms.getD i defaultAtom).element.z ∈ COVALENT_Z
          then (s.atoms.getD i defaultAtom).element.v else 6) -
        ((s.atoms.getD i defaultAtom).bonds.length : Int) ∧
      0 < (if (s.atoms.getD j defaultAtom).element.z ∈ COVALENT_Z
          then (s.atoms.getD j defaultAtom).element.v else 6) -
        ((s.atoms.getD j defaultAtom).bonds.length : Int))
    (hfind : (s.atoms.getD i defaultAtom).bonds.find?
      (fun id => (s.atoms.getD j defaultAtom).bonds.contains id) = some cid)
    (hc : s.atoms.find? (fun at2 => at2.id = cid) = some c)
    (hstrain : 1.48 < (getTargetGeometry c.bonds.length
      (max 0 (Int.fdiv ((if c.element.z ∈ COVALENT_Z then c.element.v else 0) -
        (c.bonds.length : Int)) 2)).toNat).angle) :
    pairChemistry s i j = s := by
  unfold pairChemistry
  simp only []
  rw [if_pos h3A]
  split_ifs
  all_goals
    first
      | rfl
      | (rename_i hmatch
         exfalso
         rw [hfind] at hmatch
         simp only [] at hmatch
         rw [hc] at hmatch
         simp only [] at hmatch
         exact hmatch (decide_eq_true hstrain))

theorem pairChemistry_strain_vetoes_witness :
    pairChemistry ⟨[cAtom1, nAtom1, sAtom, oAtom], [], ⟨fun _ => 0, 0⟩⟩ 0 2 =
      ⟨[cAtom1, nAtom1, sAtom, oAtom], [], ⟨fun _ => 0, 0⟩⟩ :=
  pairChemistry_strain_vetoes_first_common_neighbor
    ⟨[cAtom1, nAtom1, sAtom, oAtom], [], ⟨fun _ => 0, 0⟩⟩ 0 2 "b" nAtom1
    (by refine ⟨by decide, by decide, by decide⟩)
    rfl
    rfl
    (by
      rw [nA1_bonds, nA1_z, nA1_v]
      norm_num [COVALENT_Z, getTargetGeometry, c6_fdiv0]
      nlinarith [Real.pi_gt_three])

/-- C6 counterexample: in the four-atom state `[cAtom, nAtom, sAtom, oAtom]`,
the atoms `"a"` (C) and `"b"` (N) are both bonded to the strained common
neighbor `"c2"` (O, 2 electron domains, ideal angle π > 1.48), are within
bonding distance, have free valence, and bond order 0 < 3 — yet
`resolveInteractions` *does* form the a–b bond, because the strain check only
examines the first common neighbor `"c1"` (S, 5 domains, ideal angle
72° < 1.48 rad). -/
theorem resolveInteractions_adds_bond_despite_strained_neighbor :
    ("c2" ∈ cAtom.bonds ∧ "c2" ∈ nAtom.bonds ∧ oAtom.id = "c2" ∧
     getBondOrder cAtom nAtom.id < 3 ∧
     (nAtom.x - cAtom.x) * (nAtom.x - cAtom.x) + (nAtom.y - cAtom.y) * (nAtom.y - cAtom.y) <
       ((cAtom.radius + nAtom.radius) * 1.5) ^ 2 ∧
     (cAtom.bonds.length : Int) <
       (if cAtom.element.z ∈ COVALENT_Z then cAtom.element.v else 6) ∧
     (nAtom.bonds.length : Int) <
       (if nAtom.element.z ∈ COVALENT_Z then nAtom.element.v else 6) ∧
     1.48 < (getTargetGeometry oAtom.bonds.length
       (max 0 (Int.fdiv ((if oAtom.element.z ∈ COVALENT_Z then oAtom.element.v else 0) -
         (oAtom.bonds.length : Int)) 2)).toNat).angle) ∧
    (resolveInteractions [cAtom, nAtom, sAtom, oAtom] [] ⟨fun _ => 0, 0⟩ none
        (some [])).atoms.map (fun x => (x.id, x.bonds)) =
      [("a", ["c1", "c2", "b"]), ("b", ["c1", "c2", "a"]),
       ("c1", ["a", "b", "d1", "d2", "d3"]), ("c2", ["a", "b"])] := by
  constructor
  · refine ⟨by decide, by decide, rfl, by decide, ?_, by decide, by decide, ?_⟩
    · rw [nA_x, cA_x, nA_y, cA_y, cA_radius, nA_radius]
      norm_num
    · rw [oA_bonds, oA_z, oA_v]
      norm_num [COVALENT_Z, getTargetGeometry, c6_fdiv0]
      nlinarith [Real.pi_gt_three]
  · rw [c6_resolve]
    rfl

/-! ### C5: momentum accounting for the VSEPR solver -/

noncomputable def momX (atoms : List Atom) (d : String → ℝ × ℝ) : ℝ :=
  (atoms.map (fun a => a.mass * (d a.id).1)).sum

noncomputable def momY (atoms : List Atom) (d : String → ℝ × ℝ) : ℝ :=
  (atoms.map (fun a => a.mass * (d a.id).2)).sum

noncomputable def totalMomentumX (atoms : List Atom) : ℝ :=
  (atoms.map (fun a => a.mass * a.vx)).sum

noncomputable def totalMomentumY (atoms : List Atom) : ℝ :=
  (atoms.map (fun a => a.mass * a.vy)).sum

theorem sum_ite_id_zero (g : Atom → ℝ) (id : String) :
    ∀ (atoms : List Atom), id ∉ atoms.map Atom.id →
      (atoms.map (fun a => if a.id = id then g a else 0)).sum = 0 := by
  intro atoms
  induction atoms with
  | nil => intro _; rfl
  | cons x xs ih =>
    intro h
    rw [List.map_cons, List.mem_cons] at h
    push_neg at h
    rw [List.map_cons, List.sum_cons, if_neg (fun he => h.1 he.symm), ih h.2, add_zero]

theorem sum_ite_id_single (g : Atom → ℝ) :
    ∀ {atoms : List Atom} {curr : Atom}, IdsNodup atoms → curr ∈ atoms →
      (atoms.map (fun a => if a.id = curr.id then g a else 0)).sum = g curr := by
  intro atoms
  induction atoms with
  | nil =>
    intro curr _ hc
    exact absurd hc (List.not_mem_nil curr)
  | cons x xs ih =>
    intro curr hnd hc
    have hnd' := hnd
    unfold IdsNodup at hnd'
    rw [List.map_cons, List.nodup_cons] at hnd'
    rcases List.mem_cons.mp hc with rfl | hc
    · rw [List.map_cons, List.sum_cons, if_pos rfl, sum_ite_id_zero g curr.id xs hnd'.1,
        add_zero]
    · have hx : ¬x.id = curr.id := by
        intro he
        apply hnd'.1
        rw [he]
        exact List.mem_map.mpr ⟨curr, hc, rfl⟩
      rw [List.map_cons, List.sum_cons, if_neg hx, ih hnd'.2 hc, zero_add]

theorem momX_addDelta {atoms : List Atom} {curr : Atom} (hnd : IdsNodup atoms)
    (hc : curr ∈ atoms) (d : String → ℝ × ℝ) (dx dy : ℝ) :
    momX atoms (addDelta d curr.id dx dy) = momX atoms d + curr.mass * dx := by
  simp only [momX, addDelta]
  have hmap : atoms.map (fun a => a.mass *
        (if a.id = curr.id then ((d curr.id).1 + dx, (d curr.id).2 + dy) else d a.id).1) =
      atoms.map (fun a => a.mass * (d a.id).1 + (if a.id = curr.id then a.mass * dx else 0)) := by
    apply List.map_congr_left
    intro a _
    by_cases hid : a.id = curr.id
    · rw [if_pos hid, if_pos hid, hid]
      ring
    · rw [if_neg hid, if_neg hid, add_zero]
  rw [hmap, List.sum_map_add, sum_ite_id_single (fun a => a.mass * dx) hnd hc]

theorem momY_addDelta {atoms : List Atom} {curr : Atom} (hnd : IdsNodup atoms)
    (hc : curr ∈ atoms) (d : String → ℝ × ℝ) (dx dy : ℝ) :
    momY atoms (addDelta d curr.id dx dy) = momY atoms d + curr.mass * dy := by
  simp only [momY, addDelta]
  have hmap : atoms.map (fun a => a.mass *
        (if a.id = curr.id then ((d curr.id).1 + dx, (d curr.id).2 + dy) else d a.id).2) =
      atoms.map (fun a => a.mass * (d a.id).2 + (if a.id = curr.id then a.mass * dy else 0)) := by
    apply List.map_congr_left
    intro a _
    by_cases hid : a.id = curr.id
    · rw [if_pos hid, if_pos hid, hid]
      ring
    · rw [if_neg hid, if_neg hid, add_zero]
  rw [hmap, List.sum_map_add, sum_ite_id_single (fun a => a.mass * dy) hnd hc]

/-- The three deltas of one angular pair — `f/m_curr` on `curr`, `f'/m_next`
on `next`, `-(f+f')/m_center` on the center — carry zero net momentum. -/
theorem momXY_vsepr_triple {atoms : List Atom} {c1 c2 c3 : Atom} (hnd : IdsNodup atoms)
    (h1 : c1 ∈ atoms) (h2 : c2 ∈ atoms) (h3 : c3 ∈ atoms)
    (hm1 : c1.mass ≠ 0) (hm2 : c2.mass ≠ 0) (hm3 : c3.mass ≠ 0)
    (d : String → ℝ × ℝ) (f1x f1y f2x f2y : ℝ) :
    momX atoms (addDelta (addDelta (addDelta d
        c1.id (f1x * (1.0 / c1.mass)) (f1y * (1.0 / c1.mass)))
        c2.id (f2x * (1.0 / c2.mass)) (f2y * (1.0 / c2.mass)))
        c3.id (-(f1x + f2x) * (1.0 / c3.mass)) (-(f1y + f2y) * (1.0 / c3.mass))) =
      momX atoms d ∧
    momY atoms (addDelta (addDelta (addDelta d
        c1.id (f1x * (1.0 / c1.mass)) (f1y * (1.0 / c1.mass)))
        c2.id (f2x * (1.0 / c2.mass)) (f2y * (1.0 / c2.mass)))
        c3.id (-(f1x + f2x) * (1.0 / c3.mass)) (-(f1y + f2y) * (1.0 / c3.mass))) =
      momY atoms d := by
  constructor
  · rw [momX_addDelta hnd h3, momX_addDelta hnd h2, momX_addDelta hnd h1]
    field_simp
    ring
  · rw [momY_addDelta hnd h3, momY_addDelta hnd h2, momY_addDelta hnd h1]
    field_simp
    ring

theorem vseprPairStep_momentum {atoms : List Atom} (hnd : IdsNodup atoms)
    (hmass : ∀ x ∈ atoms, x.mass ≠ 0) {a : Atom} (ha : a ∈ atoms)
    (targetRad : ℝ) (isClosed : Bool) {sortedNeighbors : List (Atom × ℝ)}
    (hsn : ∀ p ∈ sortedNeighbors, p.1 ∈ atoms) (d : String → ℝ × ℝ) {jj : ℕ}
    (hjj : jj < sortedNeighbors.length) :
    momX atoms (vseprPairStep a targetRad isClosed sortedNeighbors d jj) = momX atoms d ∧
    momY atoms (vseprPairStep a targetRad isClosed sortedNeighbors d jj) = momY atoms d := by
  unfold vseprPairStep
  split
  · exact ⟨rfl, rfl⟩
  · have hcu : (sortedNeighbors.getD jj (defaultAtom, 0)).1 ∈ atoms := by
      apply hsn
      rw [List.getD_eq_getElem sortedNeighbors (defaultAtom, 0) hjj]
      exact sortedNeighbors.getElem_mem hjj
    have hlen0 : 0 < sortedNeighbors.length := Nat.lt_of_le_of_lt (Nat.zero_le jj) hjj
    have hjn : (jj + 1) % sortedNeighbors.length < sortedNeighbors.length :=
      Nat.mod_lt _ hlen0
    have hne : (sortedNeighbors.getD ((jj + 1) % sortedNeighbors.length)
        (defaultAtom, 0)).1 ∈ atoms := by
      apply hsn
      rw [List.getD_eq_getElem sortedNeighbors (defaultAtom, 0) hjn]
      exact sortedNeighbors.getElem_mem hjn
    exact momXY_vsepr_triple hnd hcu hne ha (hmass _ hcu) (hmass _ hne) (hmass _ ha)
      d _ _ _ _

theorem momXY_foldl {α : Type _} {atoms : List Atom}
    {f : (String → ℝ × ℝ) → α → String → ℝ × ℝ} :
    ∀ (l : List α), (∀ (d2 : String → ℝ × ℝ), ∀ x ∈ l,
        momX atoms (f d2 x) = momX atoms d2 ∧ momY atoms (f d2 x) = momY atoms d2) →
      ∀ (d2 : String → ℝ × ℝ),
        momX atoms (l.foldl f d2) = momX atoms d2 ∧
        momY atoms (l.foldl f d2) = momY atoms d2 := by
  intro l
  induction l with
  | nil => exact fun _ d2 => ⟨rfl, rfl⟩
  | cons x xs ih =>
    intro hf d2
    rw [List.foldl_cons]
    have hx := hf d2 x (List.mem_cons_self x xs)
    have hrest := ih (fun d3 jj hjj => hf d3 jj (List.mem_cons_of_mem x hjj)) (f d2 x)
    exact ⟨hrest.1.trans hx.1, hrest.2.trans hx.2⟩

theorem mem_fst_sorted {atoms : List Atom} {ids : List String} {f : Atom → ℝ}
    {p : Atom × ℝ}
    (hp : p ∈ sortByAngle ((ids.filterMap
      (fun id => atoms.find? (fun x => x.id = id))).map (fun n => (n, f n)))) :
    p.1 ∈ atoms := by
  rw [mem_sortByAngle] at hp
  rcases List.mem_map.mp hp with ⟨n, hn, rfl⟩
  rcases List.mem_filterMap.mp hn with ⟨id0, _, hfind⟩
  exact List.mem_of_find?_eq_some hfind

theorem vseprCenter_momentum {atoms : List Atom} (hnd : IdsNodup atoms)
    (hmass : ∀ x ∈ atoms, x.mass ≠ 0) (d : String → ℝ × ℝ) {a : Atom} (ha : a ∈ atoms) :
    momX atoms (vseprCenter atoms d a) = momX atoms d ∧
    momY atoms (vseprCenter atoms d a) = momY atoms d := by
  unfold vseprCenter
  simp only []
  split
  · split
    · exact ⟨rfl, rfl⟩
    · exact momXY_foldl _
        (fun d2 jj hjj => vseprPairStep_momentum hnd hmass ha _ _
          (fun p hp => mem_fst_sorted hp) d2 (List.mem_range.mp hjj)) d
  · exact ⟨rfl, rfl⟩

theorem vseprDeltas_momentum {atoms : List Atom} (hnd : IdsNodup atoms)
    (hmass : ∀ x ∈ atoms, x.mass ≠ 0) :
    momX atoms (vseprDeltas atoms) = 0 ∧ momY atoms (vseprDeltas atoms) = 0 := by
  unfold vseprDeltas
  rcases momXY_foldl atoms (fun d2 x hx => vseprCenter_momentum hnd hmass d2 hx)
    (fun _ => (0, 0)) with ⟨hX, hY⟩
  constructor
  · rw [hX]
    simp [momX]
  · rw [hY]
    simp [momY]

/-- **C5.** One call to `applyVSEPR` leaves the net linear momentum
`Σ mass·velocity` of the atom list unchanged (given unique ids and nonzero
masses), and the three mass-weighted deltas of every angular pair — the two
tangential pushes on the neighbors and the reaction on the center — sum to
zero net momentum. -/
theorem applyVSEPR_conserves_momentum (atoms : List Atom)
    (dragGroup : Option (List String)) (hnd : IdsNodup atoms)
    (hmass : ∀ x ∈ atoms, x.mass ≠ 0) :
    totalMomentumX (applyVSEPR atoms dragGroup) = totalMomentumX atoms ∧
    totalMomentumY (applyVSEPR atoms dragGroup) = totalMomentumY atoms ∧
    (∀ (d : String → ℝ × ℝ) (a : Atom), a ∈ atoms →
      ∀ (targetRad : ℝ) (isClosed : Bool) (sortedNeighbors : List (Atom × ℝ)),
        (∀ p ∈ sortedNeighbors, p.1 ∈ atoms) →
        ∀ jj : ℕ, jj < sortedNeighbors.length →
          momX atoms (vseprPairStep a targetRad isClosed sortedNeighbors d jj) =
            momX atoms d ∧
          momY atoms (vseprPairStep a targetRad isClosed sortedNeighbors d jj) =
            momY atoms d) := by
  rcases vseprDeltas_momentum hnd hmass with ⟨hX, hY⟩
  refine ⟨?_, ?_, ?_⟩
  · unfold applyVSEPR totalMomentumX
    simp only []
    rw [List.map_map]
    have hfuse : ((fun (a : Atom) => a.mass * a.vx) ∘
        (fun (a : Atom) => ({ a with
          vx := a.vx + (vseprDeltas atoms a.id).1,
          vy := a.vy + (vseprDeltas atoms a.id).2 } : Atom))) =
        fun a => a.mass * a.vx + a.mass * (vseprDeltas atoms a.id).1 := by
      funext a
      show a.mass * (a.vx + (vseprDeltas atoms a.id).1) = _
      ring
    rw [hfuse, List.sum_map_add]
    have : momX atoms (vseprDeltas atoms) = 0 := hX
    unfold momX at this
    rw [this, add_zero]
  · unfold applyVSEPR totalMomentumY
    simp only []
    rw [List.map_map]
    have hfuse : ((fun (a : Atom) => a.mass * a.vy) ∘
        (fun (a : Atom) => ({ a with
          vx := a.vx + (vseprDeltas atoms a.id).1,
          vy := a.vy + (vseprDeltas atoms a.id).2 } : Atom))) =
        fun a => a.mass * a.vy + a.mass * (vseprDeltas atoms a.id).2 := by
      funext a
      show a.mass * (a.vy + (vseprDeltas atoms a.id).2) = _
      ring
    rw [hfuse, List.sum_map_add]
    have : momY atoms (vseprDeltas atoms) = 0 := hY
    unfold momY at this
    rw [this, add_zero]
  · intro d a ha targetRad isClosed sortedNeighbors hsn jj hjj
    exact vseprPairStep_momentum hnd hmass ha targetRad isClosed hsn d hjj

def waterO : Atom := ⟨"o", 100, 100, 0, 0, defaultElement, 0, ["h1", "h2"], 16, 15⟩

def waterH1 : Atom := ⟨"h1", 123, 100, 0, 0, defaultElement, 0, ["o"], 1, 15⟩

def waterH2 : Atom := ⟨"h2", 100, 123, 0, 0, defaultElement, 0, ["o"], 1, 15⟩

theorem applyVSEPR_conserves_momentum_witness :
    IdsNodup [waterO, waterH1, waterH2] ∧
    totalMomentumX (applyVSEPR [waterO, waterH1, waterH2] none) =
      totalMomentumX [waterO, waterH1, waterH2] ∧
    totalMomentumY (applyVSEPR [waterO, waterH1, waterH2] none) =
      totalMomentumY [waterO, waterH1, waterH2] :=
  have hmass : ∀ x ∈ [waterO, waterH1, waterH2], x.mass ≠ 0 := by
    intro x hx
    rcases List.mem_cons.mp hx with rfl | hx
    · show (16 : ℝ) ≠ 0
      norm_num
    rcases List.mem_cons.mp hx with rfl | hx
    · show (1 : ℝ) ≠ 0
      norm_num
    rcases List.mem_cons.mp hx with rfl | hx
    · show (1 : ℝ) ≠ 0
      norm_num
    · exact absurd hx (List.not_mem_nil x)
  have hnd : IdsNodup [waterO, waterH1, waterH2] := by
    unfold IdsNodup waterO waterH1 waterH2
    decide
  ⟨hnd,
   (applyVSEPR_conserves_momentum [waterO, waterH1, waterH2] none hnd hmass).1,
   (applyVSEPR_conserves_momentum [waterO, waterH1, waterH2] none hnd hmass).2.1⟩

theorem engine_ops_preserve_bond_symmetry_witness :
    Sym (addBond [] "a" "b") ∧
    Sym (breakBond [] "a" "b") ∧
    Sym (decrementBond [] "a" "b").1 ∧
    Sym (annealAtoms [] none) ∧
    Sym (resolveInteractions [] [] ⟨fun _ => 0, 0⟩ none none).atoms ∧
    Sym (processDecayV1 [] [] [] ⟨fun _ => 0, 0⟩ 0).atoms ∧
    Sym (processDecayV2 [] [] [] ⟨fun _ => 0, 0⟩ 0).atoms ∧
    Sym (deleteAtom ⟨[], [], ⟨fun _ => 0, 0⟩⟩ 0 0).atoms :=
  engine_ops_preserve_bond_symmetry [] [] ⟨fun _ => 0, 0⟩ [] 0 0 0 0 "a" "b" none none
    (by simp [IdsNodup]) (by intro a ha; exact absurd ha (List.not_mem_nil a))

end SimChem
